import Mathlib

/-! Layered tile compositor of the LDtk import demo (`src/main.cpp`).

A shallow embedding of `TileSetImage`, `LdtkAssets::load`, `LdtkAssets::drawTiles`
and `LdtkAssets::draw`, followed by theorems about the order and the content of
the draw calls they issue.

Modelling conventions.

* `std::unordered_map<K, V>` is a finite partial function `K → Option V`
  (`UMap`); iteration order of the container is never observed by the code.
* `float`/`double` values are rationals.  The conversion of an `int` to `float`
  and the addition of two `float`s round to the nearest binary32 value, ties to
  even (`float32`); overflow and subnormal numbers are out of reach of the
  values the code computes.  A `dimensions_t` value, its half and the constants
  `1`, `-1`, `0` are binary32 values, so their conversions are exact; the
  `double` products of `load` are exact on their range.
* `uint8_t` variables (`tileIdx`, `idxOfDelayedDraw`,
  `rulePriorityOfDelayedDraw`) are naturals reduced modulo `256` at every
  assignment.
* Undefined behaviour (`operator[]` of a vector out of range, `front()` of an
  empty vector) is the failure `none`.
* The render window is the list of sprites passed to `window.draw`, oldest
  first.  Each recorded call also remembers the cell coordinates it was issued
  with, the tile it paints and the stack index of that tile (`cellX`, `cellY`,
  `tile`, `tileIdx`), so that theorems can speak about the placement a call
  belongs to.
* The types of the `ldtkimport` library (`TileInCell`, `Layer`, `TileSet`,
  `LdtkDefFile`, `Level`) are records holding what `main.cpp` reads from them.
  Its integer types `uid_t` and `tileid_t` are integers, `dimensions_t` is a
  natural number; products of cell coordinates and cell sizes are taken to fit
  their machine type.
-/

namespace LdtkDemo

/-! ## Containers and library types -/

/-- A `std::unordered_map<K, V>` seen as a finite partial function. -/
abbrev UMap (κ : Type) (ν : Type) : Type := κ → Option ν

/-- The empty map of a default-constructed `std::unordered_map`. -/
def UMap.empty {κ ν : Type} : UMap κ ν := fun _ => none

/-- Member function `count` of the map: `1` when the key is present, else `0`. -/
def UMap.count {κ ν : Type} (m : UMap κ ν) (k : κ) : Nat :=
  match m k with
  | some _ => 1
  | none => 0

/-- Member function `insert(std::make_pair(k, v))`: a present key keeps its value. -/
def UMap.insert {κ ν : Type} [DecidableEq κ] (m : UMap κ ν) (k : κ) (v : ν) : UMap κ ν :=
  match m k with
  | some _ => m
  | none => fun j => if j = k then some v else m j

/-- Member `operator[]`: the mapped value, after inserting a value-initialised
entry when the key is absent.  Returns the value read and the map afterwards. -/
def UMap.index {κ ν : Type} [DecidableEq κ] [Inhabited ν] (m : UMap κ ν) (k : κ) : ν × UMap κ ν :=
  match m k with
  | some v => (v, m)
  | none => (default, fun j => if j = k then some default else m j)

/-- The rectangle type `sf::IntRect` (left, top, width, height). -/
structure IntRect where
  left : Int
  top : Int
  width : Int
  height : Int
deriving DecidableEq, Repr

/-- The default constructor of `sf::IntRect` zeroes every field. -/
instance : Inhabited IntRect := ⟨⟨0, 0, 0, 0⟩⟩

/-- An `sf::Texture`, identified by the file it was loaded from. -/
structure Texture where
  source : String
deriving DecidableEq, Repr

instance : Inhabited Texture := ⟨⟨""⟩⟩

/-- Record `ldtkimport::TileInCell`: one tile placed in a cell.  `priority` is read into
`uint8_t` variables by the compositor. -/
structure TileInCell where
  tileId : Int
  priority : Nat
  offsetUp : Bool
  offsetDown : Bool
  offsetLeft : Bool
  offsetRight : Bool
  flippedX : Bool
  flippedY : Bool
  final : Bool
deriving DecidableEq, Repr

/-- Modelled from the spec: `TileInCell::hasOffsetRight` is declared in the
`ldtkimport` headers; it reads the right-offset flag of spec §3. -/
def TileInCell.hasOffsetRight (t : TileInCell) : Bool := t.offsetRight

/-- Modelled from the spec: `TileInCell::isFlippedX` is declared in the `ldtkimport`
headers; it reads the `flipX` flag of spec §3. -/
def TileInCell.isFlippedX (t : TileInCell) : Bool := t.flippedX

/-- Modelled from the spec: `TileInCell::isFlippedY` is declared in the `ldtkimport`
headers; it reads the `flipY` flag of spec §3. -/
def TileInCell.isFlippedY (t : TileInCell) : Bool := t.flippedY

/-- Modelled from the spec: `TileInCell::getOffsetX` is declared in the `ldtkimport`
headers, which are not part of the sources.  Spec §4.2 step 4: the offset is
plus or minus the given amount per the active flag, left subtracts and right
adds on X, zero if neither flag of the pair is set. -/
def TileInCell.getOffsetX (t : TileInCell) (amount : ℚ) : ℚ :=
  if t.offsetLeft then -amount else if t.offsetRight then amount else 0

/-- Modelled from the spec: `TileInCell::getOffsetY` is declared in the `ldtkimport`
headers, which are not part of the sources.  Spec §4.2 step 4: up subtracts and
down adds on Y, zero if neither flag of the pair is set. -/
def TileInCell.getOffsetY (t : TileInCell) (amount : ℚ) : ℚ :=
  if t.offsetUp then -amount else if t.offsetDown then amount else 0

/-- The vector type `ldtkimport::tiles_t`: the stack of tiles of one cell, front first. -/
abbrev tiles_t : Type := List TileInCell

/-- Grid `ldtkimport::TileGrid`, read through `tileGrid(cellX, cellY)`. -/
abbrev TileGrid : Type := Nat → Nat → tiles_t

/-- Record `ldtkimport::Level`: the grid size and one tile grid per layer index. -/
structure Level where
  getWidth : Nat
  getHeight : Nat
  getTileGrid : Nat → TileGrid

/-- Record `ldtkimport::Rule`: only the tile ids it can place are read. -/
structure Rule where
  tileIds : List Int

/-- Record `ldtkimport::RuleGroup`. -/
structure RuleGroup where
  rules : List Rule

/-- Record `ldtkimport::Layer`: the fields `main.cpp` reads. -/
structure Layer where
  tilesetDefUid : Int
  cellPixelSize : Nat
  ruleGroups : List RuleGroup

/-- Record `ldtkimport::TileSet`: uid, image path and the native grid coordinates
`(tileX, tileY)` that `getCoordinates` writes for a tile id. -/
structure TileSet where
  uid : Int
  imagePath : String
  getCoordinates : Int → Int × Int

/-- Record `ldtkimport::LdtkDefFile`: the tilesets and layers it iterates, and the
lookup `getTileset` (`none` when it returns `false`). -/
structure LdtkDefFile where
  tilesets : List TileSet
  layers : List Layer
  getTileset : Int → Option TileSet

/-- Accessor `LdtkDefFile::getLayerCount`. -/
def LdtkDefFile.getLayerCount (ldtk : LdtkDefFile) : Nat := ldtk.layers.length

/-- Accessor `LdtkDefFile::getLayer`; an index past the end is undefined behaviour. -/
def LdtkDefFile.getLayer (ldtk : LdtkDefFile) (i : Nat) : Option Layer := ldtk.layers[i]?

/-! ## `main.cpp` -/

/-- The struct `TileSetImage` (lines 14-18). -/
structure TileSetImage where
  image : Texture
  tiles : UMap Int IntRect

instance : Inhabited TileSetImage := ⟨⟨default, UMap.empty⟩⟩

/-- One call `window.draw(sprite)`: the state of the sprite at the call
(texture, texture rectangle, position, origin, scale), together with the cell
coordinates the call was issued with, the tile it paints and the index of
that tile in its stack. -/
structure DrawCmd where
  texture : Texture
  textureRect : IntRect
  position : ℚ × ℚ
  origin : ℚ × ℚ
  scale : ℚ × ℚ
  cellX : Nat
  cellY : Nat
  tileIdx : Nat
  tile : TileInCell
deriving DecidableEq

/-- The struct `LdtkAssets` (lines 20-25).  The sprite carries no state from one
draw call to the next: each call sets every property it uses. -/
structure LdtkAssets where
  ldtk : LdtkDefFile
  tilesetImages : UMap Int TileSetImage

/-- What the outside world answers to `load`: the parsed file for
`ldtk.loadFromFile` (`none` on failure) and whether `image.loadFromFile`
succeeds on a path. -/
structure Files where
  loadFromFile : String → Option LdtkDefFile
  imageLoads : String → Bool

/-- Index of the last `'\\'` or `'/'` of a path, `std::string::find_last_of("\\/")`. -/
def findLastSlash (filename : String) : Option Nat :=
  let cs := filename.toList
  match cs.reverse.findIdx? (fun ch => ch = '\\' || ch = '/') with
  | some i => some (cs.length - 1 - i)
  | none => none

/-- Lines 58-66: the image path, relative to the directory of the ldtk file. -/
def resolveImagePath (filename : String) (imagePath : String) : String :=
  match findLastSlash filename with
  | some lastSlashIdx => String.mk (filename.toList.take (lastSlashIdx + 1)) ++ imagePath
  | none => imagePath

/-- Lines 51-78 of `load`: one `TileSetImage` per tileset that has an image path.
The flag is `false` on the early `return false` for an image that fails to
load; the map is what has been inserted until then. -/
def loadTilesetImages (files : Files) (filename : String) :
    List TileSet → UMap Int TileSetImage → Bool × UMap Int TileSetImage
  | [], tilesetImages => (true, tilesetImages)
  | tileset :: rest, tilesetImages =>
    if tileset.imagePath.isEmpty then
      loadTilesetImages files filename rest tilesetImages
    else
      let imagePath := resolveImagePath filename tileset.imagePath
      if files.imageLoads imagePath then
        let tileSetImage : TileSetImage := { image := ⟨imagePath⟩, tiles := UMap.empty }
        loadTilesetImages files filename rest (tilesetImages.insert tileset.uid tileSetImage)
      else
        (false, tilesetImages)

/-- Lines 108-122 of `load`: the loop over the tile ids of one rule. -/
def assignTileIds (tileset : TileSet) (cellPixelSize : Nat) :
    List Int → UMap Int IntRect → UMap Int IntRect
  | [], tiles => tiles
  | tileId :: rest, tiles =>
    if tiles.count tileId > 0 then
      -- this tileId is already assigned, skip it
      assignTileIds tileset cellPixelSize rest tiles
    else
      let tileX := (tileset.getCoordinates tileId).1
      let tileY := (tileset.getCoordinates tileId).2
      assignTileIds tileset cellPixelSize rest
        (tiles.insert tileId
          ⟨tileX * cellPixelSize, tileY * cellPixelSize, cellPixelSize, cellPixelSize⟩)

/-- Lines 105-123 of `load`: the loop over the rules of one rule group. -/
def assignRules (tileset : TileSet) (cellPixelSize : Nat) :
    List Rule → UMap Int IntRect → UMap Int IntRect
  | [], tiles => tiles
  | rule :: rest, tiles =>
    assignRules tileset cellPixelSize rest (assignTileIds tileset cellPixelSize rule.tileIds tiles)

/-- Lines 103-124 of `load`: the loop over the rule groups of one layer. -/
def assignRuleGroups (tileset : TileSet) (cellPixelSize : Nat) :
    List RuleGroup → UMap Int IntRect → UMap Int IntRect
  | [], tiles => tiles
  | ruleGroup :: rest, tiles =>
    assignRuleGroups tileset cellPixelSize rest
      (assignRules tileset cellPixelSize ruleGroup.rules tiles)

/-- Lines 85-124 of `load`: the body of the loop over the layers.  A layer whose
tileset is not found, or has no image, is passed over (the two `continue`);
else the rectangles of the tile ids of its rules are assigned in the image of
its tileset. -/
def assignLayer (ldtk : LdtkDefFile) (layer : Layer) (tilesetImages : UMap Int TileSetImage) :
    UMap Int TileSetImage :=
  match ldtk.getTileset layer.tilesetDefUid with
  | none => tilesetImages
  | some tileset =>
    if tilesetImages.count tileset.uid = 0 then
      tilesetImages
    else
      let found := tilesetImages.index tileset.uid
      let cellPixelSize := layer.cellPixelSize
      let tilesetImage : TileSetImage :=
        { found.1 with
          tiles := assignRuleGroups tileset cellPixelSize layer.ruleGroups found.1.tiles }
      fun uid => if uid = tileset.uid then some tilesetImage else found.2 uid

/-- Lines 83-125 of `load`: the loop over the layers, assigning the rectangles. -/
def assignIntRects (ldtk : LdtkDefFile) :
    List Layer → UMap Int TileSetImage → UMap Int TileSetImage
  | [], tilesetImages => tilesetImages
  | layer :: rest, tilesetImages =>
    assignIntRects ldtk rest (assignLayer ldtk layer tilesetImages)

/-- The method `LdtkAssets::load` (lines 26-128): the returned flag and the assets afterwards. -/
def LdtkAssets.load (assets : LdtkAssets) (files : Files) (filename : String) :
    Bool × LdtkAssets :=
  match files.loadFromFile filename with
  | none => (false, assets)
  | some ldtk =>
    match loadTilesetImages files filename ldtk.tilesets assets.tilesetImages with
    | (false, tilesetImages) => (false, { ldtk := ldtk, tilesetImages := tilesetImages })
    | (true, tilesetImages) =>
      (true, { ldtk := ldtk, tilesetImages := assignIntRects ldtk ldtk.layers tilesetImages })

/-- Rounding of a rational to the nearest integer, ties to the even one. -/
def roundHalfEven (m : ℚ) : Int :=
  let f := ⌊m⌋
  let r := m - f
  if r < 1 / 2 then f else if 1 / 2 < r then f + 1 else if f % 2 = 0 then f else f + 1

/-- The `float` nearest to a rational, ties to even: the binary32 value with 24
significant bits.  For `2 ^ e ≤ |q| < 2 ^ (e + 1)` the spacing of the values is
`2 ^ (e - 23)`.  It is what the conversion of an `int` to `float` and the
`float` addition of the exact sum return. -/
def float32 (q : ℚ) : ℚ :=
  if q = 0 then 0
  else
    let e : Int := Int.log 2 |q|
    let ulp : ℚ := (2 : ℚ) ^ (e - 23)
    roundHalfEven (q / ulp) * ulp

/-- Conversion of a non-negative `float` to the integer type `dimensions_t`:
the fractional part is discarded. -/
def toDimensions (v : ℚ) : Nat := (Rat.floor v).toNat

/-- The method `LdtkAssets::drawTiles` (lines 130-170), entered with the loop variable
at `tileIdx`: paints `tilesToDraw[tileIdx]`, then the tiles below that index
down to index `0`.  `sprite` is the texture the sprite is bound to. -/
def drawTilesFrom (tilesToDraw : tiles_t) (cellPixelSize : Nat) (cellPixelHalfSize : Nat)
    (x y : Int) (cellX cellY : Nat) (sprite : Texture) :
    Nat → TileSetImage → List DrawCmd → Option (TileSetImage × List DrawCmd)
  | tileIdx, tilesetImage, window =>
    match tilesToDraw[tileIdx]? with
    | none => none
    | some tile =>
      let offsetX : ℚ := tile.getOffsetX cellPixelHalfSize
      let offsetY : ℚ := tile.getOffsetY cellPixelHalfSize
      let scaleX : ℚ := if tile.isFlippedX then -1 else 1
      let pivotX : ℚ := if tile.isFlippedX then cellPixelSize else 0
      let scaleY : ℚ := if tile.isFlippedY then -1 else 1
      let pivotY : ℚ := if tile.isFlippedY then cellPixelSize else 0
      let rect := tilesetImage.tiles.index tile.tileId
      let drawn : DrawCmd :=
        { texture := sprite
          textureRect := rect.1
          position := (float32 (float32 ((x + cellX * cellPixelSize : Int) : ℚ) + offsetX),
                       float32 (float32 ((y + cellY * cellPixelSize : Int) : ℚ) + offsetY))
          origin := (pivotX, pivotY)
          scale := (scaleX, scaleY)
          cellX := cellX
          cellY := cellY
          tileIdx := tileIdx
          tile := tile }
      let tilesetImage : TileSetImage := { tilesetImage with tiles := rect.2 }
      match tileIdx with
      | 0 => some (tilesetImage, window ++ [drawn])
      | tileIdx + 1 =>
        drawTilesFrom tilesToDraw cellPixelSize cellPixelHalfSize x y cellX cellY sprite
          tileIdx tilesetImage (window ++ [drawn])

/-- The method `LdtkAssets::drawTiles` (lines 130-170). -/
def drawTiles (tilesToDraw : tiles_t) (idxToStartDrawing : Nat) (cellPixelSize : Nat)
    (cellPixelHalfSize : Nat) (x y : Int) (cellX cellY : Nat) (tilesetImage : TileSetImage)
    (window : List DrawCmd) (sprite : Texture) : Option (TileSetImage × List DrawCmd) :=
  drawTilesFrom tilesToDraw cellPixelSize cellPixelHalfSize x y cellX cellY sprite
    idxToStartDrawing tilesetImage window

/-- The locals `tilesDelayedDraw` (when not null), `idxOfDelayedDraw`,
`rulePriorityOfDelayedDraw`, `cellXOfDelayedDraw`, `cellYOfDelayedDraw` of
`draw` (lines 202-206): the unit whose painting is delayed. -/
structure DelayedDraw where
  tiles : tiles_t
  idx : Nat
  rulePriority : Nat
  cellX : Nat
  cellY : Nat
deriving DecidableEq, Repr

/-- What the scan of one layer changes: the tileset image (its map grows under
`operator[]`), the window, and the delayed unit (`none` is
`tilesDelayedDraw == nullptr`). -/
structure DrawState where
  tilesetImage : TileSetImage
  window : List DrawCmd
  delayed : Option DelayedDraw

/-- The calls of `drawTiles` on the delayed unit at lines 235-236 and 280-281, followed
by `tilesDelayedDraw = nullptr`. -/
def drawDelayed (cellPixelSize : Nat) (halfGridSize : ℚ) (x y : Int) (sprite : Texture)
    (d : DelayedDraw) (s : DrawState) : Option DrawState :=
  match drawTiles d.tiles d.idx cellPixelSize (toDimensions halfGridSize) x y d.cellX d.cellY
      s.tilesetImage s.window sprite with
  | none => none
  | some (tilesetImage, window) =>
    some { tilesetImage := tilesetImage, window := window, delayed := none }

/-- The loop over the tiles of one cell (lines 217-274), on the tiles still to
visit, last tile first, with the current value of the `uint8_t` counter
`tileIdx`.  The counter is what a delayed unit stores; the index recorded in a
draw call is the position of the reverse iterator, `rest.length`. -/
def drawCellTiles (cellPixelSize : Nat) (halfGridSize : ℚ) (x y : Int) (sprite : Texture)
    (cellCountX : Nat) (tileGrid : TileGrid) (cellX cellY : Nat) (tiles : tiles_t) :
    List TileInCell → Nat → DrawState → Option DrawState
  | [], _, s => some s
  | tile :: rest, tileIdx, s =>
    if tile.hasOffsetRight && decide (cellX < cellCountX - 1)
        && decide ((tileGrid (cellX + 1) cellY).length > 0) then
      -- delay drawing this tile, and leave the loop
      some { s with
        delayed := some
          { tiles := tiles
            idx := tileIdx
            rulePriority := tile.priority % 256
            cellX := cellX
            cellY := cellY } }
    else
      let flushed : Option DrawState :=
        match s.delayed with
        | none => some s
        | some d =>
          if cellX ≠ d.cellX ∧ d.rulePriority > tile.priority then
            drawDelayed cellPixelSize halfGridSize x y sprite d s
          else
            some s
      match flushed with
      | none => none
      | some s =>
        let offsetX : ℚ := tile.getOffsetX halfGridSize
        let offsetY : ℚ := tile.getOffsetY halfGridSize
        let scaleX : ℚ := if tile.isFlippedX then -1 else 1
        let pivotX : ℚ := if tile.isFlippedX then cellPixelSize else 0
        let scaleY : ℚ := if tile.isFlippedY then -1 else 1
        let pivotY : ℚ := if tile.isFlippedY then cellPixelSize else 0
        let rect := s.tilesetImage.tiles.index tile.tileId
        let drawn : DrawCmd :=
          { texture := sprite
            textureRect := rect.1
            position := (float32 (float32 ((x + cellX * cellPixelSize : Int) : ℚ) + offsetX),
                         float32 (float32 ((y + cellY * cellPixelSize : Int) : ℚ) + offsetY))
            origin := (pivotX, pivotY)
            scale := (scaleX, scaleY)
            cellX := cellX
            cellY := cellY
            tileIdx := rest.length
            tile := tile }
        drawCellTiles cellPixelSize halfGridSize x y sprite cellCountX tileGrid cellX cellY tiles
          rest ((tileIdx + 255) % 256)
          { tilesetImage := { s.tilesetImage with tiles := rect.2 }
            window := s.window ++ [drawn]
            delayed := s.delayed }

/-- The body of the loop over `cellX` (lines 212-282): the tiles of the cell, then
the test at line 276. -/
def drawCell (cellPixelSize : Nat) (halfGridSize : ℚ) (x y : Int) (sprite : Texture)
    (cellCountX : Nat) (tileGrid : TileGrid) (cellY : Nat) (s : DrawState) (cellX : Nat) :
    Option DrawState :=
  let tiles := tileGrid cellX cellY
  match drawCellTiles cellPixelSize halfGridSize x y sprite cellCountX tileGrid cellX cellY tiles
      tiles.reverse ((tiles.length + 255) % 256) s with
  | none => none
  | some s =>
    match s.delayed with
    | none => some s
    | some d =>
      if cellX ≠ d.cellX then
        match tiles.head? with
        | none => none
        | some front =>
          if d.rulePriority < front.priority then
            drawDelayed cellPixelSize halfGridSize x y sprite d s
          else
            some s
      else
        some s

/-- The body of the loop over `cellY` (lines 210-284): one row, left to right. -/
def drawRow (cellPixelSize : Nat) (halfGridSize : ℚ) (x y : Int) (sprite : Texture)
    (cellCountX : Nat) (tileGrid : TileGrid) (s : DrawState) (cellY : Nat) : Option DrawState :=
  (List.range cellCountX).foldlM
    (drawCell cellPixelSize halfGridSize x y sprite cellCountX tileGrid cellY) s

/-- Lines 196-285 of `draw`: the scan of one layer whose tileset image was found. -/
def drawLayer (x y : Int) (cellCountX cellCountY : Nat) (cellPixelSize : Nat)
    (tileGrid : TileGrid) (tilesetImage : TileSetImage) (window : List DrawCmd) :
    Option (TileSetImage × List DrawCmd) :=
  let sprite := tilesetImage.image
  let halfGridSize : ℚ := cellPixelSize * (1 / 2)
  match (List.range cellCountY).foldlM
      (drawRow cellPixelSize halfGridSize x y sprite cellCountX tileGrid)
      { tilesetImage := tilesetImage, window := window, delayed := none } with
  | none => none
  | some s => some (s.tilesetImage, s.window)

/-- The loop over the layers of `draw` (lines 177-286), entered with the loop
variable at `layerNum`. -/
def drawLayers (ldtk : LdtkDefFile) (x y : Int) (level : Level) :
    Nat → UMap Int TileSetImage → List DrawCmd → Option (UMap Int TileSetImage × List DrawCmd)
  | 0, tilesetImages, window => some (tilesetImages, window)
  | layerNum + 1, tilesetImages, window =>
    match ldtk.getLayer layerNum with
    | none => none
    | some layer =>
      let tileGrid := level.getTileGrid layerNum
      match ldtk.getTileset layer.tilesetDefUid with
      | none => drawLayers ldtk x y level layerNum tilesetImages window
      | some tileset =>
        if tilesetImages.count tileset.uid = 0 then
          drawLayers ldtk x y level layerNum tilesetImages window
        else
          let found := tilesetImages.index tileset.uid
          match drawLayer x y level.getWidth level.getHeight layer.cellPixelSize tileGrid
              found.1 window with
          | none => none
          | some (tilesetImage, window) =>
            drawLayers ldtk x y level layerNum
              (fun uid => if uid = tileset.uid then some tilesetImage else found.2 uid) window

/-- The method `LdtkAssets::draw` (lines 172-287): the assets and the window afterwards,
`none` when the scan runs into undefined behaviour. -/
def LdtkAssets.draw (assets : LdtkAssets) (x y : Int) (level : Level) (window : List DrawCmd) :
    Option (LdtkAssets × List DrawCmd) :=
  match drawLayers assets.ldtk x y level assets.ldtk.getLayerCount assets.tilesetImages
      window with
  | none => none
  | some (tilesetImages, window) => some ({ assets with tilesetImages := tilesetImages }, window)

/-! ## The scan without the rendering

The order in which `draw` paints depends neither on the tileset image nor on
the pixel arithmetic.  `scanLayer` replays the control flow of `drawLayer` and
records only which tile is painted, with which cell coordinates and on which
of the two paths; `render` is the sprite both paths build for such a record.
`drawLayer_eq_scanLayer` below shows that `drawLayer` is `scanLayer` rendered. -/

/-- One painted tile: the path that painted it (`delayedPath` for a call made
inside `drawTiles`), the cell coordinates used, the stack index and the tile. -/
structure Paint where
  delayedPath : Bool
  cellX : Nat
  cellY : Nat
  tileIdx : Nat
  tile : TileInCell
deriving DecidableEq, Repr

/-- The rectangle `operator[]` reads for a tile id: the registered one, or the
value-initialised rectangle it inserts for an absent id. -/
def rectOf (tiles : UMap Int IntRect) (tileId : Int) : IntRect :=
  match tiles tileId with
  | some r => r
  | none => default

/-- The half cell size each path hands to `getOffsetX`/`getOffsetY`: `draw` uses the
`float` `halfGridSize`, `drawTiles` receives it through a `dimensions_t`
parameter. -/
def halfSizeOn (delayedPath : Bool) (cellPixelSize : Nat) : ℚ :=
  if delayedPath then (toDimensions (cellPixelSize * (1 / 2)) : ℚ) else cellPixelSize * (1 / 2)

/-- The sprite drawn for a painted tile (lines 135-168 and 239-272). -/
def render (sprite : Texture) (tiles : UMap Int IntRect) (cellPixelSize : Nat) (x y : Int)
    (p : Paint) : DrawCmd :=
  { texture := sprite
    textureRect := rectOf tiles p.tile.tileId
    position :=
      (float32 (float32 ((x + p.cellX * cellPixelSize : Int) : ℚ)
          + p.tile.getOffsetX (halfSizeOn p.delayedPath cellPixelSize)),
       float32 (float32 ((y + p.cellY * cellPixelSize : Int) : ℚ)
          + p.tile.getOffsetY (halfSizeOn p.delayedPath cellPixelSize)))
    origin := (if p.tile.isFlippedX then (cellPixelSize : ℚ) else 0,
               if p.tile.isFlippedY then (cellPixelSize : ℚ) else 0)
    scale := (if p.tile.isFlippedX then -1 else 1, if p.tile.isFlippedY then -1 else 1)
    cellX := p.cellX
    cellY := p.cellY
    tileIdx := p.tileIdx
    tile := p.tile }

/-- A stack given last tile first, painted in that order; each tile is recorded with
its index in the stack. -/
def paintRev (delayedPath : Bool) (cellX cellY : Nat) : List TileInCell → List Paint
  | [] => []
  | tile :: rest =>
    { delayedPath := delayedPath, cellX := cellX, cellY := cellY, tileIdx := rest.length,
      tile := tile } :: paintRev delayedPath cellX cellY rest

/-- The paints of `drawTiles` on a delayed unit: the tiles at indices `idx` down to
`0` of its stack; `none` when `idx` is not an index of the stack. -/
def scanDelayed (d : DelayedDraw) : Option (List Paint) :=
  if d.idx < d.tiles.length then
    some (paintRev true d.cellX d.cellY (d.tiles.take (d.idx + 1)).reverse)
  else
    none

/-- State of the scan without the rendering: the paints so far and the delayed unit. -/
structure ScanState where
  painted : List Paint
  delayed : Option DelayedDraw
deriving DecidableEq, Repr

/-- The flush of `drawDelayed`, on paints. -/
def scanFlush (d : DelayedDraw) (t : ScanState) : Option ScanState :=
  match scanDelayed d with
  | none => none
  | some ps => some { painted := t.painted ++ ps, delayed := none }

/-- The loop of `drawCellTiles`, on paints. -/
def scanCellTiles (cellCountX : Nat) (tileGrid : TileGrid) (cellX cellY : Nat) (tiles : tiles_t) :
    List TileInCell → Nat → ScanState → Option ScanState
  | [], _, t => some t
  | tile :: rest, tileIdx, t =>
    if tile.hasOffsetRight && decide (cellX < cellCountX - 1)
        && decide ((tileGrid (cellX + 1) cellY).length > 0) then
      some { t with
        delayed := some
          { tiles := tiles
            idx := tileIdx
            rulePriority := tile.priority % 256
            cellX := cellX
            cellY := cellY } }
    else
      let flushed : Option ScanState :=
        match t.delayed with
        | none => some t
        | some d =>
          if cellX ≠ d.cellX ∧ d.rulePriority > tile.priority then scanFlush d t else some t
      match flushed with
      | none => none
      | some t =>
        scanCellTiles cellCountX tileGrid cellX cellY tiles rest ((tileIdx + 255) % 256)
          { painted := t.painted ++
              [{ delayedPath := false, cellX := cellX, cellY := cellY, tileIdx := rest.length,
                 tile := tile }]
            delayed := t.delayed }

/-- The cell step of `drawCell`, on paints. -/
def scanCell (cellCountX : Nat) (tileGrid : TileGrid) (cellY : Nat) (t : ScanState) (cellX : Nat) :
    Option ScanState :=
  let tiles := tileGrid cellX cellY
  match scanCellTiles cellCountX tileGrid cellX cellY tiles tiles.reverse
      ((tiles.length + 255) % 256) t with
  | none => none
  | some t =>
    match t.delayed with
    | none => some t
    | some d =>
      if cellX ≠ d.cellX then
        match tiles.head? with
        | none => none
        | some front => if d.rulePriority < front.priority then scanFlush d t else some t
      else
        some t

/-- The row step of `drawRow`, on paints. -/
def scanRow (cellCountX : Nat) (tileGrid : TileGrid) (t : ScanState) (cellY : Nat) :
    Option ScanState :=
  (List.range cellCountX).foldlM (scanCell cellCountX tileGrid cellY) t

/-- The rows `0 .. cellCountY - 1` scanned from a given state. -/
def scanRows (cellCountX cellCountY : Nat) (tileGrid : TileGrid) (t : ScanState) :
    Option ScanState :=
  (List.range cellCountY).foldlM (scanRow cellCountX tileGrid) t

/-- The paints of `drawLayer` in order, `none` when the scan runs into undefined
behaviour. -/
def scanLayer (cellCountX cellCountY : Nat) (tileGrid : TileGrid) : Option (List Paint) :=
  match scanRows cellCountX cellCountY tileGrid { painted := [], delayed := none } with
  | none => none
  | some t => some t.painted

/-- Two tileset images that `draw` cannot tell apart: the same texture and the same
rectangle read for every tile id. -/
def SameRects (a b : TileSetImage) : Prop :=
  a.image = b.image ∧ ∀ tileId, rectOf a.tiles tileId = rectOf b.tiles tileId

/-- A state of `drawLayer` and a state of `scanLayer` that correspond: the window
is the initial window followed by the rendered paints, the delayed units agree. -/
def Renders (image : TileSetImage) (cellPixelSize : Nat) (x y : Int) (window : List DrawCmd)
    (s : DrawState) (t : ScanState) : Prop :=
  SameRects s.tilesetImage image ∧
  s.window = window ++ t.painted.map (render image.image image.tiles cellPixelSize x y) ∧
  s.delayed = t.delayed

/-- Two optional results that both fail, or both succeed with related values. -/
def OptionRel {α β : Type} (r : α → β → Prop) : Option α → Option β → Prop
  | some a, some b => r a b
  | none, none => True
  | _, _ => False

/-- The cells of a layer without any delaying tile: no tile has the right offset
in a cell left of the last column whose right neighbour holds tiles. -/
def NoDelay (cellCountX cellCountY : Nat) (tileGrid : TileGrid) : Prop :=
  ∀ cellY, cellY < cellCountY → ∀ cellX, cellX < cellCountX → ∀ tile ∈ tileGrid cellX cellY,
    ¬ (tile.hasOffsetRight = true ∧ cellX < cellCountX - 1
      ∧ (tileGrid (cellX + 1) cellY).length > 0)

/-! ## Sample data for the closed statements -/

/-- A tile without offset and without mirroring. -/
def plainTile (tileId : Int) (priority : Nat) : TileInCell :=
  { tileId := tileId, priority := priority, offsetUp := false, offsetDown := false,
    offsetLeft := false, offsetRight := false, flippedX := false, flippedY := false,
    final := false }

/-- A tile offset to the right, not mirrored. -/
def rightTile (tileId : Int) (priority : Nat) : TileInCell :=
  { plainTile tileId priority with offsetRight := true }

/-- A tile grid given by its rows; cells outside the rows are empty. -/
def gridOfRows (rows : List (List tiles_t)) : TileGrid :=
  fun cellX cellY => (rows.getD cellY []).getD cellX []

/-- A tileset image whose index holds the tile ids `1`, `2` and `3` of a 16 pixel grid. -/
def sampleImage : TileSetImage :=
  { image := ⟨"tiles.png"⟩
    tiles := fun tileId =>
      if tileId = 1 then some ⟨16, 0, 16, 16⟩
      else if tileId = 2 then some ⟨32, 0, 16, 16⟩
      else if tileId = 3 then some ⟨0, 16, 16, 16⟩
      else none }

/-- The coordinates and tile id a draw call was issued for. -/
def DrawCmd.label (cmd : DrawCmd) : Nat × Nat × Int := (cmd.cellX, cmd.cellY, cmd.tile.tileId)

/-- Every draw call issued with the coordinates of cell `a` comes before every draw
call issued with the coordinates of cell `b`: no call of `b` is followed by a
call of `a`. -/
def PaintedBefore (a b : Nat × Nat) (out : List DrawCmd) : Prop :=
  out.Pairwise fun first second =>
    ¬ ((first.cellX, first.cellY) = b ∧ (second.cellX, second.cellY) = a)

/-- A draw call with its texture rectangle blanked: what remains is the texture,
the position, the pivot, the scale and the placement it paints. -/
def DrawCmd.withoutRect (cmd : DrawCmd) : DrawCmd := { cmd with textureRect := default }

/-! ## The layers of a frame -/

/-- Lines 182-195 of `draw`: the tileset image a layer is drawn with, `none` when
`getTileset` fails or when the uid of the tileset is not a key of
`tilesetImages` (the two `continue`). -/
def LdtkAssets.findTilesetImage (assets : LdtkAssets) (layer : Layer) : Option TileSetImage :=
  match assets.ldtk.getTileset layer.tilesetDefUid with
  | none => none
  | some tileset => assets.tilesetImages tileset.uid

/-- The draw calls of the layer of index `i` taken alone: nothing when its
tileset image is not found, else what `drawLayer` adds to an empty window from
the layer's own cell size, tile grid and tileset image. -/
def layerDrawCalls (assets : LdtkAssets) (x y : Int) (level : Level) (i : Nat) :
    Option (List DrawCmd) :=
  match assets.ldtk.getLayer i with
  | none => none
  | some layer =>
    match assets.findTilesetImage layer with
    | none => some []
    | some tilesetImage =>
      (drawLayer x y level.getWidth level.getHeight layer.cellPixelSize (level.getTileGrid i)
        tilesetImage []).map Prod.snd

/-- Blocks of draw calls put one after the other; a failed block fails the whole. -/
def concatBlocks : List (Option (List DrawCmd)) → Option (List DrawCmd)
  | [] => some []
  | block :: rest =>
    match block with
    | none => none
    | some b => (concatBlocks rest).map fun r => b ++ r

/-- Two tables of tileset images with the same keys and, under each key, images
that `draw` cannot tell apart. -/
def ImagesSame (a b : UMap Int TileSetImage) : Prop :=
  ∀ uid, OptionRel SameRects (a uid) (b uid)

/-- A definition file with two layers: layer 0 on the tileset of uid 1, layer 1 on
the tileset of uid 2. -/
def sampleLdtk : LdtkDefFile :=
  { tilesets := [{ uid := 1, imagePath := "tiles.png", getCoordinates := fun i => (i % 4, i / 4) },
                 { uid := 2, imagePath := "walls.png", getCoordinates := fun i => (i % 4, i / 4) }]
    layers := [{ tilesetDefUid := 1, cellPixelSize := 16, ruleGroups := [] },
               { tilesetDefUid := 2, cellPixelSize := 16, ruleGroups := [] }]
    getTileset := fun uid =>
      if uid = 1 then
        some { uid := 1, imagePath := "tiles.png", getCoordinates := fun i => (i % 4, i / 4) }
      else if uid = 2 then
        some { uid := 2, imagePath := "walls.png", getCoordinates := fun i => (i % 4, i / 4) }
      else none }

/-- A level of one cell: tile 1 on layer 0, tile 2 on layer 1. -/
def sampleLevel : Level :=
  { getWidth := 1
    getHeight := 1
    getTileGrid := fun i =>
      if i = 0 then gridOfRows [[[plainTile 1 0]]] else gridOfRows [[[plainTile 2 0]]] }

/-- Assets in which the tileset of layer 1 (uid 2) has no image. -/
def sampleAssets : LdtkAssets :=
  { ldtk := sampleLdtk
    tilesetImages := fun uid => if uid = 1 then some sampleImage else none }

/-- The same assets with an image for the tileset of uid 2 as well. -/
def sampleAssetsFull : LdtkAssets :=
  { ldtk := sampleLdtk
    tilesetImages := fun uid =>
      if uid = 1 then some sampleImage
      else if uid = 2 then some { sampleImage with image := ⟨"walls.png"⟩ }
      else none }

/-! ## The rectangles assigned by `load` -/

/-- The tile ids the rules of a layer reference, in the order `load` visits them
(rule groups, then rules, then tile ids). -/
def Layer.tileIds (layer : Layer) : List Int :=
  layer.ruleGroups.flatMap fun ruleGroup => ruleGroup.rules.flatMap fun rule => rule.tileIds

/-- The rectangle line 121 builds for a tile id: the cell of the tileset at the
native grid coordinates of the id, for cells of `cellPixelSize` pixels. -/
def cellRect (tileset : TileSet) (cellPixelSize : Nat) (tileId : Int) : IntRect :=
  ⟨(tileset.getCoordinates tileId).1 * cellPixelSize,
   (tileset.getCoordinates tileId).2 * cellPixelSize, cellPixelSize, cellPixelSize⟩

/-- A layer of the list resolves to the tileset of uid `uid` and one of its rules
references `tileId`; `rect` is the rectangle line 121 builds for it in that
layer. -/
def Referenced (ldtk : LdtkDefFile) (layers : List Layer) (uid tileId : Int) (rect : IntRect) :
    Prop :=
  ∃ layer ∈ layers, ∃ tileset, ldtk.getTileset layer.tilesetDefUid = some tileset
    ∧ tileset.uid = uid ∧ tileId ∈ layer.tileIds
    ∧ rect = cellRect tileset layer.cellPixelSize tileId

/-- No rectangle is registered yet in any tileset image, as in an `LdtkAssets` on
which `load` has not run. -/
def FreshImages (tilesetImages : UMap Int TileSetImage) : Prop :=
  ∀ uid tilesetImage, tilesetImages uid = some tilesetImage →
    ∀ tileId, tilesetImage.tiles tileId = none

/-- A definition file with one tileset (uid 1, four cells per row) and one layer of
16 pixel cells whose rules reference the tile ids 5, 2 and again 5. -/
def sampleRulesLdtk : LdtkDefFile :=
  { tilesets := [{ uid := 1, imagePath := "tiles.png", getCoordinates := fun i => (i % 4, i / 4) }]
    layers := [{ tilesetDefUid := 1, cellPixelSize := 16,
                 ruleGroups := [{ rules := [{ tileIds := [5, 2] }, { tileIds := [5] }] }] }]
    getTileset := fun uid =>
      if uid = 1 then
        some { uid := 1, imagePath := "tiles.png", getCoordinates := fun i => (i % 4, i / 4) }
      else none }

/-- Files for which `loadFromFile` yields `sampleRulesLdtk` and every image loads. -/
def sampleFiles : Files :=
  { loadFromFile := fun _ => some sampleRulesLdtk
    imageLoads := fun _ => true }

/-- A default-constructed `LdtkAssets`. -/
def freshAssets : LdtkAssets :=
  { ldtk := { tilesets := [], layers := [], getTileset := fun _ => none }
    tilesetImages := UMap.empty }

/-- Two layers on the tileset of uid 1 whose rules both reference the tile id 5, one
with cells of 16 pixels, the other with cells of 32 pixels. -/
def sampleLayer16 : Layer :=
  { tilesetDefUid := 1, cellPixelSize := 16, ruleGroups := [{ rules := [{ tileIds := [5] }] }] }

/-- See `sampleLayer16`. -/
def sampleLayer32 : Layer :=
  { tilesetDefUid := 1, cellPixelSize := 32, ruleGroups := [{ rules := [{ tileIds := [5] }] }] }

/-- A second layer of 16 pixel cells on the tileset of uid 1, referencing the tile
ids 2 and 5. -/
def sampleLayer16b : Layer :=
  { tilesetDefUid := 1, cellPixelSize := 16,
    ruleGroups := [{ rules := [{ tileIds := [2] }] }, { rules := [{ tileIds := [5, 2] }] }] }

/-- The table of tileset images after lines 51-78 for `sampleRulesLdtk`: one image,
no rectangle yet. -/
def sampleFreshImages : UMap Int TileSetImage :=
  fun uid => if uid = 1 then some { image := ⟨"tiles.png"⟩, tiles := UMap.empty } else none

/-! ## Where the painted tiles come from -/

/-- The tile of a paint is the tile at the recorded index of the stack of the
recorded cell. -/
def PaintInGrid (tileGrid : TileGrid) (p : Paint) : Prop :=
  (tileGrid p.cellX p.cellY)[p.tileIdx]? = some p.tile

/-- The stack of a delayed unit is the stack of the cell whose coordinates it
carries. -/
def DelayedInGrid (tileGrid : TileGrid) (d : DelayedDraw) : Prop :=
  d.tiles = tileGrid d.cellX d.cellY

/-- Every paint so far and the delayed unit, if any, come from the grid. -/
def ScanInGrid (tileGrid : TileGrid) (t : ScanState) : Prop :=
  (∀ p ∈ t.painted, PaintInGrid tileGrid p) ∧ ∀ d, t.delayed = some d → DelayedInGrid tileGrid d

/-- A tile mirrored on X and not offset. -/
def flippedTile (tileId : Int) (priority : Nat) : TileInCell :=
  { plainTile tileId priority with flippedX := true }

/-- A tile mirrored on both axes and not offset. -/
def flippedBothTile (tileId : Int) (priority : Nat) : TileInCell :=
  { plainTile tileId priority with flippedX := true, flippedY := true }

/-! ## The index a delayed unit starts from -/

/-- The start index of the delayed unit, if any, is an index of its stack. -/
def ValidDelayed (delayed : Option DelayedDraw) : Prop :=
  ∀ d, delayed = some d → d.idx < d.tiles.length

/-- The immediate paints of the tiles `post` that stand behind the index `n` of the
stack of a cell, at the indices `n + 1`, `n + 2`, ...: last tile first, each
with its index in the stack. -/
def paintBehind (cellX cellY n : Nat) (post : List TileInCell) : List Paint :=
  (post.enumFrom (n + 1)).reverse.map fun it =>
    { delayedPath := false, cellX := cellX, cellY := cellY, tileIdx := it.1, tile := it.2 }

/-! ## The order of the paints of one cell -/

/-- Of two paints with the same cell coordinates, the later one has the smaller
stack index. -/
def Decreasing (painted : List Paint) : Prop :=
  painted.Pairwise fun p q => p.cellX = q.cellX → p.cellY = q.cellY → q.tileIdx < p.tileIdx

/-- What the scan maintains about the order of its paints: same-cell paints come in
decreasing index, every paint so far satisfies `seen`, and the delayed unit,
if any, belongs to a cell of `visited` and starts below every paint of that
cell so far. -/
def Ordered (seen : Paint → Prop) (visited : Nat → Nat → Prop) (t : ScanState) : Prop :=
  Decreasing t.painted ∧ (∀ p ∈ t.painted, seen p)
    ∧ ∀ d, t.delayed = some d →
        visited d.cellX d.cellY
        ∧ ∀ p ∈ t.painted, p.cellX = d.cellX → p.cellY = d.cellY → d.idx < p.tileIdx

/-- A layer of 258 columns and one row whose only tile sits in the column 257. -/
def wideGrid : TileGrid := fun cellX _ => if cellX = 257 then [plainTile 1 0] else []

/-! ## `drawLayer` is `scanLayer` rendered -/

theorem index_fst (m : UMap Int IntRect) (k : Int) : (m.index k).1 = rectOf m k := by
  unfold UMap.index rectOf
  cases m k <;> rfl

theorem rectOf_index_snd (m : UMap Int IntRect) (k j : Int) :
    rectOf (m.index k).2 j = rectOf m j := by
  unfold UMap.index
  cases h : m k with
  | some v => rfl
  | none =>
    by_cases hj : j = k
    · subst hj
      simp [rectOf, h]
    · simp [rectOf, hj]

theorem sameRects_refl (a : TileSetImage) : SameRects a a := ⟨rfl, fun _ => rfl⟩

theorem sameRects_index {a b : TileSetImage} (h : SameRects a b) (k : Int) :
    SameRects { a with tiles := (a.tiles.index k).2 } b :=
  ⟨h.1, fun j => by simpa [rectOf_index_snd] using h.2 j⟩

theorem take_succ_reverse (tiles : List TileInCell) (idx : Nat) (tile : TileInCell)
    (h : tiles[idx]? = some tile) :
    (tiles.take (idx + 1)).reverse = tile :: (tiles.take idx).reverse := by
  rw [List.take_succ, h]
  simp

theorem length_take_reverse (tiles : List TileInCell) (idx : Nat) (h : idx < tiles.length) :
    (tiles.take idx).reverse.length = idx := by
  simp
  omega

theorem drawTilesFrom_eq (tilesToDraw : tiles_t) (image : TileSetImage) (cellPixelSize : Nat)
    (x y : Int) (cellX cellY : Nat) :
    ∀ (tileIdx : Nat) (tilesetImage : TileSetImage) (window : List DrawCmd),
      tileIdx < tilesToDraw.length → SameRects tilesetImage image →
      ∃ tilesetImage1, SameRects tilesetImage1 image ∧
        drawTilesFrom tilesToDraw cellPixelSize (toDimensions (cellPixelSize * (1 / 2))) x y
            cellX cellY image.image tileIdx tilesetImage window
          = some (tilesetImage1, window ++
              (paintRev true cellX cellY (tilesToDraw.take (tileIdx + 1)).reverse).map
                (render image.image image.tiles cellPixelSize x y)) := by
  intro tileIdx
  induction tileIdx with
  | zero =>
    intro tilesetImage window hlt hsame
    obtain ⟨tile, htile⟩ : ∃ tile, tilesToDraw[0]? = some tile :=
      ⟨tilesToDraw[0], List.getElem?_eq_getElem hlt⟩
    refine ⟨_, sameRects_index hsame tile.tileId, ?_⟩
    rw [drawTilesFrom, take_succ_reverse _ _ _ htile]
    simp [htile, paintRev, render, halfSizeOn, index_fst, hsame.2]
  | succ n ih =>
    intro tilesetImage window hlt hsame
    obtain ⟨tile, htile⟩ : ∃ tile, tilesToDraw[n + 1]? = some tile :=
      ⟨tilesToDraw[n + 1], List.getElem?_eq_getElem hlt⟩
    obtain ⟨img1, hsame1, hrun⟩ := ih { tilesetImage with tiles := (tilesetImage.tiles.index tile.tileId).2 }
      (window ++ [render image.image image.tiles cellPixelSize x y
        { delayedPath := true, cellX := cellX, cellY := cellY, tileIdx := n + 1, tile := tile }])
      (by omega) (sameRects_index hsame tile.tileId)
    refine ⟨img1, hsame1, ?_⟩
    rw [drawTilesFrom, take_succ_reverse _ _ _ htile]
    simp only [htile, paintRev, List.map_cons]
    rw [length_take_reverse _ _ (by omega)]
    simp only [render, halfSizeOn, index_fst, hsame.2] at hrun ⊢
    simpa using hrun

theorem drawTilesFrom_none (tilesToDraw : tiles_t) (cellPixelSize cellPixelHalfSize : Nat)
    (x y : Int) (cellX cellY : Nat) (sprite : Texture) (tileIdx : Nat)
    (tilesetImage : TileSetImage) (window : List DrawCmd) (h : tilesToDraw.length ≤ tileIdx) :
    drawTilesFrom tilesToDraw cellPixelSize cellPixelHalfSize x y cellX cellY sprite tileIdx
      tilesetImage window = none := by
  rw [drawTilesFrom, List.getElem?_eq_none h]

theorem drawDelayed_rel (image : TileSetImage) (cellPixelSize : Nat) (x y : Int)
    (window : List DrawCmd) (d : DelayedDraw) (s : DrawState) (t : ScanState)
    (h : Renders image cellPixelSize x y window s t) :
    OptionRel (Renders image cellPixelSize x y window)
      (drawDelayed cellPixelSize (cellPixelSize * (1 / 2)) x y image.image d s)
      (scanFlush d t) := by
  obtain ⟨hsame, hwin, _⟩ := h
  unfold drawDelayed drawTiles scanFlush scanDelayed
  by_cases hidx : d.idx < d.tiles.length
  · obtain ⟨img1, hsame1, hrun⟩ := drawTilesFrom_eq d.tiles image cellPixelSize x y d.cellX d.cellY
      d.idx s.tilesetImage s.window hidx hsame
    rw [hrun]
    simp only [hidx, if_true]
    exact ⟨hsame1, by simp [hwin], rfl⟩
  · rw [drawTilesFrom_none _ _ _ _ _ _ _ _ _ _ _ (by omega)]
    simp only [hidx, if_false]
    trivial

theorem drawCellTiles_rel (image : TileSetImage) (cellPixelSize : Nat) (x y : Int)
    (window : List DrawCmd) (cellCountX : Nat) (tileGrid : TileGrid) (cellX cellY : Nat)
    (tiles : tiles_t) :
    ∀ (rest : List TileInCell) (tileIdx : Nat) (s : DrawState) (t : ScanState),
      Renders image cellPixelSize x y window s t →
      OptionRel (Renders image cellPixelSize x y window)
        (drawCellTiles cellPixelSize (cellPixelSize * (1 / 2)) x y image.image cellCountX tileGrid
          cellX cellY tiles rest tileIdx s)
        (scanCellTiles cellCountX tileGrid cellX cellY tiles rest tileIdx t) := by
  intro rest
  induction rest with
  | nil =>
    intro tileIdx s t h
    simpa [drawCellTiles, scanCellTiles, OptionRel] using h
  | cons tile rest ih =>
    intro tileIdx s t h
    rw [drawCellTiles, scanCellTiles]
    split
    · exact ⟨h.1, h.2.1, by simp⟩
    · have hflush : OptionRel (Renders image cellPixelSize x y window)
          (match s.delayed with
            | none => some s
            | some d =>
              if cellX ≠ d.cellX ∧ d.rulePriority > tile.priority then
                drawDelayed cellPixelSize (cellPixelSize * (1 / 2)) x y image.image d s
              else some s)
          (match t.delayed with
            | none => some t
            | some d =>
              if cellX ≠ d.cellX ∧ d.rulePriority > tile.priority then scanFlush d t
              else some t) := by
        rw [h.2.2]
        cases t.delayed with
        | none => exact h
        | some d =>
          simp only
          split
          · exact drawDelayed_rel image cellPixelSize x y window d s t h
          · exact h
      revert hflush
      generalize (match s.delayed with
            | none => some s
            | some d =>
              if cellX ≠ d.cellX ∧ d.rulePriority > tile.priority then
                drawDelayed cellPixelSize (cellPixelSize * (1 / 2)) x y image.image d s
              else some s) = fs
      generalize (match t.delayed with
            | none => some t
            | some d =>
              if cellX ≠ d.cellX ∧ d.rulePriority > tile.priority then scanFlush d t
              else some t) = ft
      intro hflush
      cases fs with
      | none =>
        cases ft with
        | none => trivial
        | some t1 => exact hflush.elim
      | some s1 =>
        cases ft with
        | none => exact hflush.elim
        | some t1 =>
          simp only
          apply ih
          obtain ⟨hsame, hwin, hdel⟩ := hflush
          refine ⟨sameRects_index hsame tile.tileId, ?_, hdel⟩
          simp [hwin, render, halfSizeOn, index_fst, hsame.2]

theorem foldlM_rel {α β γ : Type} (r : α → β → Prop) (f : α → γ → Option α)
    (g : β → γ → Option β) (hstep : ∀ a b c, r a b → OptionRel r (f a c) (g b c)) :
    ∀ (l : List γ) (a : α) (b : β), r a b → OptionRel r (l.foldlM f a) (l.foldlM g b) := by
  intro l
  induction l with
  | nil => intro a b h; simpa [OptionRel] using h
  | cons c l ih =>
    intro a b h
    have hs := hstep a b c h
    simp only [List.foldlM_cons]
    cases hf : f a c with
    | none =>
      cases hg : g b c with
      | none => simp [OptionRel]
      | some b1 => rw [hf, hg] at hs; exact hs.elim
    | some a1 =>
      cases hg : g b c with
      | none => rw [hf, hg] at hs; exact hs.elim
      | some b1 =>
        rw [hf, hg] at hs
        simpa using ih a1 b1 hs

theorem drawCell_rel (image : TileSetImage) (cellPixelSize : Nat) (x y : Int)
    (window : List DrawCmd) (cellCountX : Nat) (tileGrid : TileGrid) (cellY : Nat)
    (s : DrawState) (t : ScanState) (cellX : Nat)
    (h : Renders image cellPixelSize x y window s t) :
    OptionRel (Renders image cellPixelSize x y window)
      (drawCell cellPixelSize (cellPixelSize * (1 / 2)) x y image.image cellCountX tileGrid
        cellY s cellX)
      (scanCell cellCountX tileGrid cellY t cellX) := by
  have hloop := drawCellTiles_rel image cellPixelSize x y window cellCountX tileGrid cellX cellY
    (tileGrid cellX cellY) (tileGrid cellX cellY).reverse
    (((tileGrid cellX cellY).length + 255) % 256) s t h
  unfold drawCell scanCell
  simp only
  revert hloop
  generalize drawCellTiles cellPixelSize (cellPixelSize * (1 / 2)) x y image.image cellCountX
    tileGrid cellX cellY (tileGrid cellX cellY) (tileGrid cellX cellY).reverse
    (((tileGrid cellX cellY).length + 255) % 256) s = rs
  generalize scanCellTiles cellCountX tileGrid cellX cellY (tileGrid cellX cellY)
    (tileGrid cellX cellY).reverse (((tileGrid cellX cellY).length + 255) % 256) t = rt
  intro hloop
  cases rs with
  | none =>
    cases rt with
    | none => trivial
    | some t1 => exact hloop.elim
  | some s1 =>
    cases rt with
    | none => exact hloop.elim
    | some t1 =>
      simp only
      have hdel : s1.delayed = t1.delayed := hloop.2.2
      rw [hdel]
      cases t1.delayed with
      | none => exact hloop
      | some d =>
        simp only
        split
        · cases (tileGrid cellX cellY).head? with
          | none => trivial
          | some front =>
            simp only
            split
            · exact drawDelayed_rel image cellPixelSize x y window d s1 t1 hloop
            · exact hloop
        · exact hloop

theorem drawRow_rel (image : TileSetImage) (cellPixelSize : Nat) (x y : Int)
    (window : List DrawCmd) (cellCountX : Nat) (tileGrid : TileGrid)
    (s : DrawState) (t : ScanState) (cellY : Nat)
    (h : Renders image cellPixelSize x y window s t) :
    OptionRel (Renders image cellPixelSize x y window)
      (drawRow cellPixelSize (cellPixelSize * (1 / 2)) x y image.image cellCountX tileGrid s cellY)
      (scanRow cellCountX tileGrid t cellY) :=
  foldlM_rel _ _ _
    (fun a b c hab =>
      drawCell_rel image cellPixelSize x y window cellCountX tileGrid cellY a b c hab)
    _ s t h

/-- The window after `drawLayer` is the window before it followed by the paints of
`scanLayer`, rendered with the tileset image the layer started from; the
tileset image afterwards reads the same rectangles; `drawLayer` fails exactly
when `scanLayer` does. -/
theorem drawLayer_eq_scanLayer (x y : Int) (cellCountX cellCountY cellPixelSize : Nat)
    (tileGrid : TileGrid) (tilesetImage : TileSetImage) (window : List DrawCmd) :
    match scanLayer cellCountX cellCountY tileGrid with
    | none => drawLayer x y cellCountX cellCountY cellPixelSize tileGrid tilesetImage window = none
    | some paints =>
      ∃ tilesetImage1, SameRects tilesetImage1 tilesetImage ∧
        drawLayer x y cellCountX cellCountY cellPixelSize tileGrid tilesetImage window
          = some (tilesetImage1, window ++
              paints.map (render tilesetImage.image tilesetImage.tiles cellPixelSize x y)) := by
  have hrows := foldlM_rel (Renders tilesetImage cellPixelSize x y window) _ _
    (fun a b c hab =>
      drawRow_rel tilesetImage cellPixelSize x y window cellCountX tileGrid a b c hab)
    (List.range cellCountY)
    { tilesetImage := tilesetImage, window := window, delayed := none }
    { painted := [], delayed := none }
    ⟨sameRects_refl _, by simp, rfl⟩
  unfold scanLayer scanRows drawLayer
  simp only
  revert hrows
  generalize List.foldlM (drawRow cellPixelSize (cellPixelSize * (1 / 2)) x y tilesetImage.image
    cellCountX tileGrid) _ (List.range cellCountY) = rs
  generalize List.foldlM (scanRow cellCountX tileGrid) _ (List.range cellCountY) = rt
  intro hrows
  cases rs with
  | none =>
    cases rt with
    | none => rfl
    | some t1 => exact hrows.elim
  | some s1 =>
    cases rt with
    | none => exact hrows.elim
    | some t1 =>
      obtain ⟨hsame, hwin, _⟩ := hrows
      exact ⟨s1.tilesetImage, hsame, by simp [hwin]⟩

/-! ## Layers in which nothing is delayed -/

theorem scanCellTiles_no_delay (cellCountX : Nat) (tileGrid : TileGrid) (cellX cellY : Nat)
    (tiles : tiles_t) :
    ∀ (rest : List TileInCell) (tileIdx : Nat) (painted : List Paint),
      (∀ tile ∈ rest, ¬ (tile.hasOffsetRight = true ∧ cellX < cellCountX - 1
        ∧ (tileGrid (cellX + 1) cellY).length > 0)) →
      scanCellTiles cellCountX tileGrid cellX cellY tiles rest tileIdx
          { painted := painted, delayed := none }
        = some { painted := painted ++ paintRev false cellX cellY rest, delayed := none } := by
  intro rest
  induction rest with
  | nil => intro tileIdx painted _; simp [scanCellTiles, paintRev]
  | cons tile rest ih =>
    intro tileIdx painted hno
    have h1 := hno tile (List.mem_cons_self _ _)
    rw [scanCellTiles]
    have hc : (tile.hasOffsetRight && decide (cellX < cellCountX - 1)
        && decide ((tileGrid (cellX + 1) cellY).length > 0)) = false := by
      rw [Bool.eq_false_iff]
      intro hc
      simp only [Bool.and_eq_true, decide_eq_true_eq] at hc
      exact h1 ⟨hc.1.1, hc.1.2, hc.2⟩
    rw [hc]
    simp only [Bool.false_eq_true, if_false]
    rw [ih _ _ (fun t ht => hno t (List.mem_cons_of_mem _ ht))]
    simp [paintRev]

theorem scanCell_no_delay (cellCountX : Nat) (tileGrid : TileGrid) (cellX cellY : Nat)
    (painted : List Paint)
    (hno : ∀ tile ∈ tileGrid cellX cellY, ¬ (tile.hasOffsetRight = true ∧ cellX < cellCountX - 1
        ∧ (tileGrid (cellX + 1) cellY).length > 0)) :
    scanCell cellCountX tileGrid cellY { painted := painted, delayed := none } cellX
      = some { painted := painted ++ paintRev false cellX cellY (tileGrid cellX cellY).reverse,
               delayed := none } := by
  unfold scanCell
  simp only
  rw [scanCellTiles_no_delay _ _ _ _ _ _ _ _ (fun t ht => hno t (List.mem_reverse.mp ht))]

theorem foldlM_paints {γ : Type} (f : ScanState → γ → Option ScanState) (g : γ → List Paint) :
    ∀ (l : List γ) (painted : List Paint),
      (∀ a ∈ l, ∀ ps, f { painted := ps, delayed := none } a
        = some { painted := ps ++ g a, delayed := none }) →
      l.foldlM f { painted := painted, delayed := none }
        = some { painted := painted ++ l.flatMap g, delayed := none } := by
  intro l
  induction l with
  | nil => intro painted _; simp
  | cons a l ih =>
    intro painted h
    simp only [List.foldlM_cons]
    rw [h a (List.mem_cons_self _ _) painted]
    simp only [Option.some_bind, Option.bind_eq_bind]
    rw [ih _ (fun b hb => h b (List.mem_cons_of_mem _ hb))]
    simp [List.flatMap_cons]

theorem scanLayer_no_delay (cellCountX cellCountY : Nat) (tileGrid : TileGrid)
    (hno : NoDelay cellCountX cellCountY tileGrid) :
    scanLayer cellCountX cellCountY tileGrid
      = some ((List.range cellCountY).flatMap fun cellY =>
          (List.range cellCountX).flatMap fun cellX =>
            paintRev false cellX cellY (tileGrid cellX cellY).reverse) := by
  unfold scanLayer scanRows
  rw [foldlM_paints (scanRow cellCountX tileGrid)
    (fun cellY => (List.range cellCountX).flatMap fun cellX =>
      paintRev false cellX cellY (tileGrid cellX cellY).reverse)]
  · simp
  · intro cellY hY ps
    unfold scanRow
    apply foldlM_paints
    intro cellX hX qs
    exact scanCell_no_delay _ _ _ _ _
      (hno cellY (List.mem_range.mp hY) cellX (List.mem_range.mp hX))


/-- C1: in a layer where no tile is delayed (no tile has the right offset in a cell
left of the last column whose right neighbour holds tiles), `draw` paints, cell
after cell in row-major order, each cell's stack from its last tile to its
front tile, and nothing else; in particular a layer whose stacks are all empty
adds no draw call. -/
theorem drawLayer_no_delay_reversed_stacks (x y : Int) (cellCountX cellCountY cellPixelSize : Nat)
    (tileGrid : TileGrid) (tilesetImage : TileSetImage) (window : List DrawCmd)
    (hno : NoDelay cellCountX cellCountY tileGrid) :
    (drawLayer x y cellCountX cellCountY cellPixelSize tileGrid tilesetImage window).map Prod.snd
        = some (window ++
            ((List.range cellCountY).flatMap fun cellY =>
              (List.range cellCountX).flatMap fun cellX =>
                paintRev false cellX cellY (tileGrid cellX cellY).reverse).map
              (render tilesetImage.image tilesetImage.tiles cellPixelSize x y))
      ∧ ((∀ cellY, cellY < cellCountY → ∀ cellX, cellX < cellCountX → tileGrid cellX cellY = []) →
          (drawLayer x y cellCountX cellCountY cellPixelSize tileGrid tilesetImage window).map
            Prod.snd = some window) := by
  have hrun := drawLayer_eq_scanLayer x y cellCountX cellCountY cellPixelSize tileGrid
    tilesetImage window
  rw [scanLayer_no_delay _ _ _ hno] at hrun
  obtain ⟨img1, _, hrun⟩ := hrun
  have hmain : (drawLayer x y cellCountX cellCountY cellPixelSize tileGrid tilesetImage
      window).map Prod.snd
        = some (window ++
            ((List.range cellCountY).flatMap fun cellY =>
              (List.range cellCountX).flatMap fun cellX =>
                paintRev false cellX cellY (tileGrid cellX cellY).reverse).map
              (render tilesetImage.image tilesetImage.tiles cellPixelSize x y)) := by
    rw [hrun]; rfl
  refine ⟨hmain, fun hempty => ?_⟩
  rw [hmain]
  have hnil : ((List.range cellCountY).flatMap fun cellY =>
      (List.range cellCountX).flatMap fun cellX =>
        paintRev false cellX cellY (tileGrid cellX cellY).reverse) = [] := by
    rw [List.flatMap_eq_nil_iff]
    intro cellY hY
    rw [List.flatMap_eq_nil_iff]
    intro cellX hX
    rw [hempty cellY (List.mem_range.mp hY) cellX (List.mem_range.mp hX)]
    rfl
  rw [hnil]
  simp

/-- C1 on a 2x2 layer: the stacks `[1, 2]`, `[3]`, `[]` and `[2 with right offset]` (in
the last column) are painted reversed, cell after cell. -/
theorem drawLayer_no_delay_reversed_stacks_witness :
    NoDelay 2 2 (gridOfRows [[[plainTile 1 0, plainTile 2 1], [plainTile 3 0]],
                             [[], [rightTile 2 4]]])
      ∧ ((drawLayer 0 0 2 2 16
            (gridOfRows [[[plainTile 1 0, plainTile 2 1], [plainTile 3 0]],
                         [[], [rightTile 2 4]]]) sampleImage []).map Prod.snd).map
          (List.map DrawCmd.label)
        = some [(0, 0, 2), (0, 0, 1), (1, 0, 3), (1, 1, 2)] := by
  have hno : NoDelay 2 2 (gridOfRows [[[plainTile 1 0, plainTile 2 1], [plainTile 3 0]],
      [[], [rightTile 2 4]]]) := by
    unfold NoDelay
    decide
  refine ⟨hno, ?_⟩
  rw [(drawLayer_no_delay_reversed_stacks 0 0 2 2 16 _ sampleImage [] hno).1]
  decide

/-! ## A delayed unit meeting a cell that delays nothing -/

theorem drawLayer_window (x y : Int) (cellCountX cellCountY cellPixelSize : Nat)
    (tileGrid : TileGrid) (tilesetImage : TileSetImage) (window : List DrawCmd) :
    (drawLayer x y cellCountX cellCountY cellPixelSize tileGrid tilesetImage window).map Prod.snd
      = (scanLayer cellCountX cellCountY tileGrid).map fun paints =>
          window ++ paints.map (render tilesetImage.image tilesetImage.tiles cellPixelSize x y) := by
  have hrun := drawLayer_eq_scanLayer x y cellCountX cellCountY cellPixelSize tileGrid
    tilesetImage window
  cases hscan : scanLayer cellCountX cellCountY tileGrid with
  | none =>
    rw [hscan] at hrun
    simp only at hrun
    rw [hrun]; rfl
  | some paints =>
    rw [hscan] at hrun
    obtain ⟨img1, _, hrun⟩ := hrun
    rw [hrun]; rfl

theorem scanCellTiles_pending (cellCountX : Nat) (tileGrid : TileGrid) (cellX cellY : Nat)
    (tiles : tiles_t) (d : DelayedDraw) (dps : List Paint) (hd : scanDelayed d = some dps)
    (hne : cellX ≠ d.cellX) :
    ∀ (rest : List TileInCell) (tileIdx : Nat) (painted : List Paint),
      (∀ tile ∈ rest, ¬ (tile.hasOffsetRight = true ∧ cellX < cellCountX - 1
        ∧ (tileGrid (cellX + 1) cellY).length > 0)) →
      scanCellTiles cellCountX tileGrid cellX cellY tiles rest tileIdx
          { painted := painted, delayed := some d }
        = some
            (if (paintRev false cellX cellY rest).dropWhile
                (fun q => decide (d.rulePriority ≤ q.tile.priority)) = [] then
              { painted := painted ++ paintRev false cellX cellY rest, delayed := some d }
            else
              { painted := painted ++
                  ((paintRev false cellX cellY rest).takeWhile
                      (fun q => decide (d.rulePriority ≤ q.tile.priority))
                    ++ dps
                    ++ (paintRev false cellX cellY rest).dropWhile
                      (fun q => decide (d.rulePriority ≤ q.tile.priority)))
                delayed := none }) := by
  intro rest
  induction rest with
  | nil => intro tileIdx painted _; simp [scanCellTiles, paintRev]
  | cons tile rest ih =>
    intro tileIdx painted hno
    have h1 := hno tile (List.mem_cons_self _ _)
    have hrest : ∀ u ∈ rest, ¬ (u.hasOffsetRight = true ∧ cellX < cellCountX - 1
        ∧ (tileGrid (cellX + 1) cellY).length > 0) :=
      fun u hu => hno u (List.mem_cons_of_mem _ hu)
    rw [scanCellTiles]
    have hc : (tile.hasOffsetRight && decide (cellX < cellCountX - 1)
        && decide ((tileGrid (cellX + 1) cellY).length > 0)) = false := by
      rw [Bool.eq_false_iff]
      intro hc
      simp only [Bool.and_eq_true, decide_eq_true_eq] at hc
      exact h1 ⟨hc.1.1, hc.1.2, hc.2⟩
    rw [hc]
    simp only [Bool.false_eq_true, if_false]
    by_cases hprio : d.rulePriority > tile.priority
    · have hkeep : ¬ d.rulePriority ≤ tile.priority := by omega
      simp only [hne, hprio, ne_eq, not_false_eq_true, and_self, if_true, scanFlush, hd]
      rw [scanCellTiles_no_delay _ _ _ _ _ _ _ _ hrest]
      simp [paintRev, List.takeWhile_cons, List.dropWhile_cons, hkeep]
    · have hkeep : d.rulePriority ≤ tile.priority := by omega
      simp only [hprio, and_false, if_false]
      rw [ih _ _ hrest]
      simp only [paintRev, List.takeWhile_cons, List.dropWhile_cons, hkeep, decide_True, if_true]
      split <;> simp

theorem scanCell_pending (cellCountX : Nat) (tileGrid : TileGrid) (cellX cellY : Nat)
    (d : DelayedDraw) (dps : List Paint) (hd : scanDelayed d = some dps)
    (hne : cellX ≠ d.cellX) (front : TileInCell) (more : List TileInCell)
    (hcell : tileGrid cellX cellY = front :: more)
    (hno : ∀ tile ∈ tileGrid cellX cellY, ¬ (tile.hasOffsetRight = true ∧ cellX < cellCountX - 1
        ∧ (tileGrid (cellX + 1) cellY).length > 0))
    (painted : List Paint) :
    scanCell cellCountX tileGrid cellY { painted := painted, delayed := some d } cellX
      = some
          (if (paintRev false cellX cellY (front :: more).reverse).dropWhile
              (fun q => decide (d.rulePriority ≤ q.tile.priority)) = [] then
            (if d.rulePriority < front.priority then
              { painted := painted ++ paintRev false cellX cellY (front :: more).reverse ++ dps,
                delayed := none }
            else
              { painted := painted ++ paintRev false cellX cellY (front :: more).reverse,
                delayed := some d })
          else
            { painted := painted ++
                ((paintRev false cellX cellY (front :: more).reverse).takeWhile
                    (fun q => decide (d.rulePriority ≤ q.tile.priority))
                  ++ dps
                  ++ (paintRev false cellX cellY (front :: more).reverse).dropWhile
                    (fun q => decide (d.rulePriority ≤ q.tile.priority)))
              delayed := none }) := by
  have hloop := scanCellTiles_pending cellCountX tileGrid cellX cellY (tileGrid cellX cellY) d dps
    hd hne (tileGrid cellX cellY).reverse (((tileGrid cellX cellY).length + 255) % 256) painted
    (fun tile htile => hno tile (List.mem_reverse.mp htile))
  unfold scanCell
  simp only
  rw [hloop, hcell]
  by_cases hdrop : (paintRev false cellX cellY (front :: more).reverse).dropWhile
      (fun q => decide (d.rulePriority ≤ q.tile.priority)) = []
  · rw [if_pos hdrop, if_pos hdrop]
    simp only [ne_eq, hne, not_false_eq_true, if_true, List.head?_cons]
    by_cases hlt : d.rulePriority < front.priority
    · rw [if_pos hlt, if_pos hlt]
      simp [scanFlush, hd]
    · rw [if_neg hlt, if_neg hlt]
  · rw [if_neg hdrop, if_neg hdrop]

theorem scanLayer_two_cells (tileGrid : TileGrid) (t front : TileInCell) (more : List TileInCell)
    (h0 : tileGrid 0 0 = [t]) (hright : t.hasOffsetRight = true)
    (h1 : tileGrid 1 0 = front :: more) :
    scanLayer 2 1 tileGrid
      = some
          (if (paintRev false 1 0 (front :: more).reverse).dropWhile
              (fun q => decide (t.priority % 256 ≤ q.tile.priority)) = [] then
            (if t.priority % 256 < front.priority then
              paintRev false 1 0 (front :: more).reverse
                ++ [{ delayedPath := true, cellX := 0, cellY := 0, tileIdx := 0, tile := t }]
            else
              paintRev false 1 0 (front :: more).reverse)
          else
            (paintRev false 1 0 (front :: more).reverse).takeWhile
                (fun q => decide (t.priority % 256 ≤ q.tile.priority))
              ++ [{ delayedPath := true, cellX := 0, cellY := 0, tileIdx := 0, tile := t }]
              ++ (paintRev false 1 0 (front :: more).reverse).dropWhile
                (fun q => decide (t.priority % 256 ≤ q.tile.priority))) := by
  have hcell0 : scanCell 2 tileGrid 0 { painted := [], delayed := none } 0
      = some { painted := [], delayed := some (DelayedDraw.mk [t] 0 (t.priority % 256) 0 0) } := by
    simp [scanCell, h0, h1, scanCellTiles, hright]
  have hd : scanDelayed (DelayedDraw.mk [t] 0 (t.priority % 256) 0 0)
      = some [{ delayedPath := true, cellX := 0, cellY := 0, tileIdx := 0, tile := t }] := by
    simp [scanDelayed, paintRev]
  have hcell1 := scanCell_pending 2 tileGrid 1 0 (DelayedDraw.mk [t] 0 (t.priority % 256) 0 0) _ hd
    (by simp) front more h1 (fun tile _ h => by simp at h) []
  have hrange2 : List.range 2 = [0, 1] := by decide
  have hrange1 : List.range 1 = [0] := by decide
  unfold scanLayer scanRows scanRow
  rw [hrange1, hrange2]
  simp only [List.foldlM_cons, List.foldlM_nil, hcell0, hcell1, Option.some_bind,
    Option.bind_eq_bind, bind_pure, Option.pure_def, Option.bind_some]
  split <;> [split; skip] <;> simp

theorem paintRev_append (delayedPath : Bool) (cellX cellY : Nat) (front : TileInCell) :
    ∀ (l : List TileInCell),
      paintRev delayedPath cellX cellY (l ++ [front])
        = (paintRev delayedPath cellX cellY l).map (fun q => { q with tileIdx := q.tileIdx + 1 })
          ++ [{ delayedPath := delayedPath, cellX := cellX, cellY := cellY, tileIdx := 0,
                tile := front }] := by
  intro l
  induction l with
  | nil => simp [paintRev]
  | cons u l ih => simp [paintRev, ih]

theorem mem_dropWhile_of_not {α : Type} (keep : α → Bool) (a : α) (ha : keep a = false) :
    ∀ (l : List α), a ∈ l → a ∈ l.dropWhile keep := by
  intro l
  induction l with
  | nil => intro h; exact h
  | cons b l ih =>
    intro h
    rw [List.dropWhile_cons]
    split
    · rcases List.mem_cons.mp h with hab | hl
      · subst hab; simp_all
      · exact ih hl
    · exact h

theorem front_mem_dropWhile (t front : TileInCell) (more : List TileInCell)
    (hpq : front.priority < t.priority) (cellX cellY : Nat) :
    ({ delayedPath := false, cellX := cellX, cellY := cellY, tileIdx := 0, tile := front } : Paint)
      ∈ (paintRev false cellX cellY (front :: more).reverse).dropWhile
          (fun q => decide (t.priority ≤ q.tile.priority)) := by
  apply mem_dropWhile_of_not
  · simp only [decide_eq_false_iff_not]
    omega
  · rw [List.reverse_cons, paintRev_append]
    simp

/-- C2, counterexample: cell (0,0) holds one right-offset tile of priority 5, cell
(1,0) holds a front tile of priority 3 above a tile of priority 9.  Although
5 > 3, the tile of priority 9 of cell (1,0) is painted before the tile of cell
(0,0). -/
theorem drawLayer_two_cells_flush_before_counterexample :
    ∃ out,
      (drawLayer 0 0 2 1 16
          (gridOfRows [[[rightTile 1 5], [plainTile 2 3, plainTile 3 9]]]) sampleImage []).map
        Prod.snd = some out
      ∧ out.map DrawCmd.label = [(1, 0, 3), (0, 0, 1), (1, 0, 2)]
      ∧ ¬ PaintedBefore (0, 0) (1, 0) out := by
  have hscan : scanLayer 2 1 (gridOfRows [[[rightTile 1 5], [plainTile 2 3, plainTile 3 9]]])
      = some [⟨false, 1, 0, 1, plainTile 3 9⟩, ⟨true, 0, 0, 0, rightTile 1 5⟩,
              ⟨false, 1, 0, 0, plainTile 2 3⟩] := by
    decide
  refine ⟨([⟨false, 1, 0, 1, plainTile 3 9⟩, ⟨true, 0, 0, 0, rightTile 1 5⟩,
      ⟨false, 1, 0, 0, plainTile 2 3⟩] : List Paint).map
        (render sampleImage.image sampleImage.tiles 16 0 0), ?_, ?_, ?_⟩
  · rw [drawLayer_window, hscan]
    rfl
  · decide
  · unfold PaintedBefore
    decide

/-- C2, as the code has it: in a layer of 2x1 cells whose cell (0,0) holds exactly one
tile `t`, right-offset with priority `p` (a `uint8_t`, so `p < 256`), and whose
cell (1,0) holds `front` (priority `q`) in front of `more`, if `p > q` then `t`
is painted exactly once,
through `drawTiles`, immediately before the first tile of cell (1,0), in
painting order (last tile first), whose priority is below `p`.  So `t` is
painted before the front tile of cell (1,0); it is painted before every tile of
cell (1,0) when the last tile of that cell has a priority below `p` too. -/
theorem drawLayer_two_cells_flush_before (x y : Int) (cellPixelSize : Nat) (tileGrid : TileGrid)
    (tilesetImage : TileSetImage) (window : List DrawCmd) (t front : TileInCell)
    (more : List TileInCell)
    (h0 : tileGrid 0 0 = [t]) (hright : t.hasOffsetRight = true) (hp : t.priority < 256)
    (h1 : tileGrid 1 0 = front :: more) (hpq : t.priority > front.priority) :
    (drawLayer x y 2 1 cellPixelSize tileGrid tilesetImage window).map Prod.snd
        = some (window ++
            ((paintRev false 1 0 (front :: more).reverse).takeWhile
                (fun (q : Paint) => decide (t.priority ≤ q.tile.priority))
              ++ [Paint.mk true 0 0 0 t]
              ++ (paintRev false 1 0 (front :: more).reverse).dropWhile
                (fun (q : Paint) => decide (t.priority ≤ q.tile.priority))).map
              (render tilesetImage.image tilesetImage.tiles cellPixelSize x y))
      ∧ Paint.mk false 1 0 0 front
          ∈ (paintRev false 1 0 (front :: more).reverse).dropWhile
              (fun (q : Paint) => decide (t.priority ≤ q.tile.priority))
      ∧ (∀ last, (front :: more).getLast? = some last → last.priority < t.priority →
          (paintRev false 1 0 (front :: more).reverse).takeWhile
              (fun (q : Paint) => decide (t.priority ≤ q.tile.priority)) = []) := by
  have hmem := front_mem_dropWhile t front more hpq 1 0
  refine ⟨?_, hmem, ?_⟩
  · rw [drawLayer_window, scanLayer_two_cells tileGrid t front more h0 hright h1,
      Nat.mod_eq_of_lt hp]
    rw [if_neg (fun hnil => by rw [hnil] at hmem; exact absurd hmem (List.not_mem_nil _))]
    rfl
  · intro last hlast hlow
    rw [List.getLast?_eq_head?_reverse] at hlast
    cases hrev : (front :: more).reverse with
    | nil => rw [hrev] at hlast; simp at hlast
    | cons u rest =>
      rw [hrev] at hlast
      simp only [List.head?_cons, Option.some.injEq] at hlast
      subst hlast
      have : ¬ t.priority ≤ u.priority := by omega
      simp [paintRev, List.takeWhile_cons, this]

/-- C2 as the code has it, on the scenario of the spec (`p = 5`, `q = 3`, one tile in
cell (1,0)): the tile of cell (0,0) is painted first. -/
theorem drawLayer_two_cells_flush_before_witness :
    gridOfRows [[[rightTile 1 5], [plainTile 2 3]]] 0 0 = [rightTile 1 5]
      ∧ (rightTile 1 5).hasOffsetRight = true ∧ (rightTile 1 5).priority < 256
      ∧ gridOfRows [[[rightTile 1 5], [plainTile 2 3]]] 1 0 = plainTile 2 3 :: []
      ∧ (rightTile 1 5).priority > (plainTile 2 3).priority
      ∧ ((drawLayer 0 0 2 1 16 (gridOfRows [[[rightTile 1 5], [plainTile 2 3]]]) sampleImage
            []).map Prod.snd).map (List.map DrawCmd.label)
          = some [(0, 0, 1), (1, 0, 2)] := by
  refine ⟨rfl, rfl, by decide, rfl, by decide, ?_⟩
  rw [(drawLayer_two_cells_flush_before 0 0 16 (gridOfRows [[[rightTile 1 5], [plainTile 2 3]]])
    sampleImage [] (rightTile 1 5) (plainTile 2 3) [] rfl rfl (by decide) rfl (by decide)).1]
  rfl

theorem paintRev_tile_mem (delayedPath : Bool) (cellX cellY : Nat) :
    ∀ (l : List TileInCell) (q : Paint), q ∈ paintRev delayedPath cellX cellY l → q.tile ∈ l := by
  intro l
  induction l with
  | nil => intro q h; simp [paintRev] at h
  | cons u l ih =>
    intro q h
    rcases List.mem_cons.mp h with hq | hq
    · subst hq; exact List.mem_cons_self _ _
    · exact List.mem_cons_of_mem _ (ih q hq)

/-- C3, counterexample: cell (0,0) holds one right-offset tile of priority 5, cell
(1,0) holds a front tile of priority 8 above a tile of priority 2.  Although
5 < 8, the tile of cell (0,0) is painted before both tiles of cell (1,0). -/
theorem drawLayer_two_cells_flush_after_counterexample :
    ∃ out,
      (drawLayer 0 0 2 1 16
          (gridOfRows [[[rightTile 1 5], [plainTile 2 8, plainTile 3 2]]]) sampleImage []).map
        Prod.snd = some out
      ∧ out.map DrawCmd.label = [(0, 0, 1), (1, 0, 3), (1, 0, 2)]
      ∧ ¬ PaintedBefore (1, 0) (0, 0) out := by
  have hscan : scanLayer 2 1 (gridOfRows [[[rightTile 1 5], [plainTile 2 8, plainTile 3 2]]])
      = some [⟨true, 0, 0, 0, rightTile 1 5⟩, ⟨false, 1, 0, 1, plainTile 3 2⟩,
              ⟨false, 1, 0, 0, plainTile 2 8⟩] := by
    decide
  refine ⟨([⟨true, 0, 0, 0, rightTile 1 5⟩, ⟨false, 1, 0, 1, plainTile 3 2⟩,
      ⟨false, 1, 0, 0, plainTile 2 8⟩] : List Paint).map
        (render sampleImage.image sampleImage.tiles 16 0 0), ?_, ?_, ?_⟩
  · rw [drawLayer_window, hscan]
    rfl
  · decide
  · unfold PaintedBefore
    decide

/-- C3, as the code has it: in a layer of 2x1 cells whose cell (0,0) holds exactly one
tile `t`, right-offset with priority `p` (a `uint8_t`, so `p < 256`), and whose
cell (1,0) holds `front` (priority `q`) in front of `more`, if `p < q` and no
tile of cell (1,0) has a
priority below `p`, then the tiles of cell (1,0) are painted first, last tile
to front tile, and `t` is painted after them, through `drawTiles`. -/
theorem drawLayer_two_cells_flush_after (x y : Int) (cellPixelSize : Nat) (tileGrid : TileGrid)
    (tilesetImage : TileSetImage) (window : List DrawCmd) (t front : TileInCell)
    (more : List TileInCell)
    (h0 : tileGrid 0 0 = [t]) (hright : t.hasOffsetRight = true) (hp : t.priority < 256)
    (h1 : tileGrid 1 0 = front :: more) (hpq : t.priority < front.priority)
    (hmore : ∀ u ∈ more, t.priority ≤ u.priority) :
    (drawLayer x y 2 1 cellPixelSize tileGrid tilesetImage window).map Prod.snd
      = some (window ++
          (paintRev false 1 0 (front :: more).reverse ++ [Paint.mk true 0 0 0 t]).map
            (render tilesetImage.image tilesetImage.tiles cellPixelSize x y)) := by
  have hdrop : (paintRev false 1 0 (front :: more).reverse).dropWhile
      (fun q => decide (t.priority ≤ q.tile.priority)) = [] := by
    rw [List.dropWhile_eq_nil_iff]
    intro q hq
    have hmem := List.mem_reverse.mp (paintRev_tile_mem _ _ _ _ q hq)
    rw [decide_eq_true_eq]
    rcases List.mem_cons.mp hmem with hf | hm
    · rw [hf]; omega
    · exact hmore _ hm
  rw [drawLayer_window, scanLayer_two_cells tileGrid t front more h0 hright h1,
    Nat.mod_eq_of_lt hp, if_pos hdrop, if_pos hpq]
  rfl

/-- C3 as the code has it, on the scenario of the spec (`p = 5`, `q = 8`, one tile in
cell (1,0)): the tile of cell (0,0) is painted last. -/
theorem drawLayer_two_cells_flush_after_witness :
    gridOfRows [[[rightTile 1 5], [plainTile 2 8]]] 0 0 = [rightTile 1 5]
      ∧ (rightTile 1 5).hasOffsetRight = true ∧ (rightTile 1 5).priority < 256
      ∧ gridOfRows [[[rightTile 1 5], [plainTile 2 8]]] 1 0 = plainTile 2 8 :: []
      ∧ (rightTile 1 5).priority < (plainTile 2 8).priority
      ∧ (∀ u ∈ ([] : List TileInCell), (rightTile 1 5).priority ≤ u.priority)
      ∧ ((drawLayer 0 0 2 1 16 (gridOfRows [[[rightTile 1 5], [plainTile 2 8]]]) sampleImage
            []).map Prod.snd).map (List.map DrawCmd.label)
          = some [(1, 0, 2), (0, 0, 1)] := by
  refine ⟨rfl, rfl, by decide, rfl, by decide, by simp, ?_⟩
  rw [drawLayer_two_cells_flush_after 0 0 16 (gridOfRows [[[rightTile 1 5], [plainTile 2 8]]])
    sampleImage [] (rightTile 1 5) (plainTile 2 8) [] rfl rfl (by decide) rfl (by decide)
    (by simp)]
  rfl

/-! ## A delayed unit that no test flushes -/

/-- C4, the code at a failing input: the 2x2 layer whose row 0 holds a right-offset
tile of priority 5 in cell (0,0) and a tile of the same priority in cell (1,0).
Neither test flushes on equal priorities: the unit is still delayed when row
0 is finished, it is painted while row 1 is scanned (after the tile of cell
(0,1)), and in the layer made of row 0 alone it is never painted. -/
theorem drawRow_leaves_unit_delayed :
    (drawRow 16 (16 * (1 / 2)) 0 0 sampleImage.image 2
        (gridOfRows [[[rightTile 1 5], [plainTile 2 5]], [[plainTile 3 1], [plainTile 3 1]]])
        { tilesetImage := sampleImage, window := [], delayed := none } 0).map DrawState.delayed
      = some (some { tiles := [rightTile 1 5], idx := 0, rulePriority := 5, cellX := 0, cellY := 0 })
    ∧ ((drawLayer 0 0 2 2 16
          (gridOfRows [[[rightTile 1 5], [plainTile 2 5]], [[plainTile 3 1], [plainTile 3 1]]])
          sampleImage []).map Prod.snd).map (List.map DrawCmd.label)
      = some [(1, 0, 2), (0, 1, 3), (0, 0, 1), (1, 1, 3)]
    ∧ ((drawLayer 0 0 2 1 16 (gridOfRows [[[rightTile 1 5], [plainTile 2 5]]])
          sampleImage []).map Prod.snd).map (List.map DrawCmd.label)
      = some [(1, 0, 2)] := by
  refine ⟨by decide, ?_, ?_⟩
  · rw [drawLayer_window]
    decide
  · rw [drawLayer_window]
    decide

/-! ## Tile ids the index does not hold -/

theorem render_withoutRect (sprite : Texture) (tiles tiles1 : UMap Int IntRect)
    (cellPixelSize : Nat) (x y : Int) (p : Paint) :
    (render sprite tiles cellPixelSize x y p).withoutRect
      = (render sprite tiles1 cellPixelSize x y p).withoutRect := rfl

/-! ## The layers of a frame -/

theorem sameRects_trans {a b c : TileSetImage} (hab : SameRects a b) (hbc : SameRects b c) :
    SameRects a c :=
  ⟨hab.1.trans hbc.1, fun k => (hab.2 k).trans (hbc.2 k)⟩

theorem render_congr {a b : TileSetImage} (h : SameRects a b) (cellPixelSize : Nat) (x y : Int) :
    render a.image a.tiles cellPixelSize x y = render b.image b.tiles cellPixelSize x y := by
  funext p
  simp [render, h.1, h.2]

theorem concatBlocks_cons (block : Option (List DrawCmd))
    (rest : List (Option (List DrawCmd))) :
    concatBlocks (block :: rest) = block.bind fun b => (concatBlocks rest).map fun r => b ++ r := by
  cases block <;> rfl

theorem drawLayers_blocks (ldtk : LdtkDefFile) (x y : Int) (level : Level)
    (init : UMap Int TileSetImage) :
    ∀ (n : Nat) (tilesetImages : UMap Int TileSetImage) (window : List DrawCmd),
      n ≤ ldtk.layers.length → ImagesSame tilesetImages init →
      (drawLayers ldtk x y level n tilesetImages window).map Prod.snd
        = (concatBlocks ((List.range n).reverse.map
            (layerDrawCalls { ldtk := ldtk, tilesetImages := init } x y level))).map
              (fun blocks => window ++ blocks) := by
  intro n
  induction n with
  | zero => intro imgs window _ _; simp [drawLayers, concatBlocks]
  | succ n ih =>
    intro imgs window hn hsame
    have hrange : (List.range (n + 1)).reverse = n :: (List.range n).reverse := by
      rw [List.range_succ, List.reverse_append]; rfl
    obtain ⟨layer, hlayer⟩ : ∃ layer, ldtk.getLayer n = some layer :=
      ⟨ldtk.layers[n], List.getElem?_eq_getElem (by omega)⟩
    rw [hrange, List.map_cons, concatBlocks_cons, drawLayers, hlayer]
    simp only [layerDrawCalls, hlayer, LdtkAssets.findTilesetImage]
    cases hts : ldtk.getTileset layer.tilesetDefUid with
    | none =>
      simp only
      rw [ih imgs window (by omega) hsame]
      cases concatBlocks ((List.range n).reverse.map
        (layerDrawCalls { ldtk := ldtk, tilesetImages := init } x y level)) <;> simp
    | some tileset =>
      simp only
      have hkey := hsame tileset.uid
      cases himg : imgs tileset.uid with
      | none =>
        cases hinit : init tileset.uid with
        | some b => rw [himg, hinit] at hkey; exact hkey.elim
        | none =>
          simp only [UMap.count, himg, if_true]
          rw [ih imgs window (by omega) hsame]
          cases concatBlocks ((List.range n).reverse.map
            (layerDrawCalls { ldtk := ldtk, tilesetImages := init } x y level)) <;> simp
      | some a =>
        cases hinit : init tileset.uid with
        | none => rw [himg, hinit] at hkey; exact hkey.elim
        | some b =>
          rw [himg, hinit] at hkey
          have hab : SameRects a b := hkey
          simp only [UMap.count, UMap.index, himg, one_ne_zero, if_false]
          have hrun := drawLayer_eq_scanLayer x y level.getWidth level.getHeight
            layer.cellPixelSize (level.getTileGrid n) a window
          rw [drawLayer_window x y level.getWidth level.getHeight layer.cellPixelSize
            (level.getTileGrid n) b []]
          cases hscan : scanLayer level.getWidth level.getHeight (level.getTileGrid n) with
          | none =>
            rw [hscan] at hrun
            simp only at hrun
            rw [hrun]
            rfl
          | some paints =>
            rw [hscan] at hrun
            obtain ⟨a1, ha1, hrun⟩ := hrun
            rw [hrun]
            simp only [Option.map_some', List.nil_append]
            rw [ih _ _ (by omega) (fun uid => by
              by_cases huid : uid = tileset.uid
              · subst huid
                simp only [if_true, hinit]
                exact sameRects_trans ha1 hab
              · simp only [huid, if_false]
                exact hsame uid)]
            rw [render_congr hab]
            cases concatBlocks ((List.range n).reverse.map
              (layerDrawCalls { ldtk := ldtk, tilesetImages := init } x y level)) <;> simp

theorem imagesSame_refl (a : UMap Int TileSetImage) : ImagesSame a a := by
  intro uid
  cases h : a uid with
  | none => trivial
  | some img => exact sameRects_refl img

theorem draw_blocks (assets : LdtkAssets) (x y : Int) (level : Level) (window : List DrawCmd) :
    (assets.draw x y level window).map Prod.snd
      = (concatBlocks ((List.range assets.ldtk.getLayerCount).reverse.map
          (layerDrawCalls assets x y level))).map (fun blocks => window ++ blocks) := by
  have h := drawLayers_blocks assets.ldtk x y level assets.tilesetImages
    assets.ldtk.getLayerCount assets.tilesetImages window (Nat.le_refl _) (imagesSame_refl _)
  rw [← h]
  unfold LdtkAssets.draw
  cases drawLayers assets.ldtk x y level assets.ldtk.getLayerCount assets.tilesetImages window with
  | none => rfl
  | some r => rfl

/-- C6: a layer whose tileset image is not found (`getTileset` fails, or the uid is
not a key of `tilesetImages`) adds no draw call, and every other layer adds
exactly the draw calls it adds in any other frame (`assets1`, `level1`) that
gives this layer the same record, the same grid and the same tileset image,
for instance the frame in which the missing tileset image is present. -/
theorem draw_skips_layer_without_tileset (assets assets1 : LdtkAssets) (x y : Int)
    (level level1 : Level) (window : List DrawCmd)
    (hlayers : assets1.ldtk.layers = assets.ldtk.layers)
    (hwidth : level1.getWidth = level.getWidth) (hheight : level1.getHeight = level.getHeight)
    (hsame : ∀ i layer tilesetImage, assets.ldtk.getLayer i = some layer →
      assets.findTilesetImage layer = some tilesetImage →
      assets1.findTilesetImage layer = some tilesetImage
        ∧ level1.getTileGrid i = level.getTileGrid i) :
    (assets.draw x y level window).map Prod.snd
      = (concatBlocks ((List.range assets.ldtk.getLayerCount).reverse.map fun i =>
          match assets.ldtk.getLayer i with
          | none => none
          | some layer =>
            match assets.findTilesetImage layer with
            | none => some []
            | some _ => layerDrawCalls assets1 x y level1 i)).map
            (fun blocks => window ++ blocks) := by
  rw [draw_blocks]
  congr 2
  apply List.map_congr_left
  intro i _
  unfold layerDrawCalls
  cases hlayer : assets.ldtk.getLayer i with
  | none => rfl
  | some layer =>
    have hlayer1 : assets1.ldtk.getLayer i = some layer := by
      unfold LdtkDefFile.getLayer at hlayer ⊢
      rw [hlayers]; exact hlayer
    simp only [hlayer1]
    cases hfind : assets.findTilesetImage layer with
    | none => rfl
    | some tilesetImage =>
      obtain ⟨hfind1, hgrid⟩ := hsame i layer tilesetImage hlayer hfind
      simp only [hfind1, hgrid, hwidth, hheight]

/-- C6 on a frame of two layers: the tileset image of layer 1 is missing, the frame
holds the draw call of layer 0 alone, the one layer 0 adds when the image of
layer 1 is present. -/
theorem draw_skips_layer_without_tileset_witness :
    sampleAssetsFull.ldtk.layers = sampleAssets.ldtk.layers
      ∧ ((sampleAssets.draw 0 0 sampleLevel []).map Prod.snd).map (List.map DrawCmd.label)
          = some [(0, 0, 1)]
      ∧ ((sampleAssetsFull.draw 0 0 sampleLevel []).map Prod.snd).map (List.map DrawCmd.label)
          = some [(0, 0, 2), (0, 0, 1)] := by
  have hsame : ∀ i layer tilesetImage, sampleAssets.ldtk.getLayer i = some layer →
      sampleAssets.findTilesetImage layer = some tilesetImage →
      sampleAssetsFull.findTilesetImage layer = some tilesetImage
        ∧ sampleLevel.getTileGrid i = sampleLevel.getTileGrid i := by
    intro i layer tilesetImage hlayer hfind
    refine ⟨?_, rfl⟩
    match i with
    | 0 =>
      cases hlayer
      exact hfind
    | 1 =>
      cases hlayer
      simp [LdtkAssets.findTilesetImage, sampleAssets, sampleLdtk] at hfind
    | n + 2 => simp [LdtkDefFile.getLayer, sampleAssets, sampleLdtk] at hlayer
  refine ⟨rfl, ?_, ?_⟩
  · rw [draw_skips_layer_without_tileset sampleAssets sampleAssetsFull 0 0 sampleLevel sampleLevel
      [] rfl rfl rfl hsame]
    simp only [layerDrawCalls, drawLayer_window]
    decide
  · rw [draw_blocks]
    decide

/-- C7: the window after `draw` is the window before it followed by one block of
draw calls per layer, the blocks in decreasing layer index: the block of the
layer of index `getLayerCount - 1` comes first, the block of layer 0 last.
Each block is what `drawLayer` adds for that layer alone. -/
theorem draw_layers_in_decreasing_index (assets : LdtkAssets) (x y : Int) (level : Level)
    (window : List DrawCmd) :
    (assets.draw x y level window).map Prod.snd
      = (concatBlocks ((List.range assets.ldtk.getLayerCount).reverse.map
          (layerDrawCalls assets x y level))).map (fun blocks => window ++ blocks) :=
  draw_blocks assets x y level window

/-! ## The rectangles assigned by `load` -/

theorem assignTileIds_append (tileset : TileSet) (cellPixelSize : Nat) :
    ∀ (ids more : List Int) (tiles : UMap Int IntRect),
      assignTileIds tileset cellPixelSize (ids ++ more) tiles
        = assignTileIds tileset cellPixelSize more (assignTileIds tileset cellPixelSize ids tiles) := by
  intro ids
  induction ids with
  | nil => intro more tiles; rfl
  | cons k ids ih =>
    intro more tiles
    simp only [List.cons_append, assignTileIds]
    split <;> exact ih _ _

theorem assignRules_eq (tileset : TileSet) (cellPixelSize : Nat) :
    ∀ (rules : List Rule) (tiles : UMap Int IntRect),
      assignRules tileset cellPixelSize rules tiles
        = assignTileIds tileset cellPixelSize (rules.flatMap fun rule => rule.tileIds) tiles := by
  intro rules
  induction rules with
  | nil => intro tiles; rfl
  | cons rule rules ih =>
    intro tiles
    rw [assignRules, ih, List.flatMap_cons, assignTileIds_append]

theorem assignRuleGroups_eq (tileset : TileSet) (cellPixelSize : Nat) :
    ∀ (ruleGroups : List RuleGroup) (tiles : UMap Int IntRect),
      assignRuleGroups tileset cellPixelSize ruleGroups tiles
        = assignTileIds tileset cellPixelSize
            (ruleGroups.flatMap fun ruleGroup => ruleGroup.rules.flatMap fun rule => rule.tileIds)
            tiles := by
  intro ruleGroups
  induction ruleGroups with
  | nil => intro tiles; rfl
  | cons ruleGroup ruleGroups ih =>
    intro tiles
    rw [assignRuleGroups, ih, assignRules_eq, List.flatMap_cons, assignTileIds_append]

theorem insert_apply (m : UMap Int IntRect) (k j : Int) (v : IntRect) (hk : m k = none) :
    (m.insert k v) j = if j = k then some v else m j := by
  unfold UMap.insert
  rw [hk]

theorem count_pos_iff {ν : Type} (m : UMap Int ν) (k : Int) :
    m.count k > 0 ↔ ∃ r, m k = some r := by
  unfold UMap.count
  cases m k <;> simp

theorem count_eq_zero_iff {ν : Type} (m : UMap Int ν) (k : Int) : m.count k = 0 ↔ m k = none := by
  unfold UMap.count
  cases m k <;> simp

theorem assignTileIds_mono (tileset : TileSet) (cellPixelSize : Nat) :
    ∀ (ids : List Int) (tiles : UMap Int IntRect) (k : Int) (r : IntRect),
      tiles k = some r → assignTileIds tileset cellPixelSize ids tiles k = some r := by
  intro ids
  induction ids with
  | nil => intro tiles k r h; exact h
  | cons j ids ih =>
    intro tiles k r h
    rw [assignTileIds]
    split
    · exact ih _ _ _ h
    · rename_i hcount
      have hj : tiles j = none := by
        cases hj : tiles j with
        | none => rfl
        | some v => exact absurd ((count_pos_iff tiles j).mpr ⟨v, hj⟩) hcount
      apply ih
      rw [insert_apply _ _ _ _ hj]
      have hne : k ≠ j := by
        intro hkj
        rw [hkj, hj] at h
        cases h
      simp [hne, h]

theorem assignTileIds_complete (tileset : TileSet) (cellPixelSize : Nat) :
    ∀ (ids : List Int) (tiles : UMap Int IntRect) (k : Int),
      k ∈ ids → ∃ r, assignTileIds tileset cellPixelSize ids tiles k = some r := by
  intro ids
  induction ids with
  | nil => intro tiles k h; simp at h
  | cons j ids ih =>
    intro tiles k h
    rw [assignTileIds]
    rcases List.mem_cons.mp h with hkj | hk
    · subst hkj
      split
      · rename_i hcount
        obtain ⟨r, hr⟩ := (count_pos_iff tiles k).mp hcount
        exact ⟨r, assignTileIds_mono _ _ _ _ _ _ hr⟩
      · rename_i hcount
        have hj : tiles k = none := by
          cases hj : tiles k with
          | none => rfl
          | some v => exact absurd ((count_pos_iff tiles k).mpr ⟨v, hj⟩) hcount
        refine ⟨cellRect tileset cellPixelSize k, assignTileIds_mono _ _ _ _ _ _ ?_⟩
        rw [insert_apply _ _ _ _ hj]
        simp [cellRect]
    · split <;> exact ih _ _ hk

theorem assignTileIds_sound (tileset : TileSet) (cellPixelSize : Nat) :
    ∀ (ids : List Int) (tiles : UMap Int IntRect) (k : Int) (r : IntRect),
      assignTileIds tileset cellPixelSize ids tiles k = some r →
      tiles k = some r ∨ (k ∈ ids ∧ r = cellRect tileset cellPixelSize k) := by
  intro ids
  induction ids with
  | nil => intro tiles k r h; exact Or.inl h
  | cons j ids ih =>
    intro tiles k r h
    rw [assignTileIds] at h
    split at h
    · rcases ih _ _ _ h with h1 | ⟨h1, h2⟩
      · exact Or.inl h1
      · exact Or.inr ⟨List.mem_cons_of_mem _ h1, h2⟩
    · rename_i hcount
      have hj : tiles j = none := by
        cases hj : tiles j with
        | none => rfl
        | some v => exact absurd ((count_pos_iff tiles j).mpr ⟨v, hj⟩) hcount
      rcases ih _ _ _ h with h1 | ⟨h1, h2⟩
      · rw [insert_apply _ _ _ _ hj] at h1
        by_cases hkj : k = j
        · subst hkj
          simp only [if_true, Option.some.injEq] at h1
          exact Or.inr ⟨List.mem_cons_self _ _, h1.symm⟩
        · simp only [hkj, if_false] at h1
          exact Or.inl h1
      · exact Or.inr ⟨List.mem_cons_of_mem _ h1, h2⟩

theorem assignLayer_apply (ldtk : LdtkDefFile) (layer : Layer)
    (tilesetImages : UMap Int TileSetImage) (uid : Int) :
    assignLayer ldtk layer tilesetImages uid
      = match ldtk.getTileset layer.tilesetDefUid with
        | none => tilesetImages uid
        | some tileset =>
          if uid = tileset.uid then
            (tilesetImages uid).map fun tilesetImage =>
              { tilesetImage with
                tiles := assignTileIds tileset layer.cellPixelSize layer.tileIds
                  tilesetImage.tiles }
          else tilesetImages uid := by
  unfold assignLayer
  cases hts : ldtk.getTileset layer.tilesetDefUid with
  | none => rfl
  | some tileset =>
    simp only
    cases himg : tilesetImages tileset.uid with
    | none =>
      rw [if_pos ((count_eq_zero_iff _ _).mpr himg)]
      by_cases huid : uid = tileset.uid
      · rw [if_pos huid, huid, himg]; rfl
      · rw [if_neg huid]
    | some img =>
      have hcount : ¬ tilesetImages.count tileset.uid = 0 := by
        rw [count_eq_zero_iff, himg]; simp
      rw [if_neg hcount]
      simp only [UMap.index, himg, assignRuleGroups_eq, Layer.tileIds]
      by_cases huid : uid = tileset.uid
      · rw [if_pos huid, if_pos huid, huid, himg]; rfl
      · rw [if_neg huid, if_neg huid]

theorem assignLayer_mono (ldtk : LdtkDefFile) (layer : Layer) (imgs : UMap Int TileSetImage)
    (uid k : Int) (img : TileSetImage) (r : IntRect) (himg : imgs uid = some img)
    (hr : img.tiles k = some r) :
    ∃ img1, assignLayer ldtk layer imgs uid = some img1 ∧ img1.image = img.image
      ∧ img1.tiles k = some r := by
  rw [assignLayer_apply]
  cases hts : ldtk.getTileset layer.tilesetDefUid with
  | none => exact ⟨img, himg, rfl, hr⟩
  | some tileset =>
    simp only
    by_cases huid : uid = tileset.uid
    · rw [if_pos huid, himg]
      exact ⟨_, rfl, rfl, assignTileIds_mono _ _ _ _ _ _ hr⟩
    · rw [if_neg huid]
      exact ⟨img, himg, rfl, hr⟩

theorem assignLayer_present (ldtk : LdtkDefFile) (layer : Layer) (imgs : UMap Int TileSetImage)
    (uid : Int) (img : TileSetImage) (himg : imgs uid = some img) :
    ∃ img1, assignLayer ldtk layer imgs uid = some img1 := by
  rw [assignLayer_apply]
  cases hts : ldtk.getTileset layer.tilesetDefUid with
  | none => exact ⟨img, himg⟩
  | some tileset =>
    simp only
    by_cases huid : uid = tileset.uid
    · rw [if_pos huid, himg]
      exact ⟨_, rfl⟩
    · rw [if_neg huid]
      exact ⟨img, himg⟩

theorem assignLayer_sound (ldtk : LdtkDefFile) (layer : Layer) (imgs : UMap Int TileSetImage)
    (uid k : Int) (img1 : TileSetImage) (r : IntRect)
    (himg : assignLayer ldtk layer imgs uid = some img1) (hr : img1.tiles k = some r) :
    (∃ img, imgs uid = some img ∧ img.tiles k = some r)
      ∨ ∃ tileset, ldtk.getTileset layer.tilesetDefUid = some tileset ∧ tileset.uid = uid
          ∧ k ∈ layer.tileIds ∧ r = cellRect tileset layer.cellPixelSize k := by
  rw [assignLayer_apply] at himg
  cases hts : ldtk.getTileset layer.tilesetDefUid with
  | none =>
    rw [hts] at himg
    exact Or.inl ⟨img1, himg, hr⟩
  | some tileset =>
    rw [hts] at himg
    simp only at himg
    by_cases huid : uid = tileset.uid
    · rw [if_pos huid] at himg
      cases himg0 : imgs uid with
      | none => rw [himg0] at himg; cases himg
      | some img =>
        rw [himg0] at himg
        simp only [Option.map_some', Option.some.injEq] at himg
        subst himg
        rcases assignTileIds_sound _ _ _ _ _ _ hr with h1 | ⟨h1, h2⟩
        · exact Or.inl ⟨img, rfl, h1⟩
        · exact Or.inr ⟨tileset, rfl, huid.symm, h1, h2⟩
    · rw [if_neg huid] at himg
      exact Or.inl ⟨img1, himg, hr⟩

theorem assignLayer_complete (ldtk : LdtkDefFile) (layer : Layer) (imgs : UMap Int TileSetImage)
    (tileset : TileSet) (img : TileSetImage) (k : Int)
    (hts : ldtk.getTileset layer.tilesetDefUid = some tileset)
    (himg : imgs tileset.uid = some img) (hk : k ∈ layer.tileIds) :
    ∃ img1 r, assignLayer ldtk layer imgs tileset.uid = some img1 ∧ img1.tiles k = some r := by
  rw [assignLayer_apply, hts]
  simp only [if_true, himg, Option.map_some']
  obtain ⟨r, hr⟩ := assignTileIds_complete tileset layer.cellPixelSize layer.tileIds img.tiles k hk
  exact ⟨_, r, rfl, hr⟩

theorem assignIntRects_mono (ldtk : LdtkDefFile) :
    ∀ (layers : List Layer) (imgs : UMap Int TileSetImage) (uid k : Int) (img : TileSetImage)
      (r : IntRect), imgs uid = some img → img.tiles k = some r →
      ∃ img1, assignIntRects ldtk layers imgs uid = some img1 ∧ img1.image = img.image
        ∧ img1.tiles k = some r := by
  intro layers
  induction layers with
  | nil => intro imgs uid k img r himg hr; exact ⟨img, himg, rfl, hr⟩
  | cons layer layers ih =>
    intro imgs uid k img r himg hr
    obtain ⟨img1, h1, h2, h3⟩ := assignLayer_mono ldtk layer imgs uid k img r himg hr
    obtain ⟨img2, h4, h5, h6⟩ := ih _ uid k img1 r h1 h3
    exact ⟨img2, h4, h5.trans h2, h6⟩

theorem assignIntRects_present (ldtk : LdtkDefFile) :
    ∀ (layers : List Layer) (imgs : UMap Int TileSetImage) (uid : Int) (img : TileSetImage),
      imgs uid = some img → ∃ img1, assignIntRects ldtk layers imgs uid = some img1 := by
  intro layers
  induction layers with
  | nil => intro imgs uid img himg; exact ⟨img, himg⟩
  | cons layer layers ih =>
    intro imgs uid img himg
    obtain ⟨img1, h1⟩ := assignLayer_present ldtk layer imgs uid img himg
    exact ih _ uid img1 h1

theorem assignIntRects_sound (ldtk : LdtkDefFile) :
    ∀ (layers : List Layer) (imgs : UMap Int TileSetImage) (uid k : Int) (img1 : TileSetImage)
      (r : IntRect), assignIntRects ldtk layers imgs uid = some img1 → img1.tiles k = some r →
      (∃ img, imgs uid = some img ∧ img.tiles k = some r) ∨ Referenced ldtk layers uid k r := by
  intro layers
  induction layers with
  | nil => intro imgs uid k img1 r himg hr; exact Or.inl ⟨img1, himg, hr⟩
  | cons layer layers ih =>
    intro imgs uid k img1 r himg hr
    rw [assignIntRects] at himg
    rcases ih _ uid k img1 r himg hr with ⟨img, h1, h2⟩ | ⟨l, hl, ts, h1, h2, h3, h4⟩
    · rcases assignLayer_sound ldtk layer imgs uid k img r h1 h2 with h | ⟨ts, h3, h4, h5, h6⟩
      · exact Or.inl h
      · exact Or.inr ⟨layer, List.mem_cons_self _ _, ts, h3, h4, h5, h6⟩
    · exact Or.inr ⟨l, List.mem_cons_of_mem _ hl, ts, h1, h2, h3, h4⟩

theorem assignIntRects_complete (ldtk : LdtkDefFile) :
    ∀ (layers : List Layer) (imgs : UMap Int TileSetImage) (layer : Layer) (tileset : TileSet)
      (img : TileSetImage) (k : Int), layer ∈ layers →
      ldtk.getTileset layer.tilesetDefUid = some tileset → imgs tileset.uid = some img →
      k ∈ layer.tileIds →
      ∃ img1 r, assignIntRects ldtk layers imgs tileset.uid = some img1
        ∧ img1.tiles k = some r := by
  intro layers
  induction layers with
  | nil => intro imgs layer tileset img k hl; simp at hl
  | cons l layers ih =>
    intro imgs layer tileset img k hl hts himg hk
    rw [assignIntRects]
    rcases List.mem_cons.mp hl with hll | hl1
    · subst hll
      obtain ⟨img1, r, h1, h2⟩ := assignLayer_complete ldtk layer imgs tileset img k hts himg hk
      obtain ⟨img2, h3, _, h4⟩ := assignIntRects_mono ldtk layers _ tileset.uid k img1 r h1 h2
      exact ⟨img2, r, h3, h4⟩
    · obtain ⟨img1, h1⟩ := assignLayer_present ldtk l imgs tileset.uid img himg
      exact ih _ layer tileset img1 k hl1 hts h1 hk

theorem assignIntRects_absent (ldtk : LdtkDefFile) :
    ∀ (layers : List Layer) (imgs : UMap Int TileSetImage) (uid : Int),
      imgs uid = none → assignIntRects ldtk layers imgs uid = none := by
  intro layers
  induction layers with
  | nil => intro imgs uid h; exact h
  | cons layer layers ih =>
    intro imgs uid h
    rw [assignIntRects]
    apply ih
    rw [assignLayer_apply]
    cases ldtk.getTileset layer.tilesetDefUid with
    | none => exact h
    | some tileset =>
      simp only
      split
      · rw [h]; rfl
      · exact h

theorem assignIntRects_image (ldtk : LdtkDefFile) :
    ∀ (layers : List Layer) (imgs : UMap Int TileSetImage) (uid : Int) (img img1 : TileSetImage),
      imgs uid = some img → assignIntRects ldtk layers imgs uid = some img1 →
      img1.image = img.image := by
  intro layers
  induction layers with
  | nil =>
    intro imgs uid img img1 h h1
    rw [assignIntRects, h] at h1
    cases h1; rfl
  | cons layer layers ih =>
    intro imgs uid img img1 h h1
    rw [assignIntRects] at h1
    have h2 : ∃ img2, assignLayer ldtk layer imgs uid = some img2 ∧ img2.image = img.image := by
      rw [assignLayer_apply]
      cases ldtk.getTileset layer.tilesetDefUid with
      | none => exact ⟨img, h, rfl⟩
      | some tileset =>
        simp only
        split
        · rw [h]; exact ⟨_, rfl, rfl⟩
        · exact ⟨img, h, rfl⟩
    obtain ⟨img2, h3, h4⟩ := h2
    exact (ih _ uid img2 img1 h3 h1).trans h4

theorem loadTilesetImages_fresh (files : Files) (filename : String) :
    ∀ (tilesets : List TileSet) (imgs : UMap Int TileSetImage),
      FreshImages imgs → FreshImages (loadTilesetImages files filename tilesets imgs).2 := by
  intro tilesets
  induction tilesets with
  | nil => intro imgs h; exact h
  | cons tileset tilesets ih =>
    intro imgs h
    rw [loadTilesetImages]
    split
    · exact ih _ h
    · simp only
      split
      · apply ih
        intro uid img himg k
        unfold UMap.insert at himg
        cases hold : imgs tileset.uid with
        | some v =>
          rw [hold] at himg
          exact h uid img himg k
        | none =>
          rw [hold] at himg
          simp only at himg
          by_cases huid : uid = tileset.uid
          · rw [if_pos huid] at himg
            cases himg
            rfl
          · rw [if_neg huid] at himg
            exact h uid img himg k
      · exact h

/-- C8: after `load` on assets in which no rectangle was registered before, every
tile id registered in the index of a tileset image is referenced by a rule of
a layer on that tileset, and its rectangle is `(col * c, row * c, c, c)` for
the native grid coordinates `(col, row)` of the id and the cell size `c` of
that layer; so its area is `c` squared and `c` divides both coordinates of its
origin. -/
theorem load_registers_cell_rectangles (assets : LdtkAssets) (files : Files) (filename : String)
    (hfresh : FreshImages assets.tilesetImages) (uid tileId : Int) (tilesetImage : TileSetImage)
    (rect : IntRect)
    (himg : (assets.load files filename).2.tilesetImages uid = some tilesetImage)
    (hrect : tilesetImage.tiles tileId = some rect) :
    ∃ layer ∈ (assets.load files filename).2.ldtk.layers, ∃ tileset,
      (assets.load files filename).2.ldtk.getTileset layer.tilesetDefUid = some tileset
      ∧ tileset.uid = uid ∧ tileId ∈ layer.tileIds
      ∧ rect = ⟨(tileset.getCoordinates tileId).1 * layer.cellPixelSize,
                (tileset.getCoordinates tileId).2 * layer.cellPixelSize,
                layer.cellPixelSize, layer.cellPixelSize⟩
      ∧ rect.width * rect.height = (layer.cellPixelSize : Int) ^ 2
      ∧ (layer.cellPixelSize : Int) ∣ rect.left ∧ (layer.cellPixelSize : Int) ∣ rect.top := by
  unfold LdtkAssets.load at himg ⊢
  cases hfile : files.loadFromFile filename with
  | none =>
    rw [hfile] at himg
    have := hfresh uid tilesetImage himg tileId
    rw [this] at hrect
    cases hrect
  | some ldtk =>
    rw [hfile] at himg
    simp only at himg ⊢
    have hloaded := loadTilesetImages_fresh files filename ldtk.tilesets assets.tilesetImages hfresh
    cases hload : loadTilesetImages files filename ldtk.tilesets assets.tilesetImages with
    | mk ok imgs =>
      rw [hload] at himg hloaded
      cases ok with
      | false =>
        have := hloaded uid tilesetImage himg tileId
        rw [this] at hrect
        cases hrect
      | true =>
        simp only at himg ⊢
        rcases assignIntRects_sound ldtk ldtk.layers imgs uid tileId tilesetImage rect himg hrect
          with ⟨img, h1, h2⟩ | ⟨layer, hl, tileset, h1, h2, h3, h4⟩
        · have := hloaded uid img h1 tileId
          rw [this] at h2
          cases h2
        · refine ⟨layer, hl, tileset, h1, h2, h3, h4, ?_, ?_, ?_⟩
          · rw [h4]; simp [cellRect, sq]
          · rw [h4]; exact Dvd.intro_left _ rfl
          · rw [h4]; exact Dvd.intro_left _ rfl

/-- C8 on a fresh `LdtkAssets` and a file whose only layer (16 pixel cells) references
the tile ids 5, 2 and 5: the id 5, at native coordinates (1, 1), is registered
with the rectangle (16, 16, 16, 16). -/
theorem load_registers_cell_rectangles_witness :
    FreshImages freshAssets.tilesetImages
      ∧ ∃ tilesetImage,
          (freshAssets.load sampleFiles "assets/Demo.ldtk").2.tilesetImages 1 = some tilesetImage
          ∧ tilesetImage.tiles 5 = some ⟨16, 16, 16, 16⟩
          ∧ ∃ layer ∈ (freshAssets.load sampleFiles "assets/Demo.ldtk").2.ldtk.layers, ∃ tileset,
              (freshAssets.load sampleFiles "assets/Demo.ldtk").2.ldtk.getTileset
                layer.tilesetDefUid = some tileset
              ∧ tileset.uid = 1 ∧ (5 : Int) ∈ layer.tileIds
              ∧ (⟨16, 16, 16, 16⟩ : IntRect)
                  = ⟨(tileset.getCoordinates 5).1 * layer.cellPixelSize,
                     (tileset.getCoordinates 5).2 * layer.cellPixelSize,
                     layer.cellPixelSize, layer.cellPixelSize⟩
              ∧ (⟨16, 16, 16, 16⟩ : IntRect).width * (⟨16, 16, 16, 16⟩ : IntRect).height
                  = (layer.cellPixelSize : Int) ^ 2
              ∧ (layer.cellPixelSize : Int) ∣ (⟨16, 16, 16, 16⟩ : IntRect).left
              ∧ (layer.cellPixelSize : Int) ∣ (⟨16, 16, 16, 16⟩ : IntRect).top := by
  have hfresh : FreshImages freshAssets.tilesetImages := by
    intro uid img himg
    cases himg
  refine ⟨hfresh, _, rfl, by decide, ?_⟩
  exact load_registers_cell_rectangles freshAssets sampleFiles "assets/Demo.ldtk" hfresh 1 5 _
    ⟨16, 16, 16, 16⟩ rfl (by decide)

theorem assignIntRects_transfer (ldtk : LdtkDefFile) (layers layers1 : List Layer)
    (imgs : UMap Int TileSetImage)
    (hrefs : ∀ uid k r, Referenced ldtk layers uid k r → ∃ r1, Referenced ldtk layers1 uid k r1)
    (hcons : ∀ uid k r r1, Referenced ldtk layers uid k r → Referenced ldtk layers1 uid k r1 →
      r = r1)
    (uid k : Int) (img : TileSetImage) (r : IntRect)
    (himg : assignIntRects ldtk layers imgs uid = some img) (hr : img.tiles k = some r) :
    ∃ img1, assignIntRects ldtk layers1 imgs uid = some img1 ∧ img1.tiles k = some r := by
  rcases assignIntRects_sound ldtk layers imgs uid k img r himg hr with ⟨img0, h1, h2⟩ | href
  · obtain ⟨img1, h3, _, h4⟩ := assignIntRects_mono ldtk layers1 imgs uid k img0 r h1 h2
    exact ⟨img1, h3, h4⟩
  · obtain ⟨r1, href1⟩ := hrefs uid k r href
    obtain ⟨layer1, hl1, ts1, hts1, huid1, hk1, _⟩ := href1
    have hpresent : ∃ img0, imgs uid = some img0 := by
      cases h0 : imgs uid with
      | some img0 => exact ⟨img0, rfl⟩
      | none =>
        rw [assignIntRects_absent ldtk layers imgs uid h0] at himg
        cases himg
    obtain ⟨img0, h0⟩ := hpresent
    subst huid1
    obtain ⟨img1, r2, h3, h4⟩ := assignIntRects_complete ldtk layers1 imgs layer1 ts1 img0 k hl1
      hts1 h0 hk1
    refine ⟨img1, h3, ?_⟩
    rcases assignIntRects_sound ldtk layers1 imgs ts1.uid k img1 r2 h3 h4
      with ⟨img2, h5, h6⟩ | href2
    · rw [h0] at h5
      cases h5
      obtain ⟨img3, h7, _, h8⟩ := assignIntRects_mono ldtk layers imgs ts1.uid k img0 r2 h0 h6
      rw [himg] at h7
      cases h7
      rw [hr] at h8
      cases h8
      exact h4
    · rw [hcons ts1.uid k r r2 href href2]
      exact h4

theorem assignIntRects_same (ldtk : LdtkDefFile) (layers layers1 : List Layer)
    (imgs : UMap Int TileSetImage)
    (hrefs : ∀ uid k, (∃ r, Referenced ldtk layers uid k r) ↔ ∃ r, Referenced ldtk layers1 uid k r)
    (hcons : ∀ uid k r r1, Referenced ldtk layers uid k r → Referenced ldtk layers1 uid k r1 →
      r = r1) (uid : Int) :
    OptionRel (fun a b : TileSetImage => a.image = b.image ∧ ∀ k, a.tiles k = b.tiles k)
      (assignIntRects ldtk layers imgs uid) (assignIntRects ldtk layers1 imgs uid) := by
  cases h0 : imgs uid with
  | none =>
    rw [assignIntRects_absent ldtk layers imgs uid h0,
      assignIntRects_absent ldtk layers1 imgs uid h0]
    trivial
  | some img0 =>
    obtain ⟨a, ha⟩ := assignIntRects_present ldtk layers imgs uid img0 h0
    obtain ⟨b, hb⟩ := assignIntRects_present ldtk layers1 imgs uid img0 h0
    rw [ha, hb]
    refine ⟨(assignIntRects_image ldtk layers imgs uid img0 a h0 ha).trans
      (assignIntRects_image ldtk layers1 imgs uid img0 b h0 hb).symm, fun k => ?_⟩
    have hfwd : ∀ r, a.tiles k = some r → b.tiles k = some r := by
      intro r hr
      obtain ⟨b1, hb1, hr1⟩ := assignIntRects_transfer ldtk layers layers1 imgs
        (fun u j r0 h => (hrefs u j).mp ⟨r0, h⟩) hcons uid k a r ha hr
      rw [hb] at hb1
      cases hb1
      exact hr1
    have hbwd : ∀ r, b.tiles k = some r → a.tiles k = some r := by
      intro r hr
      obtain ⟨a1, ha1, hr1⟩ := assignIntRects_transfer ldtk layers1 layers imgs
        (fun u j r0 h => (hrefs u j).mpr ⟨r0, h⟩)
        (fun u j r0 r1 h h1 => (hcons u j r1 r0 h1 h).symm) uid k b r hb hr
      rw [ha] at ha1
      cases ha1
      exact hr1
    cases hak : a.tiles k with
    | some r => exact (hfwd r hak).symm
    | none =>
      cases hbk : b.tiles k with
      | none => rfl
      | some r => rw [hbwd r hbk] at hak; cases hak

/-- C9, counterexample: two layers on the same tileset reference the tile id 5, one
with cells of 16 pixels and one with cells of 32 pixels.  Visiting the same
two layers in the other order registers another rectangle for the id. -/
theorem assignIntRects_order_counterexample :
    [sampleLayer32, sampleLayer16] = [sampleLayer16, sampleLayer32].reverse
      ∧ (assignIntRects sampleRulesLdtk [sampleLayer16, sampleLayer32] sampleFreshImages 1).bind
          (fun tilesetImage => tilesetImage.tiles 5) = some ⟨16, 16, 16, 16⟩
      ∧ (assignIntRects sampleRulesLdtk [sampleLayer32, sampleLayer16] sampleFreshImages 1).bind
          (fun tilesetImage => tilesetImage.tiles 5) = some ⟨32, 32, 32, 32⟩ := by
  refine ⟨rfl, by decide, by decide⟩

/-- C9, as the code has it: let two lists of layers reference the same tile ids on the
same tilesets (in any order, any number of times), and let any two layers on
the same tileset, one of each list, have the same cell size and read the same
native coordinates.  Then the loop of `load` over either list, from the same
table of tileset images, ends with the same table: the same keys and, under
each key, the same texture and the same rectangle for every tile id. -/
theorem assignIntRects_order_independent (ldtk : LdtkDefFile) (layers layers1 : List Layer)
    (tilesetImages : UMap Int TileSetImage)
    (hrefs : ∀ uid tileId,
      (∃ rect, Referenced ldtk layers uid tileId rect)
        ↔ ∃ rect, Referenced ldtk layers1 uid tileId rect)
    (hcell : ∀ layer ∈ layers, ∀ layer1 ∈ layers1, ∀ tileset tileset1,
      ldtk.getTileset layer.tilesetDefUid = some tileset →
      ldtk.getTileset layer1.tilesetDefUid = some tileset1 → tileset.uid = tileset1.uid →
      layer.cellPixelSize = layer1.cellPixelSize
        ∧ tileset.getCoordinates = tileset1.getCoordinates)
    (uid : Int) :
    OptionRel (fun a b : TileSetImage => a.image = b.image ∧ ∀ tileId, a.tiles tileId = b.tiles tileId)
      (assignIntRects ldtk layers tilesetImages uid)
      (assignIntRects ldtk layers1 tilesetImages uid) := by
  apply assignIntRects_same ldtk layers layers1 tilesetImages hrefs
  rintro u k r r1 ⟨layer, hl, ts, hts, hu, _, hr⟩ ⟨layer1, hl1, ts1, hts1, hu1, _, hr1⟩
  obtain ⟨hc, hcoord⟩ := hcell layer hl layer1 hl1 ts ts1 hts hts1 (hu.trans hu1.symm)
  rw [hr, hr1, cellRect, cellRect, hc, hcoord]

/-- C9 as the code has it, on two layers of 16 pixel cells on one tileset, visited
once in one order, and in the other order with one layer visited twice: the
same rectangles are registered. -/
theorem assignIntRects_order_independent_witness :
    (∀ layer, layer ∈ [sampleLayer16, sampleLayer16b]
        ↔ layer ∈ [sampleLayer16b, sampleLayer16, sampleLayer16b])
      ∧ OptionRel
          (fun a b : TileSetImage => a.image = b.image ∧ ∀ tileId, a.tiles tileId = b.tiles tileId)
          (assignIntRects sampleRulesLdtk [sampleLayer16, sampleLayer16b] sampleFreshImages 1)
          (assignIntRects sampleRulesLdtk [sampleLayer16b, sampleLayer16, sampleLayer16b]
            sampleFreshImages 1)
      ∧ (assignIntRects sampleRulesLdtk [sampleLayer16b, sampleLayer16, sampleLayer16b]
            sampleFreshImages 1).bind (fun tilesetImage => tilesetImage.tiles 5)
          = some ⟨16, 16, 16, 16⟩ := by
  have hmem : ∀ layer, layer ∈ [sampleLayer16, sampleLayer16b]
      ↔ layer ∈ [sampleLayer16b, sampleLayer16, sampleLayer16b] := by
    intro layer
    simp only [List.mem_cons, List.mem_singleton, List.not_mem_nil, or_false]
    tauto
  refine ⟨hmem, ?_, by decide⟩
  apply assignIntRects_order_independent
  · intro u k
    constructor
    · rintro ⟨r, layer, hl, rest⟩
      exact ⟨r, layer, (hmem layer).mp hl, rest⟩
    · rintro ⟨r, layer, hl, rest⟩
      exact ⟨r, layer, (hmem layer).mpr hl, rest⟩
  · intro layer hl layer1 hl1 ts ts1 hts hts1 _
    simp only [List.mem_cons, List.mem_singleton, List.not_mem_nil, or_false] at hl hl1
    have hc : layer.cellPixelSize = 16 := by
      rcases hl with h | h <;> rw [h] <;> rfl
    have hc1 : layer1.cellPixelSize = 16 := by
      rcases hl1 with h | h | h <;> rw [h] <;> rfl
    have hd : layer.tilesetDefUid = 1 := by
      rcases hl with h | h <;> rw [h] <;> rfl
    have hd1 : layer1.tilesetDefUid = 1 := by
      rcases hl1 with h | h | h <;> rw [h] <;> rfl
    rw [hd] at hts
    rw [hd1] at hts1
    rw [hts] at hts1
    cases hts1
    exact ⟨hc.trans hc1.symm, rfl⟩

/-! ## Where the painted tiles come from -/

theorem paintRev_reverse_get (delayedPath : Bool) (cellX cellY : Nat) :
    ∀ (l : List TileInCell) (p : Paint), p ∈ paintRev delayedPath cellX cellY l.reverse →
      l[p.tileIdx]? = some p.tile ∧ p.cellX = cellX ∧ p.cellY = cellY := by
  intro l
  induction l using List.reverseRecOn with
  | nil => intro p h; simp [paintRev] at h
  | append_singleton l a ih =>
    intro p h
    rw [List.reverse_append, List.reverse_singleton, List.singleton_append, paintRev] at h
    rcases List.mem_cons.mp h with hp | hp
    · subst hp
      simp
    · obtain ⟨h1, h2, h3⟩ := ih p hp
      refine ⟨?_, h2, h3⟩
      have hlt : p.tileIdx < l.length := by
        by_contra hge
        rw [List.getElem?_eq_none (by omega)] at h1
        cases h1
      rw [List.getElem?_append_left hlt]
      exact h1

theorem scanDelayed_inGrid (tileGrid : TileGrid) (d : DelayedDraw) (ps : List Paint)
    (hd : DelayedInGrid tileGrid d) (hps : scanDelayed d = some ps) :
    ∀ p ∈ ps, PaintInGrid tileGrid p := by
  unfold scanDelayed at hps
  split at hps
  · simp only [Option.some.injEq] at hps
    subst hps
    intro p hp
    obtain ⟨h1, h2, h3⟩ := paintRev_reverse_get true d.cellX d.cellY _ p hp
    unfold PaintInGrid
    rw [h2, h3, ← hd]
    rw [List.getElem?_take] at h1
    split at h1
    · exact h1
    · cases h1
  · cases hps

theorem scanFlush_inGrid (tileGrid : TileGrid) (d : DelayedDraw) (t t1 : ScanState)
    (ht : ScanInGrid tileGrid t) (hd : DelayedInGrid tileGrid d)
    (hrun : scanFlush d t = some t1) : ScanInGrid tileGrid t1 := by
  unfold scanFlush at hrun
  cases hps : scanDelayed d with
  | none => rw [hps] at hrun; cases hrun
  | some ps =>
    rw [hps] at hrun
    simp only [Option.some.injEq] at hrun
    subst hrun
    refine ⟨fun p hp => ?_, fun d1 h => by cases h⟩
    rcases List.mem_append.mp hp with h | h
    · exact ht.1 p h
    · exact scanDelayed_inGrid tileGrid d ps hd hps p h

theorem scanCellTiles_inGrid (cellCountX : Nat) (tileGrid : TileGrid) (cellX cellY : Nat) :
    ∀ (rest : List TileInCell) (tileIdx : Nat) (t t1 : ScanState),
      ScanInGrid tileGrid t → (∃ l, tileGrid cellX cellY = rest.reverse ++ l) →
      scanCellTiles cellCountX tileGrid cellX cellY (tileGrid cellX cellY) rest tileIdx t = some t1 →
      ScanInGrid tileGrid t1 := by
  intro rest
  induction rest with
  | nil =>
    intro tileIdx t t1 ht _ hrun
    rw [scanCellTiles] at hrun
    cases hrun
    exact ht
  | cons tile rest ih =>
    intro tileIdx t t1 ht hpre hrun
    obtain ⟨l, hl⟩ := hpre
    rw [List.reverse_cons, List.append_assoc] at hl
    have htile : (tileGrid cellX cellY)[rest.length]? = some tile := by
      rw [hl, List.getElem?_append_right (by simp)]
      simp
    rw [scanCellTiles] at hrun
    split at hrun
    · simp only [Option.some.injEq] at hrun
      subst hrun
      refine ⟨ht.1, fun d hd => ?_⟩
      simp only [Option.some.injEq] at hd
      subst hd
      rfl
    · have hflush : ∀ t2, (match t.delayed with
            | none => some t
            | some d =>
              if cellX ≠ d.cellX ∧ d.rulePriority > tile.priority then scanFlush d t
              else some t) = some t2 → ScanInGrid tileGrid t2 := by
        intro t2 h2
        cases hdel : t.delayed with
        | none =>
          rw [hdel] at h2
          cases h2
          exact ht
        | some d =>
          rw [hdel] at h2
          simp only at h2
          split at h2
          · exact scanFlush_inGrid tileGrid d t t2 ht (ht.2 d hdel) h2
          · cases h2
            exact ht
      revert hflush hrun
      generalize (match t.delayed with
            | none => some t
            | some d =>
              if cellX ≠ d.cellX ∧ d.rulePriority > tile.priority then scanFlush d t
              else some t) = ft
      intro hrun hflush
      cases ft with
      | none => cases hrun
      | some t2 =>
        simp only at hrun
        have ht2 := hflush t2 rfl
        refine ih _ _ t1 ?_ ⟨[tile] ++ l, hl⟩ hrun
        refine ⟨fun p hp => ?_, fun d hd => ht2.2 d hd⟩
        rcases List.mem_append.mp hp with h | h
        · exact ht2.1 p h
        · simp only [List.mem_singleton] at h
          subst h
          exact htile

theorem scanCell_inGrid (cellCountX : Nat) (tileGrid : TileGrid) (cellY : Nat)
    (t t1 : ScanState) (cellX : Nat) (ht : ScanInGrid tileGrid t)
    (hrun : scanCell cellCountX tileGrid cellY t cellX = some t1) : ScanInGrid tileGrid t1 := by
  unfold scanCell at hrun
  simp only at hrun
  cases hloop : scanCellTiles cellCountX tileGrid cellX cellY (tileGrid cellX cellY)
      (tileGrid cellX cellY).reverse (((tileGrid cellX cellY).length + 255) % 256) t with
  | none => rw [hloop] at hrun; cases hrun
  | some t2 =>
    rw [hloop] at hrun
    simp only at hrun
    have ht2 := scanCellTiles_inGrid cellCountX tileGrid cellX cellY _ _ t t2 ht
      ⟨[], by simp⟩ hloop
    cases hdel : t2.delayed with
    | none =>
      rw [hdel] at hrun
      cases hrun
      exact ht2
    | some d =>
      rw [hdel] at hrun
      simp only at hrun
      split at hrun
      · cases hfront : (tileGrid cellX cellY).head? with
        | none => rw [hfront] at hrun; cases hrun
        | some front =>
          rw [hfront] at hrun
          simp only at hrun
          split at hrun
          · exact scanFlush_inGrid tileGrid d t2 t1 ht2 (ht2.2 d hdel) hrun
          · cases hrun
            exact ht2
      · cases hrun
        exact ht2

theorem foldlM_invariant {σ γ : Type} (inv : σ → Prop) (f : σ → γ → Option σ)
    (hstep : ∀ s a s1, inv s → f s a = some s1 → inv s1) :
    ∀ (l : List γ) (s s1 : σ), inv s → l.foldlM f s = some s1 → inv s1 := by
  intro l
  induction l with
  | nil =>
    intro s s1 hs hrun
    simp only [List.foldlM_nil, Option.pure_def, Option.some.injEq] at hrun
    subst hrun
    exact hs
  | cons a l ih =>
    intro s s1 hs hrun
    simp only [List.foldlM_cons, Option.bind_eq_bind] at hrun
    cases hf : f s a with
    | none => rw [hf] at hrun; cases hrun
    | some s2 =>
      rw [hf] at hrun
      exact ih s2 s1 (hstep s a s2 hs hf) hrun

theorem scanLayer_inGrid (cellCountX cellCountY : Nat) (tileGrid : TileGrid)
    (paints : List Paint) (hrun : scanLayer cellCountX cellCountY tileGrid = some paints) :
    ∀ p ∈ paints, PaintInGrid tileGrid p := by
  unfold scanLayer at hrun
  cases hrows : scanRows cellCountX cellCountY tileGrid { painted := [], delayed := none } with
  | none => rw [hrows] at hrun; cases hrun
  | some t =>
    rw [hrows] at hrun
    simp only [Option.some.injEq] at hrun
    subst hrun
    have hinv : ScanInGrid tileGrid t := by
      refine foldlM_invariant (ScanInGrid tileGrid) (scanRow cellCountX tileGrid) ?_ _ _ t
        ⟨fun p hp => (by cases hp), fun d hd => (by cases hd)⟩ hrows
      intro s cellY s1 hs hrow
      exact foldlM_invariant (ScanInGrid tileGrid) (scanCell cellCountX tileGrid cellY)
        (fun s2 cellX s3 hs2 hcell => scanCell_inGrid cellCountX tileGrid cellY s2 s3 cellX hs2 hcell)
        _ s s1 hs hrow
    exact fun p hp => hinv.1 p hp

/-! ## Rounding to `float` -/

theorem roundHalfEven_intCast (z : Int) : roundHalfEven (z : ℚ) = z := by
  unfold roundHalfEven
  simp

theorem float32_zero : float32 0 = 0 := by
  unfold float32
  simp

theorem log_abs_intCast (n : Int) : Int.log 2 |(n : ℚ)| = Nat.log 2 n.natAbs := by
  have h : |(n : ℚ)| = ((n.natAbs : ℕ) : ℚ) := by
    rw [Nat.cast_natAbs, Int.cast_abs]
  rw [h, Int.log_natCast]

theorem float32_intCast (n : Int) (h : n.natAbs < 2 ^ 24) : float32 (n : ℚ) = n := by
  unfold float32
  by_cases h0 : (n : ℚ) = 0
  · rw [if_pos h0, h0]
  · rw [if_neg h0]
    simp only
    rw [log_abs_intCast]
    have hn0 : n.natAbs ≠ 0 := by
      intro hz
      apply h0
      rw [Int.natAbs_eq_zero.mp hz]
      simp
    have hlog : Nat.log 2 n.natAbs < 24 := by
      by_contra hge
      have h1 := Nat.pow_log_le_self 2 hn0
      have h2 : 2 ^ 24 ≤ 2 ^ Nat.log 2 n.natAbs := Nat.pow_le_pow_right (by decide) (by omega)
      omega
    obtain ⟨k, hk⟩ : ∃ k : ℕ, (Nat.log 2 n.natAbs : ℤ) - 23 = -(k : ℤ) :=
      ⟨23 - Nat.log 2 n.natAbs, by omega⟩
    rw [hk, zpow_neg, zpow_natCast]
    have hm : (n : ℚ) / ((2 : ℚ) ^ k)⁻¹ = ((n * 2 ^ k : ℤ) : ℚ) := by
      push_cast
      field_simp
    rw [hm, roundHalfEven_intCast]
    push_cast
    field_simp

theorem float32_tie : float32 16842495 = 16842496 ∧ float32 16842496 = 16842496 := by
  have hlog1 : Int.log 2 |(16842495 : ℚ)| = 24 := by
    have := log_abs_intCast 16842495
    rw [show ((16842495 : ℤ) : ℚ) = 16842495 by norm_num] at this
    rw [this]
    have : Nat.log 2 (16842495 : ℤ).natAbs = 24 :=
      Nat.log_eq_of_pow_le_of_lt_pow (by norm_num) (by norm_num)
    rw [this]; rfl
  have hlog2 : Int.log 2 |(16842496 : ℚ)| = 24 := by
    have := log_abs_intCast 16842496
    rw [show ((16842496 : ℤ) : ℚ) = 16842496 by norm_num] at this
    rw [this]
    have : Nat.log 2 (16842496 : ℤ).natAbs = 24 :=
      Nat.log_eq_of_pow_le_of_lt_pow (by norm_num) (by norm_num)
    rw [this]; rfl
  constructor
  · unfold float32
    rw [if_neg (by norm_num)]
    simp only [hlog1]
    have hm : (16842495 : ℚ) / 2 ^ ((24 : ℤ) - 23) = 8421247 + 1 / 2 := by norm_num
    rw [hm]
    have hf : ⌊(8421247 : ℚ) + 1 / 2⌋ = 8421247 := by
      rw [Int.floor_eq_iff]; norm_num
    unfold roundHalfEven
    simp only [hf]
    norm_num
  · unfold float32
    rw [if_neg (by norm_num)]
    simp only [hlog2]
    have hm : (16842496 : ℚ) / 2 ^ ((24 : ℤ) - 23) = ((8421248 : ℤ) : ℚ) := by norm_num
    rw [hm, roundHalfEven_intCast]
    norm_num

theorem render_position_no_offset (sprite : Texture) (tiles : UMap Int IntRect)
    (cellPixelSize : Nat) (x y : Int) (p : Paint)
    (hup : p.tile.offsetUp = false) (hdown : p.tile.offsetDown = false)
    (hleft : p.tile.offsetLeft = false) (hright : p.tile.offsetRight = false) :
    (render sprite tiles cellPixelSize x y p).position
      = (float32 (float32 ((x + p.cellX * cellPixelSize : Int) : ℚ)),
         float32 (float32 ((y + p.cellY * cellPixelSize : Int) : ℚ))) := by
  simp [render, TileInCell.getOffsetX, TileInCell.getOffsetY, hup, hdown, hleft, hright]

set_option maxRecDepth 100000 in
theorem scanLayer_wideGrid :
    scanLayer 258 1 wideGrid = some [⟨false, 257, 0, 0, plainTile 1 0⟩] := by
  decide

/-! ## Position, scale and pivot of a draw call -/

theorem toDimensions_half (cellPixelSize : Nat) :
    toDimensions ((cellPixelSize : ℚ) * (1 / 2)) = cellPixelSize / 2 := by
  unfold toDimensions
  have h : Rat.floor ((cellPixelSize : ℚ) * (1 / 2)) = ⌊((cellPixelSize : ℚ) * (1 / 2))⌋ := rfl
  have h2 : ((cellPixelSize : ℚ) * (1 / 2)) = ((cellPixelSize : ℤ) : ℚ) / ((2 : ℕ) : ℚ) := by
    push_cast; ring
  rw [h, h2, Rat.floor_intCast_div_natCast]
  omega

/-- C10, counterexamples.  A tile without any offset flag but mirrored on X is drawn
with the scale (-1, 1) and the pivot (16, 0), not (1, 1) and (0, 0).  And with
`x = y = 0`, a tile without offset nor mirroring in the column 257 of a layer
of 65535 pixel cells is positioned at 16842496, the `float` nearest to
`257 * 65535 = 16842495`. -/
theorem drawLayer_no_offset_counterexample :
    (flippedTile 1 0).offsetUp = false ∧ (flippedTile 1 0).offsetDown = false
      ∧ (flippedTile 1 0).offsetLeft = false ∧ (flippedTile 1 0).offsetRight = false
      ∧ ((drawLayer 0 0 1 1 16 (gridOfRows [[[flippedTile 1 0]]]) sampleImage []).map Prod.snd).map
          (List.map fun cmd => (cmd.tile, cmd.position, cmd.scale, cmd.origin))
        = some [(flippedTile 1 0, (0, 0), (-1, 1), (16, 0))]
      ∧ ((drawLayer 0 0 258 1 65535 wideGrid sampleImage []).map Prod.snd).map
          (List.map fun cmd => (cmd.tile, cmd.cellX, cmd.cellY, cmd.position))
        = some [(plainTile 1 0, 257, 0, (16842496, 0))]
      ∧ (257 : ℚ) * 65535 = 16842495 := by
  have hscan : scanLayer 1 1 (gridOfRows [[[flippedTile 1 0]]])
      = some [⟨false, 0, 0, 0, flippedTile 1 0⟩] := by decide
  refine ⟨rfl, rfl, rfl, rfl, ?_, ?_, by norm_num⟩
  · rw [drawLayer_window, hscan]
    simp [render, flippedTile, plainTile, TileInCell.getOffsetX, TileInCell.getOffsetY,
      TileInCell.isFlippedX, TileInCell.isFlippedY, float32_zero]
  · rw [drawLayer_window, scanLayer_wideGrid]
    have hpos := render_position_no_offset sampleImage.image sampleImage.tiles 65535 0 0
      ⟨false, 257, 0, 0, plainTile 1 0⟩ rfl rfl rfl rfl
    have hx : (((0 + ((257 : Nat) : Int) * ((65535 : Nat) : Int) : Int)) : ℚ) = 16842495 := by
      norm_num
    have hy : (((0 + ((0 : Nat) : Int) * ((65535 : Nat) : Int) : Int)) : ℚ) = 0 := by
      norm_num
    rw [hx, hy, float32_tie.1, float32_tie.2, float32_zero, float32_zero] at hpos
    simp only [Option.map_some', List.nil_append, List.map_cons, List.map_nil, hpos]
    rfl

/-- C10, as the code has it: every draw call `draw` adds for a layer paints a tile of
the stack of the cell whose coordinates it was issued with, on the immediate
path as on the path through `drawTiles`.  If that tile has no offset flag, the
position of the call is `(x + cellX * c, y + cellY * c)` converted to `float`:
exactly these integers when they are below `2 ^ 24` in magnitude, so
`(cellX * c, cellY * c)` for `x = y = 0` and products below `2 ^ 24`.  If the
tile has no mirroring flag either, the scale is `(1, 1)` and the pivot
`(0, 0)`. -/
theorem drawLayer_no_offset_position (x y : Int) (cellCountX cellCountY cellPixelSize : Nat)
    (tileGrid : TileGrid) (tilesetImage tilesetImage1 : TileSetImage) (window out : List DrawCmd)
    (hrun : drawLayer x y cellCountX cellCountY cellPixelSize tileGrid tilesetImage window
      = some (tilesetImage1, out))
    (cmd : DrawCmd) (hcmd : cmd ∈ out.drop window.length) :
    (tileGrid cmd.cellX cmd.cellY)[cmd.tileIdx]? = some cmd.tile
      ∧ (cmd.tile.offsetUp = false → cmd.tile.offsetDown = false →
          cmd.tile.offsetLeft = false → cmd.tile.offsetRight = false →
          ((x + cmd.cellX * cellPixelSize : Int).natAbs < 2 ^ 24 →
            (y + cmd.cellY * cellPixelSize : Int).natAbs < 2 ^ 24 →
            cmd.position = (((x + cmd.cellX * cellPixelSize : Int) : ℚ),
                            ((y + cmd.cellY * cellPixelSize : Int) : ℚ)))
          ∧ (x = 0 → y = 0 → cmd.cellX * cellPixelSize < 2 ^ 24 →
              cmd.cellY * cellPixelSize < 2 ^ 24 →
              cmd.position = ((cmd.cellX : ℚ) * cellPixelSize, (cmd.cellY : ℚ) * cellPixelSize))
          ∧ (cmd.tile.flippedX = false → cmd.tile.flippedY = false →
              cmd.scale = (1, 1) ∧ cmd.origin = (0, 0))) := by
  have hwin := drawLayer_window x y cellCountX cellCountY cellPixelSize tileGrid tilesetImage
    window
  rw [hrun] at hwin
  cases hscan : scanLayer cellCountX cellCountY tileGrid with
  | none => rw [hscan] at hwin; simp at hwin
  | some paints =>
    rw [hscan] at hwin
    simp only [Option.map_some', Option.some.injEq] at hwin
    rw [hwin, List.drop_left, List.mem_map] at hcmd
    obtain ⟨p, hp, hcmd⟩ := hcmd
    subst hcmd
    refine ⟨scanLayer_inGrid cellCountX cellCountY tileGrid paints hscan p hp, ?_⟩
    intro hup hdown hleft hright
    have hpos := render_position_no_offset tilesetImage.image tilesetImage.tiles cellPixelSize x y
      p hup hdown hleft hright
    have hexact : (x + p.cellX * cellPixelSize : Int).natAbs < 2 ^ 24 →
        (y + p.cellY * cellPixelSize : Int).natAbs < 2 ^ 24 →
        (render tilesetImage.image tilesetImage.tiles cellPixelSize x y p).position
          = (((x + p.cellX * cellPixelSize : Int) : ℚ),
             ((y + p.cellY * cellPixelSize : Int) : ℚ)) := by
      intro hx hy
      rw [hpos, float32_intCast _ hx, float32_intCast _ hx, float32_intCast _ hy,
        float32_intCast _ hy]
    refine ⟨hexact, fun hx hy hbx hby => ?_, fun hfx hfy => ?_⟩
    · have hcx : (render tilesetImage.image tilesetImage.tiles cellPixelSize x y p).cellX
          = p.cellX := rfl
      have hcy : (render tilesetImage.image tilesetImage.tiles cellPixelSize x y p).cellY
          = p.cellY := rfl
      rw [hcx] at hbx
      rw [hcy] at hby
      rw [hexact (by rw [hx]; omega) (by rw [hy]; omega), hx, hy]
      show _ = ((p.cellX : ℚ) * cellPixelSize, (p.cellY : ℚ) * cellPixelSize)
      push_cast
      simp
    · have hfx1 : p.tile.flippedX = false := hfx
      have hfy1 : p.tile.flippedY = false := hfy
      simp [render, TileInCell.isFlippedX, TileInCell.isFlippedY, hfx1, hfy1]

/-- C10 as the code has it, on a 2x1 layer whose cell (0,0) holds a plain tile in front
of a right-offset tile: the right-offset tile is delayed, and the plain tile
with it, so the plain tile (id 1) is drawn through `drawTiles`, at (0, 0); the
tile of cell (1,0) (id 3) is drawn on the immediate path, at (16, 0). -/
theorem drawLayer_no_offset_position_witness :
    ∃ tilesetImage1 out,
      drawLayer 0 0 2 1 16 (gridOfRows [[[plainTile 1 0, rightTile 2 5], [plainTile 3 1]]])
        sampleImage [] = some (tilesetImage1, out)
      ∧ out.map DrawCmd.label = [(0, 0, 2), (0, 0, 1), (1, 0, 3)]
      ∧ ∀ cmd ∈ out.drop ([] : List DrawCmd).length,
          cmd.tile.offsetUp = false → cmd.tile.offsetDown = false →
          cmd.tile.offsetLeft = false → cmd.tile.offsetRight = false →
          cmd.position = ((cmd.cellX : ℚ) * 16, (cmd.cellY : ℚ) * 16) := by
  have hrun := drawLayer_eq_scanLayer 0 0 2 1 16
    (gridOfRows [[[plainTile 1 0, rightTile 2 5], [plainTile 3 1]]]) sampleImage []
  have hscan : scanLayer 2 1 (gridOfRows [[[plainTile 1 0, rightTile 2 5], [plainTile 3 1]]])
      = some [⟨true, 0, 0, 1, rightTile 2 5⟩, ⟨true, 0, 0, 0, plainTile 1 0⟩,
              ⟨false, 1, 0, 0, plainTile 3 1⟩] := by decide
  rw [hscan] at hrun
  obtain ⟨img1, _, hrun⟩ := hrun
  refine ⟨img1, _, hrun, by decide, ?_⟩
  intro cmd hcmd hup hdown hleft hright
  have h := (drawLayer_no_offset_position 0 0 2 1 16 _ sampleImage img1 [] _ hrun cmd hcmd).2
    hup hdown hleft hright
  have hcell : cmd.cellX ≤ 1 ∧ cmd.cellY = 0 := by
    simp only [List.length_nil, List.drop_zero, List.nil_append, List.map_cons, List.map_nil,
      List.mem_cons, List.mem_singleton, List.not_mem_nil, or_false] at hcmd
    rcases hcmd with h1 | h1 | h1 <;> rw [h1] <;> exact ⟨by decide, rfl⟩
  simpa using h.2.1 rfl rfl (by omega) (by omega)

/-! ## Mirrored tiles -/

theorem drawTilesFrom_scale (tilesToDraw : tiles_t) (cellPixelSize cellPixelHalfSize : Nat)
    (x y : Int) (cellX cellY : Nat) (sprite : Texture) :
    ∀ (tileIdx : Nat) (tilesetImage tilesetImage1 : TileSetImage) (window out : List DrawCmd),
      drawTilesFrom tilesToDraw cellPixelSize cellPixelHalfSize x y cellX cellY sprite tileIdx
          tilesetImage window = some (tilesetImage1, out) →
      ∃ added, out = window ++ added ∧ ∀ cmd ∈ added,
        cmd.scale = (if cmd.tile.flippedX then -1 else 1, if cmd.tile.flippedY then -1 else 1)
        ∧ cmd.origin = (if cmd.tile.flippedX then (cellPixelSize : ℚ) else 0,
                        if cmd.tile.flippedY then (cellPixelSize : ℚ) else 0) := by
  intro tileIdx
  induction tileIdx with
  | zero =>
    intro img img1 window out hrun
    rw [drawTilesFrom] at hrun
    cases htile : tilesToDraw[0]? with
    | none => rw [htile] at hrun; cases hrun
    | some tile =>
      rw [htile] at hrun
      simp only [Option.some.injEq, Prod.mk.injEq] at hrun
      refine ⟨_, hrun.2.symm, fun cmd hcmd => ?_⟩
      simp only [List.mem_singleton] at hcmd
      subst hcmd
      exact ⟨rfl, rfl⟩
  | succ n ih =>
    intro img img1 window out hrun
    rw [drawTilesFrom] at hrun
    cases htile : tilesToDraw[n + 1]? with
    | none => rw [htile] at hrun; cases hrun
    | some tile =>
      rw [htile] at hrun
      simp only at hrun
      obtain ⟨added, hout, hadded⟩ := ih _ _ _ _ hrun
      refine ⟨_, (by rw [hout, List.append_assoc]), fun cmd hcmd => ?_⟩
      rcases List.mem_append.mp hcmd with h | h
      · simp only [List.mem_singleton] at h
        subst h
        exact ⟨rfl, rfl⟩
      · exact hadded cmd h

/-- C11, counterexample: a tile mirrored on X and on Y is drawn with the scale
(-1, -1), not (-1, 1). -/
theorem drawLayer_flipX_counterexample :
    (flippedBothTile 1 0).flippedX = true
      ∧ ((drawLayer 0 0 1 1 16 (gridOfRows [[[flippedBothTile 1 0]]]) sampleImage []).map
          Prod.snd).map (List.map fun cmd => (cmd.tile, cmd.scale, cmd.origin))
        = some [(flippedBothTile 1 0, (-1, -1), (16, 16))] := by
  have hscan : scanLayer 1 1 (gridOfRows [[[flippedBothTile 1 0]]])
      = some [⟨false, 0, 0, 0, flippedBothTile 1 0⟩] := by decide
  refine ⟨rfl, ?_⟩
  rw [drawLayer_window, hscan]
  simp [render, flippedBothTile, plainTile, TileInCell.isFlippedX, TileInCell.isFlippedY]

/-- C11, as the code has it: every draw call of a tile with `flipX` set, whatever its
offset flags, has the X scale `-1` and the X pivot `cellPixelSize`; its Y scale
and Y pivot follow `flipY`: they are `-1` and `cellPixelSize` when `flipY` is
set, `1` and `0` when it is not, so the scale is `(-1, 1)` and the pivot
`(cellPixelSize, 0)` exactly when `flipY` is not set.  This holds for the calls
`draw` adds for a layer (immediate calls and calls made through `drawTiles`),
and for the calls of `drawTiles` on any arguments. -/
theorem drawLayer_flipX_scale (x y : Int) (cellPixelSize : Nat) :
    (∀ (cellCountX cellCountY : Nat) (tileGrid : TileGrid)
        (tilesetImage tilesetImage1 : TileSetImage) (window out : List DrawCmd),
        drawLayer x y cellCountX cellCountY cellPixelSize tileGrid tilesetImage window
          = some (tilesetImage1, out) →
        ∀ cmd ∈ out.drop window.length, cmd.tile.flippedX = true →
          (tileGrid cmd.cellX cmd.cellY)[cmd.tileIdx]? = some cmd.tile
          ∧ cmd.scale = (-1, if cmd.tile.flippedY then -1 else 1)
          ∧ cmd.origin = ((cellPixelSize : ℚ), if cmd.tile.flippedY then (cellPixelSize : ℚ) else 0)
          ∧ (cmd.tile.flippedY = false →
              cmd.scale = (-1, 1) ∧ cmd.origin = ((cellPixelSize : ℚ), 0))
          ∧ (cmd.tile.flippedY = true →
              cmd.scale = (-1, -1) ∧ cmd.origin = ((cellPixelSize : ℚ), (cellPixelSize : ℚ))))
      ∧ (∀ (tilesToDraw : tiles_t) (idxToStartDrawing cellPixelHalfSize cellX cellY : Nat)
          (tilesetImage tilesetImage1 : TileSetImage) (window out : List DrawCmd)
          (sprite : Texture),
          drawTiles tilesToDraw idxToStartDrawing cellPixelSize cellPixelHalfSize x y cellX cellY
            tilesetImage window sprite = some (tilesetImage1, out) →
          ∀ cmd ∈ out.drop window.length, cmd.tile.flippedX = true →
            cmd.scale = (-1, if cmd.tile.flippedY then -1 else 1)
            ∧ cmd.origin
                = ((cellPixelSize : ℚ), if cmd.tile.flippedY then (cellPixelSize : ℚ) else 0)
            ∧ (cmd.tile.flippedY = false →
                cmd.scale = (-1, 1) ∧ cmd.origin = ((cellPixelSize : ℚ), 0))
            ∧ (cmd.tile.flippedY = true →
                cmd.scale = (-1, -1)
                ∧ cmd.origin = ((cellPixelSize : ℚ), (cellPixelSize : ℚ)))) := by
  have key : ∀ cmd : DrawCmd, cmd.tile.flippedX = true →
      cmd.scale = (if cmd.tile.flippedX then -1 else 1, if cmd.tile.flippedY then -1 else 1) →
      cmd.origin = (if cmd.tile.flippedX then (cellPixelSize : ℚ) else 0,
                    if cmd.tile.flippedY then (cellPixelSize : ℚ) else 0) →
      cmd.scale = (-1, if cmd.tile.flippedY then -1 else 1)
        ∧ cmd.origin = ((cellPixelSize : ℚ), if cmd.tile.flippedY then (cellPixelSize : ℚ) else 0)
        ∧ (cmd.tile.flippedY = false →
            cmd.scale = (-1, 1) ∧ cmd.origin = ((cellPixelSize : ℚ), 0))
        ∧ (cmd.tile.flippedY = true →
            cmd.scale = (-1, -1) ∧ cmd.origin = ((cellPixelSize : ℚ), (cellPixelSize : ℚ))) := by
    intro cmd hflip hscale horigin
    rw [hflip] at hscale horigin
    simp only [if_true] at hscale horigin
    refine ⟨hscale, horigin, fun hfy => ?_, fun hfy => ?_⟩
    · rw [hfy] at hscale horigin
      exact ⟨hscale, horigin⟩
    · rw [hfy] at hscale horigin
      exact ⟨hscale, horigin⟩
  constructor
  · intro cellCountX cellCountY tileGrid tilesetImage tilesetImage1 window out hrun cmd hcmd hflip
    have hwin := drawLayer_window x y cellCountX cellCountY cellPixelSize tileGrid tilesetImage
      window
    rw [hrun] at hwin
    cases hscan : scanLayer cellCountX cellCountY tileGrid with
    | none => rw [hscan] at hwin; simp at hwin
    | some paints =>
      rw [hscan] at hwin
      simp only [Option.map_some', Option.some.injEq] at hwin
      rw [hwin, List.drop_left, List.mem_map] at hcmd
      obtain ⟨p, hp, hcmd⟩ := hcmd
      subst hcmd
      exact ⟨scanLayer_inGrid cellCountX cellCountY tileGrid paints hscan p hp,
        key _ hflip rfl rfl⟩
  · intro tilesToDraw idx half cellX cellY img img1 window out sprite hrun cmd hcmd hflip
    obtain ⟨added, hout, hadded⟩ := drawTilesFrom_scale tilesToDraw cellPixelSize half x y cellX
      cellY sprite idx img img1 window out hrun
    rw [hout, List.drop_left] at hcmd
    obtain ⟨hscale, horigin⟩ := hadded cmd hcmd
    exact key cmd hflip hscale horigin

/-- C11 as the code has it, on a 2x1 layer of 16 pixel cells whose cell (0,0) holds a
tile mirrored on X in front of a right-offset tile, and whose cell (1,0) holds
a tile mirrored on X and on Y: the first is drawn through `drawTiles`, with
scale (-1, 1) and pivot (16, 0), the second on the immediate path, with scale
(-1, -1) and pivot (16, 16). -/
theorem drawLayer_flipX_scale_witness :
    ∃ tilesetImage1 out,
      drawLayer 0 0 2 1 16
        (gridOfRows [[[flippedTile 1 0, rightTile 2 5], [flippedBothTile 3 1]]])
        sampleImage [] = some (tilesetImage1, out)
      ∧ out.map DrawCmd.label = [(0, 0, 2), (0, 0, 1), (1, 0, 3)]
      ∧ ∀ cmd ∈ out.drop ([] : List DrawCmd).length, cmd.tile.flippedX = true →
          cmd.scale = (-1, if cmd.tile.flippedY then -1 else 1)
          ∧ cmd.origin = (((16 : Nat) : ℚ), if cmd.tile.flippedY then ((16 : Nat) : ℚ) else 0) := by
  have hrun := drawLayer_eq_scanLayer 0 0 2 1 16
    (gridOfRows [[[flippedTile 1 0, rightTile 2 5], [flippedBothTile 3 1]]]) sampleImage []
  have hscan : scanLayer 2 1
      (gridOfRows [[[flippedTile 1 0, rightTile 2 5], [flippedBothTile 3 1]]])
      = some [⟨true, 0, 0, 1, rightTile 2 5⟩, ⟨true, 0, 0, 0, flippedTile 1 0⟩,
              ⟨false, 1, 0, 0, flippedBothTile 3 1⟩] := by decide
  rw [hscan] at hrun
  obtain ⟨img1, _, hrun⟩ := hrun
  refine ⟨img1, _, hrun, by decide, ?_⟩
  intro cmd hcmd hflip
  have h := (drawLayer_flipX_scale 0 0 16).1 2 1 _ sampleImage img1 [] _ hrun cmd hcmd hflip
  exact ⟨h.2.1, h.2.2.1⟩

/-! ## The index a delayed unit starts from -/

theorem scanFlush_valid (d : DelayedDraw) (t : ScanState) (hd : d.idx < d.tiles.length) :
    ∃ t1, scanFlush d t = some t1 ∧ t1.delayed = none := by
  unfold scanFlush scanDelayed
  rw [if_pos hd]
  exact ⟨_, rfl, rfl⟩

theorem paintRev_split (delayedPath : Bool) (cellX cellY : Nat) :
    ∀ (post rest : List TileInCell),
      paintRev delayedPath cellX cellY (post.reverse ++ rest)
        = (post.enumFrom rest.length).reverse.map
            (fun it => Paint.mk delayedPath cellX cellY it.1 it.2)
          ++ paintRev delayedPath cellX cellY rest := by
  intro post
  induction post with
  | nil => intro rest; simp
  | cons u post ih =>
    intro rest
    rw [List.reverse_cons, List.append_assoc, List.singleton_append, ih (u :: rest)]
    simp [paintRev, List.enumFrom]

theorem scanCellTiles_records (cellCountX : Nat) (tileGrid : TileGrid) (cellX cellY : Nat)
    (tiles : tiles_t) (t0 : TileInCell) (b : List TileInCell)
    (hright : t0.hasOffsetRight = true) (hcol : cellX < cellCountX - 1)
    (hnb : (tileGrid (cellX + 1) cellY).length > 0) :
    ∀ (a : List TileInCell) (tileIdx : Nat) (t : ScanState),
      (∀ u ∈ a, u.hasOffsetRight = false) → ValidDelayed t.delayed → tileIdx < 256 →
      ∃ t1 k flushed,
        scanCellTiles cellCountX tileGrid cellX cellY tiles (a ++ t0 :: b) tileIdx t = some t1
        ∧ t1.delayed = some
            (DelayedDraw.mk tiles ((tileIdx + 255 * a.length) % 256) (t0.priority % 256)
              cellX cellY)
        ∧ t1.painted = t.painted
            ++ (((paintRev false cellX cellY (a ++ t0 :: b)).take a.length).take k ++ flushed
                ++ ((paintRev false cellX cellY (a ++ t0 :: b)).take a.length).drop k)
        ∧ (flushed = [] ∨ ∃ d, t.delayed = some d ∧ scanDelayed d = some flushed) := by
  intro a
  induction a with
  | nil =>
    intro tileIdx t _ _ hidx
    rw [List.nil_append, scanCellTiles]
    simp only [hright, hcol, hnb, decide_True, Bool.and_self, if_true]
    refine ⟨_, 0, [], rfl, ?_, ?_, Or.inl rfl⟩
    · simp [Nat.mod_eq_of_lt hidx]
    · simp
  | cons u a ih =>
    intro tileIdx t hno hvalid hidx
    have hu : u.hasOffsetRight = false := hno u (List.mem_cons_self _ _)
    rw [List.cons_append, scanCellTiles]
    simp only [hu, Bool.false_and, Bool.false_eq_true, if_false]
    have hflush : ∃ t2, (match t.delayed with
          | none => some t
          | some d =>
            if cellX ≠ d.cellX ∧ d.rulePriority > u.priority then scanFlush d t else some t)
          = some t2
        ∧ (t2 = t ∨ ∃ d ps, t.delayed = some d ∧ scanDelayed d = some ps
            ∧ t2 = { painted := t.painted ++ ps, delayed := none }) := by
      cases hdel : t.delayed with
      | none => exact ⟨t, rfl, Or.inl rfl⟩
      | some d =>
        simp only
        split
        · have hd := hvalid d hdel
          have hscan : scanDelayed d
              = some (paintRev true d.cellX d.cellY (d.tiles.take (d.idx + 1)).reverse) := by
            unfold scanDelayed
            rw [if_pos hd]
          refine ⟨_, ?_, Or.inr ⟨d, _, rfl, hscan, rfl⟩⟩
          unfold scanFlush
          rw [hscan]
        · exact ⟨t, rfl, Or.inl rfl⟩
    obtain ⟨t2, h1, h2⟩ := hflush
    rw [h1]
    simp only
    rcases h2 with h2 | ⟨d, ps, hdel, hps, h2⟩
    · subst h2
      obtain ⟨t3, k, flushed, h3, h4, h5, h6⟩ := ih ((tileIdx + 255) % 256)
        { painted := t2.painted ++
            [{ delayedPath := false, cellX := cellX, cellY := cellY,
               tileIdx := (a ++ t0 :: b).length, tile := u }]
          delayed := t2.delayed }
        (fun v hv => hno v (List.mem_cons_of_mem _ hv)) hvalid (Nat.mod_lt _ (by decide))
      refine ⟨t3, k + 1, flushed, h3, ?_, ?_, h6⟩
      · rw [h4]
        congr 2
        simp only [List.length_cons]
        omega
      · rw [h5]
        simp [paintRev]
    · subst h2
      obtain ⟨t3, k, flushed, h3, h4, h5, h6⟩ := ih ((tileIdx + 255) % 256)
        { painted := (t.painted ++ ps) ++
            [{ delayedPath := false, cellX := cellX, cellY := cellY,
               tileIdx := (a ++ t0 :: b).length, tile := u }]
          delayed := none }
        (fun v hv => hno v (List.mem_cons_of_mem _ hv)) (fun d1 hd1 => by cases hd1)
        (Nat.mod_lt _ (by decide))
      have hnil : flushed = [] := by
        rcases h6 with h6 | ⟨d1, hd1, _⟩
        · exact h6
        · cases hd1
      subst hnil
      refine ⟨t3, 0, ps, h3, ?_, ?_, Or.inr ⟨d, hdel, hps⟩⟩
      · rw [h4]
        congr 2
        simp only [List.length_cons]
        omega
      · rw [h5]
        simp [paintRev]

theorem scanCell_records (cellCountX : Nat) (tileGrid : TileGrid) (cellX cellY : Nat)
    (pre post : List TileInCell) (t0 : TileInCell) (t : ScanState)
    (hcol : cellX < cellCountX - 1) (hnb : tileGrid (cellX + 1) cellY ≠ [])
    (hstack : tileGrid cellX cellY = pre ++ t0 :: post) (hright : t0.hasOffsetRight = true)
    (hpost : ∀ u ∈ post, u.hasOffsetRight = false) (hvalid : ValidDelayed t.delayed) :
    ∃ t1 k flushed, scanCell cellCountX tileGrid cellY t cellX = some t1
      ∧ t1.delayed = some
          (DelayedDraw.mk (tileGrid cellX cellY) (pre.length % 256) (t0.priority % 256)
            cellX cellY)
      ∧ t1.painted = t.painted
          ++ ((((post.enumFrom (pre.length + 1)).reverse.map
                  (fun it => Paint.mk false cellX cellY it.1 it.2)).take k) ++ flushed
              ++ (((post.enumFrom (pre.length + 1)).reverse.map
                  (fun it => Paint.mk false cellX cellY it.1 it.2)).drop k))
      ∧ (flushed = [] ∨ ∃ d, t.delayed = some d ∧ scanDelayed d = some flushed) := by
  have hnb1 : (tileGrid (cellX + 1) cellY).length > 0 := List.length_pos.mpr hnb
  have hrev : (tileGrid cellX cellY).reverse = post.reverse ++ t0 :: pre.reverse := by
    rw [hstack]; simp
  obtain ⟨t1, k, flushed, h1, h2, h3, h4⟩ := scanCellTiles_records cellCountX tileGrid cellX cellY
    (tileGrid cellX cellY) t0 pre.reverse hright hcol hnb1 post.reverse
    (((tileGrid cellX cellY).length + 255) % 256) t
    (fun u hu => hpost u (List.mem_reverse.mp hu)) hvalid (Nat.mod_lt _ (by decide))
  refine ⟨t1, k, flushed, ?_, ?_, ?_, h4⟩
  · unfold scanCell
    simp only
    rw [hrev, h1]
    simp only [h2, ne_eq, not_true_eq_false, if_false]
  · rw [h2]
    congr 2
    rw [hstack]
    simp only [List.length_append, List.length_cons, List.length_reverse]
    omega
  · rw [h3, paintRev_split false cellX cellY post (t0 :: pre.reverse)]
    have hlen : ((post.enumFrom (t0 :: pre.reverse).length).reverse.map
        (fun it => Paint.mk false cellX cellY it.1 it.2)).length = post.reverse.length := by
      simp
    rw [← hlen, List.take_left]
    simp

theorem exists_last_right_offset :
    ∀ (tiles : List TileInCell), (∃ u ∈ tiles, u.hasOffsetRight = true) →
      ∃ pre t0 post, tiles = pre ++ t0 :: post ∧ t0.hasOffsetRight = true
        ∧ ∀ v ∈ post, v.hasOffsetRight = false := by
  intro tiles
  induction tiles with
  | nil => rintro ⟨u, hu, _⟩; cases hu
  | cons w tiles ih =>
    rintro ⟨u, hu, hright⟩
    by_cases hlater : ∃ v ∈ tiles, v.hasOffsetRight = true
    · obtain ⟨pre, t0, post, h1, h2, h3⟩ := ih hlater
      exact ⟨w :: pre, t0, post, by rw [h1]; rfl, h2, h3⟩
    · have hw : w.hasOffsetRight = true := by
        rcases List.mem_cons.mp hu with h | h
        · rw [← h]; exact hright
        · exact absurd ⟨u, h, hright⟩ hlater
      refine ⟨[], w, tiles, rfl, hw, fun v hv => ?_⟩
      cases hv1 : v.hasOffsetRight with
      | false => rfl
      | true => exact absurd ⟨v, hv, hv1⟩ hlater

/-- C12, counterexample: the stack of cell (0,0) carries the right offset at the
indices 0 and 1, its right neighbour holds a tile; the start index `draw`
records for the delayed unit is 1, not the smallest index 0. -/
theorem drawCell_delayed_index_counterexample :
    ((gridOfRows [[[rightTile 1 5, rightTile 2 6], [plainTile 3 1]]] 0 0)[0]?).map
        TileInCell.hasOffsetRight = some true
      ∧ (drawCell 16 (((16 : Nat) : ℚ) * (1 / 2)) 0 0 sampleImage.image 2
          (gridOfRows [[[rightTile 1 5, rightTile 2 6], [plainTile 3 1]]]) 0
          { tilesetImage := sampleImage, window := [], delayed := none } 0).map DrawState.delayed
        = some (some { tiles := [rightTile 1 5, rightTile 2 6], idx := 1, rulePriority := 6,
                       cellX := 0, cellY := 0 }) := by
  refine ⟨by decide, by decide⟩

/-- C12, as the code has it: in a cell that is not in the last column, whose right
neighbour holds tiles and whose stack holds a right-offset tile, `draw` visits
the stack from its last tile and delays at the first right-offset tile it
meets.  Whatever unit was delayed before (its start index being an index of
its stack), the unit delayed after the cell is the stack of the cell from the
largest index that carries the right offset, reduced modulo 256 since the
index is kept in a `uint8_t`: the largest such index itself when it is below
256.  The draw calls the cell adds are the immediate calls of the tiles behind
that index, from the last tile of the stack down, and, if a test at line 231
fired, the calls of `drawTiles` on the unit delayed before, inserted among
them; the cell adds exactly the immediate calls of the tiles behind the index
when no unit was delayed before. -/
theorem drawCell_records_last_right_offset (cellPixelSize : Nat) (x y : Int) (cellCountX : Nat)
    (tileGrid : TileGrid) (cellX cellY : Nat) (s : DrawState)
    (hcol : cellX < cellCountX - 1) (hnb : tileGrid (cellX + 1) cellY ≠ [])
    (hstack : ∃ u ∈ tileGrid cellX cellY, u.hasOffsetRight = true)
    (hvalid : ValidDelayed s.delayed) :
    ∃ pre t0 post s1,
      tileGrid cellX cellY = pre ++ t0 :: post ∧ t0.hasOffsetRight = true
      ∧ (∀ v ∈ post, v.hasOffsetRight = false)
      ∧ drawCell cellPixelSize (cellPixelSize * (1 / 2)) x y s.tilesetImage.image cellCountX
          tileGrid cellY s cellX = some s1
      ∧ s1.delayed = some
          { tiles := tileGrid cellX cellY, idx := pre.length % 256,
            rulePriority := t0.priority % 256, cellX := cellX, cellY := cellY }
      ∧ (pre.length < 256 → s1.delayed = some
          { tiles := tileGrid cellX cellY, idx := pre.length,
            rulePriority := t0.priority % 256, cellX := cellX, cellY := cellY })
      ∧ (∃ k flushed,
          s1.window = s.window
            ++ ((paintBehind cellX cellY pre.length post).take k ++ flushed
                ++ (paintBehind cellX cellY pre.length post).drop k).map
              (render s.tilesetImage.image s.tilesetImage.tiles cellPixelSize x y)
          ∧ (flushed = [] ∨ ∃ d, s.delayed = some d ∧ scanDelayed d = some flushed))
      ∧ (s.delayed = none →
          s1.window = s.window
            ++ (paintBehind cellX cellY pre.length post).map
              (render s.tilesetImage.image s.tilesetImage.tiles cellPixelSize x y)) := by
  obtain ⟨pre, t0, post, h1, h2, h3⟩ := exists_last_right_offset _ hstack
  obtain ⟨t1, k, flushed, h4, h5, h6, h7⟩ := scanCell_records cellCountX tileGrid cellX cellY pre
    post t0 { painted := [], delayed := s.delayed } hcol hnb h1 h2 h3 hvalid
  have hrel := drawCell_rel s.tilesetImage cellPixelSize x y s.window cellCountX tileGrid cellY s
    { painted := [], delayed := s.delayed } cellX ⟨sameRects_refl _, by simp, rfl⟩
  rw [h4] at hrel
  cases hdraw : drawCell cellPixelSize (cellPixelSize * (1 / 2)) x y s.tilesetImage.image
      cellCountX tileGrid cellY s cellX with
  | none => rw [hdraw] at hrel; exact hrel.elim
  | some s1 =>
    rw [hdraw] at hrel
    have hdel : s1.delayed = t1.delayed := hrel.2.2
    have hwin : s1.window = s.window
        ++ ((paintBehind cellX cellY pre.length post).take k ++ flushed
            ++ (paintBehind cellX cellY pre.length post).drop k).map
          (render s.tilesetImage.image s.tilesetImage.tiles cellPixelSize x y) := by
      rw [hrel.2.1, h6]
      rfl
    refine ⟨pre, t0, post, s1, h1, h2, h3, rfl, by rw [hdel, h5], fun hlt => ?_,
      ⟨k, flushed, hwin, h7⟩, fun hnone => ?_⟩
    · rw [hdel, h5, Nat.mod_eq_of_lt hlt]
    · have hnil : flushed = [] := by
        rcases h7 with h7 | ⟨d, hd, _⟩
        · exact h7
        · have hd1 : s.delayed = some d := hd
          rw [hnone] at hd1
          cases hd1
      rw [hwin, hnil, List.append_nil, List.take_append_drop]

/-- C12 as the code has it, on the cell (0,0) of a 2x1 layer whose stack carries the
right offset at the indices 0 and 2: the recorded start index is 2, and the
cell adds the one draw call of the tile at the index 3. -/
theorem drawCell_records_last_right_offset_witness :
    ∃ s1,
      drawCell 16 (((16 : Nat) : ℚ) * (1 / 2)) 0 0 sampleImage.image 2
          (gridOfRows [[[rightTile 1 5, plainTile 2 6, rightTile 3 7, plainTile 1 8],
                        [plainTile 3 1]]]) 0
          { tilesetImage := sampleImage, window := [], delayed := none } 0 = some s1
      ∧ s1.delayed = some
          { tiles := [rightTile 1 5, plainTile 2 6, rightTile 3 7, plainTile 1 8], idx := 2,
            rulePriority := 7, cellX := 0, cellY := 0 }
      ∧ s1.window.map (fun cmd => (cmd.cellX, cmd.cellY, cmd.tileIdx, cmd.tile))
          = [(0, 0, 3, plainTile 1 8)] := by
  obtain ⟨pre, t0, post, s1, h1, h2, h3, h4, h5, _, _, _⟩ :=
    drawCell_records_last_right_offset 16 0 0 2
    (gridOfRows [[[rightTile 1 5, plainTile 2 6, rightTile 3 7, plainTile 1 8], [plainTile 3 1]]])
    0 0 { tilesetImage := sampleImage, window := [], delayed := none } (by decide) (by decide)
    ⟨rightTile 3 7, by decide, rfl⟩ (fun d hd => by cases hd)
  have h4a : drawCell 16 (((16 : Nat) : ℚ) * (1 / 2)) 0 0 sampleImage.image 2
      (gridOfRows [[[rightTile 1 5, plainTile 2 6, rightTile 3 7, plainTile 1 8],
        [plainTile 3 1]]]) 0
      { tilesetImage := sampleImage, window := [], delayed := none } 0 = some s1 := h4
  have hdel : (drawCell 16 (((16 : Nat) : ℚ) * (1 / 2)) 0 0 sampleImage.image 2
      (gridOfRows [[[rightTile 1 5, plainTile 2 6, rightTile 3 7, plainTile 1 8],
        [plainTile 3 1]]]) 0
      { tilesetImage := sampleImage, window := [], delayed := none } 0).map
        (fun s1 => (s1.delayed,
          s1.window.map (fun cmd => (cmd.cellX, cmd.cellY, cmd.tileIdx, cmd.tile))))
      = some (some { tiles := [rightTile 1 5, plainTile 2 6, rightTile 3 7, plainTile 1 8],
                     idx := 2, rulePriority := 7, cellX := 0, cellY := 0 },
              [(0, 0, 3, plainTile 1 8)]) := by decide
  rw [h4a] at hdel
  simp only [Option.map_some', Option.some.injEq, Prod.mk.injEq] at hdel
  exact ⟨s1, h4a, hdel.1, hdel.2⟩

/-! ## The order of the paints of one cell -/

theorem paintRev_bounds (delayedPath : Bool) (cellX cellY : Nat) :
    ∀ (l : List TileInCell) (p : Paint), p ∈ paintRev delayedPath cellX cellY l →
      p.tileIdx < l.length ∧ p.cellX = cellX ∧ p.cellY = cellY := by
  intro l
  induction l with
  | nil => intro p h; simp [paintRev] at h
  | cons u l ih =>
    intro p h
    rcases List.mem_cons.mp h with hp | hp
    · subst hp
      simp
    · obtain ⟨h1, h2, h3⟩ := ih p hp
      exact ⟨by simp only [List.length_cons]; omega, h2, h3⟩

theorem paintRev_decreasing (delayedPath : Bool) (cellX cellY : Nat) :
    ∀ (l : List TileInCell), Decreasing (paintRev delayedPath cellX cellY l) := by
  intro l
  induction l with
  | nil => exact List.Pairwise.nil
  | cons u l ih =>
    unfold Decreasing at ih ⊢
    rw [paintRev, List.pairwise_cons]
    refine ⟨fun q hq _ _ => ?_, ih⟩
    exact (paintRev_bounds delayedPath cellX cellY l q hq).1

theorem scanFlush_ordered (seen : Paint → Prop) (visited : Nat → Nat → Prop)
    (hseen : ∀ p : Paint, visited p.cellX p.cellY → seen p)
    (d : DelayedDraw) (t t1 : ScanState) (ht : Ordered seen visited t)
    (hd : t.delayed = some d) (hrun : scanFlush d t = some t1) : Ordered seen visited t1 := by
  obtain ⟨hdec, hall, hdel⟩ := ht
  obtain ⟨hvis, hbelow⟩ := hdel d hd
  unfold scanFlush scanDelayed at hrun
  by_cases hidx : d.idx < d.tiles.length
  · rw [if_pos hidx] at hrun
    simp only [Option.some.injEq] at hrun
    subst hrun
    have hnew : ∀ q ∈ paintRev true d.cellX d.cellY (d.tiles.take (d.idx + 1)).reverse,
        q.tileIdx ≤ d.idx ∧ q.cellX = d.cellX ∧ q.cellY = d.cellY := by
      intro q hq
      obtain ⟨h1, h2, h3⟩ := paintRev_bounds true d.cellX d.cellY _ q hq
      rw [List.length_reverse, List.length_take] at h1
      exact ⟨by omega, h2, h3⟩
    refine ⟨?_, fun p hp => ?_, fun d1 h => by cases h⟩
    · unfold Decreasing
      rw [List.pairwise_append]
      refine ⟨hdec, paintRev_decreasing true d.cellX d.cellY _, fun p hp q hq hx hy => ?_⟩
      obtain ⟨h1, h2, h3⟩ := hnew q hq
      have := hbelow p hp (hx.trans h2) (hy.trans h3)
      omega
    · rcases List.mem_append.mp hp with h | h
      · exact hall p h
      · obtain ⟨_, h2, h3⟩ := hnew p h
        apply hseen
        rw [h2, h3]
        exact hvis
  · rw [if_neg hidx] at hrun
    cases hrun

theorem scanCellTiles_ordered (cellCountX : Nat) (tileGrid : TileGrid) (cellX cellY : Nat)
    (tiles : tiles_t) (visited : Nat → Nat → Prop) (hfresh : ¬ visited cellX cellY) :
    ∀ (rest : List TileInCell) (tileIdx : Nat) (t t1 : ScanState),
      Ordered (fun p => visited p.cellX p.cellY
          ∨ (p.cellX = cellX ∧ p.cellY = cellY ∧ rest.length ≤ p.tileIdx)) visited t →
      tileIdx = (rest.length + 255) % 256 →
      scanCellTiles cellCountX tileGrid cellX cellY tiles rest tileIdx t = some t1 →
      Ordered (fun p => visited p.cellX p.cellY ∨ (p.cellX = cellX ∧ p.cellY = cellY))
        (fun cx cy => visited cx cy ∨ (cx = cellX ∧ cy = cellY)) t1 := by
  intro rest
  induction rest with
  | nil =>
    intro tileIdx t t1 ht _ hrun
    rw [scanCellTiles] at hrun
    cases hrun
    obtain ⟨hdec, hall, hdel⟩ := ht
    refine ⟨hdec, fun p hp => ?_, fun d hd => ?_⟩
    · rcases hall p hp with h | ⟨h1, h2, _⟩
      · exact Or.inl h
      · exact Or.inr ⟨h1, h2⟩
    · exact ⟨Or.inl (hdel d hd).1, (hdel d hd).2⟩
  | cons tile rest ih =>
    intro tileIdx t t1 ht hidx hrun
    rw [scanCellTiles] at hrun
    split at hrun
    · simp only [Option.some.injEq] at hrun
      subst hrun
      obtain ⟨hdec, hall, _⟩ := ht
      refine ⟨hdec, fun p hp => ?_, fun d hd => ?_⟩
      · rcases hall p hp with h | ⟨h1, h2, _⟩
        · exact Or.inl h
        · exact Or.inr ⟨h1, h2⟩
      · simp only [Option.some.injEq] at hd
        subst hd
        refine ⟨Or.inr ⟨rfl, rfl⟩, fun p hp hx hy => ?_⟩
        rcases hall p hp with h | ⟨_, _, h3⟩
        · rw [hx, hy] at h
          exact absurd h hfresh
        · simp only [List.length_cons] at h3 hidx
          simp only
          omega
    · have hflush : ∀ t2, (match t.delayed with
            | none => some t
            | some d =>
              if cellX ≠ d.cellX ∧ d.rulePriority > tile.priority then scanFlush d t
              else some t) = some t2 →
          Ordered (fun p => visited p.cellX p.cellY
            ∨ (p.cellX = cellX ∧ p.cellY = cellY ∧ (tile :: rest).length ≤ p.tileIdx)) visited
            t2 := by
        intro t2 h2
        cases hdel : t.delayed with
        | none =>
          rw [hdel] at h2
          cases h2
          exact ht
        | some d =>
          rw [hdel] at h2
          simp only at h2
          split at h2
          · exact scanFlush_ordered _ visited (fun p hp => Or.inl hp) d t t2 ht hdel h2
          · cases h2
            exact ht
      revert hflush hrun
      generalize (match t.delayed with
            | none => some t
            | some d =>
              if cellX ≠ d.cellX ∧ d.rulePriority > tile.priority then scanFlush d t
              else some t) = ft
      intro hrun hflush
      cases ft with
      | none => cases hrun
      | some t2 =>
        simp only at hrun
        obtain ⟨hdec, hall, hdel⟩ := hflush t2 rfl
        refine ih _ _ t1 ⟨?_, fun p hp => ?_, fun d hd => ?_⟩
          (by simp only [List.length_cons] at hidx; omega) hrun
        · unfold Decreasing
          rw [List.pairwise_append]
          refine ⟨hdec, List.pairwise_singleton _ _, fun p hp q hq hx hy => ?_⟩
          simp only [List.mem_singleton] at hq
          subst hq
          rcases hall p hp with h | ⟨_, _, h3⟩
          · rw [hx, hy] at h
            exact absurd h hfresh
          · simp only [List.length_cons] at h3
            simp only
            omega
        · rcases List.mem_append.mp hp with h | h
          · rcases hall p h with h1 | ⟨h1, h2, h3⟩
            · exact Or.inl h1
            · simp only [List.length_cons] at h3
              exact Or.inr ⟨h1, h2, by omega⟩
          · simp only [List.mem_singleton] at h
            subst h
            exact Or.inr ⟨rfl, rfl, Nat.le_refl _⟩
        · obtain ⟨hvis, hbelow⟩ := hdel d hd
          refine ⟨hvis, fun p hp hx hy => ?_⟩
          rcases List.mem_append.mp hp with h | h
          · exact hbelow p h hx hy
          · simp only [List.mem_singleton] at h
            subst h
            simp only at hx hy
            rw [← hx, ← hy] at hvis
            exact absurd hvis hfresh

theorem scanCell_ordered (cellCountX : Nat) (tileGrid : TileGrid) (cellY : Nat)
    (visited : Nat → Nat → Prop) (t t1 : ScanState) (cellX : Nat)
    (hfresh : ¬ visited cellX cellY)
    (ht : Ordered (fun p => visited p.cellX p.cellY) visited t)
    (hrun : scanCell cellCountX tileGrid cellY t cellX = some t1) :
    Ordered (fun p => visited p.cellX p.cellY ∨ (p.cellX = cellX ∧ p.cellY = cellY))
      (fun cx cy => visited cx cy ∨ (cx = cellX ∧ cy = cellY)) t1 := by
  unfold scanCell at hrun
  simp only at hrun
  cases hloop : scanCellTiles cellCountX tileGrid cellX cellY (tileGrid cellX cellY)
      (tileGrid cellX cellY).reverse (((tileGrid cellX cellY).length + 255) % 256) t with
  | none => rw [hloop] at hrun; cases hrun
  | some t2 =>
    rw [hloop] at hrun
    simp only at hrun
    have ht2 := scanCellTiles_ordered cellCountX tileGrid cellX cellY (tileGrid cellX cellY)
      visited hfresh _ _ t t2
      ⟨ht.1, fun p hp => Or.inl (ht.2.1 p hp), ht.2.2⟩ (by simp) hloop
    cases hdel : t2.delayed with
    | none =>
      rw [hdel] at hrun
      cases hrun
      exact ht2
    | some d =>
      rw [hdel] at hrun
      simp only at hrun
      split at hrun
      · cases hfront : (tileGrid cellX cellY).head? with
        | none => rw [hfront] at hrun; cases hrun
        | some front =>
          rw [hfront] at hrun
          simp only at hrun
          split at hrun
          · exact scanFlush_ordered
              (fun p => visited p.cellX p.cellY ∨ (p.cellX = cellX ∧ p.cellY = cellY))
              (fun cx cy => visited cx cy ∨ (cx = cellX ∧ cy = cellY)) (fun p hp => hp) d t2 t1
              ht2 hdel hrun
          · cases hrun
            exact ht2
      · cases hrun
        exact ht2

theorem foldlM_range_invariant {σ : Type} (inv : Nat → σ → Prop) (f : σ → Nat → Option σ) :
    ∀ (n : Nat), (∀ i, i < n → ∀ s s1, inv i s → f s i = some s1 → inv (i + 1) s1) →
      ∀ (s s1 : σ), inv 0 s → (List.range n).foldlM f s = some s1 → inv n s1 := by
  intro n
  induction n with
  | zero =>
    intro _ s s1 hs hrun
    simp only [List.range_zero, List.foldlM_nil, Option.pure_def, Option.some.injEq] at hrun
    subst hrun
    exact hs
  | succ n ih =>
    intro hstep s s1 hs hrun
    rw [List.range_succ, List.foldlM_append] at hrun
    cases hpre : (List.range n).foldlM f s with
    | none => rw [hpre] at hrun; cases hrun
    | some s2 =>
      rw [hpre] at hrun
      simp only [Option.bind_eq_bind, Option.some_bind, List.foldlM_cons, List.foldlM_nil,
        Option.pure_def, Option.bind_some] at hrun
      have hs2 := ih (fun i hi => hstep i (by omega)) s s2 hs hpre
      exact hstep n (by omega) s2 s1 hs2 hrun

theorem ordered_mono (visited visited1 : Nat → Nat → Prop)
    (hsub : ∀ cx cy, visited cx cy → visited1 cx cy) (t : ScanState)
    (ht : Ordered (fun p => visited p.cellX p.cellY) visited t) :
    Ordered (fun p => visited1 p.cellX p.cellY) visited1 t :=
  ⟨ht.1, fun p hp => hsub _ _ (ht.2.1 p hp),
    fun d hd => ⟨hsub _ _ (ht.2.2 d hd).1, (ht.2.2 d hd).2⟩⟩

theorem scanRow_ordered (cellCountX : Nat) (tileGrid : TileGrid) (cellY : Nat)
    (t t1 : ScanState)
    (ht : Ordered (fun p => p.cellY < cellY) (fun _ cy => cy < cellY) t)
    (hrun : scanRow cellCountX tileGrid t cellY = some t1) :
    Ordered (fun p => p.cellY < cellY + 1) (fun _ cy => cy < cellY + 1) t1 := by
  have hend := foldlM_range_invariant
    (fun i s => Ordered (fun p => p.cellY < cellY ∨ (p.cellY = cellY ∧ p.cellX < i))
      (fun cx cy => cy < cellY ∨ (cy = cellY ∧ cx < i)) s)
    (scanCell cellCountX tileGrid cellY) cellCountX
    (fun i _ s s1 hs hcell => by
      have hfresh : ¬ (cellY < cellY ∨ (cellY = cellY ∧ i < i)) := by omega
      have h := scanCell_ordered cellCountX tileGrid cellY
        (fun cx cy => cy < cellY ∨ (cy = cellY ∧ cx < i)) s s1 i hfresh hs hcell
      exact ordered_mono
        (fun cx cy => (cy < cellY ∨ (cy = cellY ∧ cx < i)) ∨ (cx = i ∧ cy = cellY))
        (fun cx cy => cy < cellY ∨ (cy = cellY ∧ cx < i + 1))
        (fun cx cy hv => by
          rcases hv with (h1 | ⟨h1, h2⟩) | ⟨h1, h2⟩
          · exact Or.inl h1
          · exact Or.inr ⟨h1, by omega⟩
          · exact Or.inr ⟨h2, by omega⟩) s1 h)
    t t1
    (ordered_mono (fun _ cy => cy < cellY) (fun cx cy => cy < cellY ∨ (cy = cellY ∧ cx < 0))
      (fun cx cy hv => Or.inl hv) t ht)
    hrun
  exact ordered_mono (fun cx cy => cy < cellY ∨ (cy = cellY ∧ cx < cellCountX))
    (fun _ cy => cy < cellY + 1)
    (fun cx cy hv => by
      rcases hv with h1 | ⟨h1, _⟩
      · exact Nat.lt_succ_of_lt h1
      · rw [h1]; exact Nat.lt_succ_self _) t1 hend

theorem scanLayer_decreasing (cellCountX cellCountY : Nat) (tileGrid : TileGrid)
    (paints : List Paint) (hrun : scanLayer cellCountX cellCountY tileGrid = some paints) :
    Decreasing paints := by
  unfold scanLayer at hrun
  cases hrows : scanRows cellCountX cellCountY tileGrid { painted := [], delayed := none } with
  | none => rw [hrows] at hrun; cases hrun
  | some t =>
    rw [hrows] at hrun
    simp only [Option.some.injEq] at hrun
    subst hrun
    have hend := foldlM_range_invariant
      (fun i s => Ordered (fun p => p.cellY < i) (fun _ cy => cy < i) s)
      (scanRow cellCountX tileGrid) cellCountY
      (fun i _ s s1 hs hrow => scanRow_ordered cellCountX tileGrid i s s1 hs hrow)
      { painted := [], delayed := none } t
      ⟨List.Pairwise.nil, fun p hp => (by cases hp), fun d hd => (by cases hd)⟩ hrows
    exact hend.1

theorem sublist_reverse_of_decreasing :
    ∀ (l : List TileInCell) (ps : List Paint),
      (ps.map Paint.tileIdx).Pairwise (fun i j => j < i) →
      (∀ p ∈ ps, l[p.tileIdx]? = some p.tile) →
      (ps.map Paint.tile).Sublist l.reverse := by
  intro l
  induction l using List.reverseRecOn with
  | nil =>
    intro ps _ hget
    cases ps with
    | nil => exact List.nil_sublist _
    | cons p ps =>
      have := hget p (List.mem_cons_self _ _)
      simp at this
  | append_singleton l a ih =>
    intro ps hdec hget
    rw [List.reverse_append, List.reverse_singleton, List.singleton_append]
    cases ps with
    | nil => exact List.nil_sublist _
    | cons p ps =>
      rw [List.map_cons, List.pairwise_cons] at hdec
      obtain ⟨hhead, htail⟩ := hdec
      have hp := hget p (List.mem_cons_self _ _)
      have hplt : p.tileIdx < (l ++ [a]).length := by
        by_contra hge
        rw [List.getElem?_eq_none (by omega)] at hp
        cases hp
      rw [List.length_append, List.length_singleton] at hplt
      have hbelow : ∀ q ∈ ps, q.tileIdx < p.tileIdx :=
        fun q hq => hhead q.tileIdx (List.mem_map_of_mem _ hq)
      by_cases hlast : p.tileIdx = l.length
      · have hpa : p.tile = a := by
          rw [hlast, List.getElem?_append_right (Nat.le_refl _)] at hp
          simp at hp
          exact hp.symm
        rw [List.map_cons, hpa]
        apply List.Sublist.cons₂
        apply ih ps htail
        intro q hq
        have h1 := hget q (List.mem_cons_of_mem _ hq)
        rw [List.getElem?_append_left (by have := hbelow q hq; omega)] at h1
        exact h1
      · apply List.Sublist.cons
        apply ih (p :: ps)
        · rw [List.map_cons, List.pairwise_cons]
          exact ⟨hhead, htail⟩
        · intro q hq
          have h1 := hget q hq
          have hqlt : q.tileIdx < l.length := by
            rcases List.mem_cons.mp hq with h | h
            · rw [h]; omega
            · have := hbelow q h; omega
          rw [List.getElem?_append_left hqlt] at h1
          exact h1

theorem scanLayer_cell_order (cellCountX cellCountY : Nat) (tileGrid : TileGrid)
    (paints : List Paint) (hrun : scanLayer cellCountX cellCountY tileGrid = some paints)
    (cellX cellY : Nat) :
    ((paints.filter fun p => decide (p.cellX = cellX ∧ p.cellY = cellY)).map
        Paint.tileIdx).Pairwise (fun i j => j < i)
      ∧ ((paints.filter fun p => decide (p.cellX = cellX ∧ p.cellY = cellY)).map
          Paint.tile).Sublist (tileGrid cellX cellY).reverse := by
  have hdec := scanLayer_decreasing cellCountX cellCountY tileGrid paints hrun
  have hgrid := scanLayer_inGrid cellCountX cellCountY tileGrid paints hrun
  have hpair : ((paints.filter fun p => decide (p.cellX = cellX ∧ p.cellY = cellY)).map
      Paint.tileIdx).Pairwise (fun i j => j < i) := by
    rw [List.pairwise_map]
    refine List.Pairwise.imp_of_mem ?_
      (List.Pairwise.filter (fun p => decide (p.cellX = cellX ∧ p.cellY = cellY)) hdec)
    intro p q hp hq hpq
    obtain ⟨_, hp1⟩ := List.mem_filter.mp hp
    obtain ⟨_, hq1⟩ := List.mem_filter.mp hq
    simp only [decide_eq_true_eq] at hp1 hq1
    exact hpq (hp1.1.trans hq1.1.symm) (hp1.2.trans hq1.2.symm)
  refine ⟨hpair, sublist_reverse_of_decreasing _ _ hpair fun p hp => ?_⟩
  obtain ⟨hmem, hp1⟩ := List.mem_filter.mp hp
  simp only [decide_eq_true_eq] at hp1
  have := hgrid p hmem
  unfold PaintInGrid at this
  rw [hp1.1, hp1.2] at this
  exact this

/-- C14: in what `draw` adds for a layer, the draw calls issued with the coordinates of
one cell paint tiles of the stack of that cell at strictly decreasing stack
indices, whether they are issued on the immediate path or through
`drawTiles`; so their tiles are a sublist of the reversed stack, no tile of
the stack is painted twice, and the back-to-front order inside a cell is never
inverted. -/
theorem drawLayer_cell_order (x y : Int) (cellCountX cellCountY cellPixelSize : Nat)
    (tileGrid : TileGrid) (tilesetImage tilesetImage1 : TileSetImage) (window out : List DrawCmd)
    (hrun : drawLayer x y cellCountX cellCountY cellPixelSize tileGrid tilesetImage window
      = some (tilesetImage1, out))
    (cellX cellY : Nat) :
    (((out.drop window.length).filter fun cmd =>
        decide (cmd.cellX = cellX ∧ cmd.cellY = cellY)).map DrawCmd.tileIdx).Pairwise
        (fun i j => j < i)
      ∧ (∀ cmd ∈ (out.drop window.length).filter fun cmd =>
            decide (cmd.cellX = cellX ∧ cmd.cellY = cellY),
          (tileGrid cellX cellY)[cmd.tileIdx]? = some cmd.tile)
      ∧ (((out.drop window.length).filter fun cmd =>
          decide (cmd.cellX = cellX ∧ cmd.cellY = cellY)).map DrawCmd.tile).Sublist
          (tileGrid cellX cellY).reverse := by
  have hwin := drawLayer_window x y cellCountX cellCountY cellPixelSize tileGrid tilesetImage
    window
  rw [hrun] at hwin
  cases hscan : scanLayer cellCountX cellCountY tileGrid with
  | none => rw [hscan] at hwin; simp at hwin
  | some paints =>
    rw [hscan] at hwin
    simp only [Option.map_some', Option.some.injEq] at hwin
    have hsub : (out.drop window.length).filter
        (fun cmd => decide (cmd.cellX = cellX ∧ cmd.cellY = cellY))
        = (paints.filter fun p => decide (p.cellX = cellX ∧ p.cellY = cellY)).map
            (render tilesetImage.image tilesetImage.tiles cellPixelSize x y) := by
      rw [hwin, List.drop_left, List.filter_map]
      rfl
    obtain ⟨h1, h2⟩ := scanLayer_cell_order cellCountX cellCountY tileGrid paints hscan cellX cellY
    rw [hsub]
    refine ⟨?_, fun cmd hcmd => ?_, ?_⟩
    · rw [List.map_map]
      exact h1
    · obtain ⟨p, hp, hcmd1⟩ := List.mem_map.mp hcmd
      subst hcmd1
      obtain ⟨hmem, hp1⟩ := List.mem_filter.mp hp
      simp only [decide_eq_true_eq] at hp1
      have := scanLayer_inGrid cellCountX cellCountY tileGrid paints hscan p hmem
      unfold PaintInGrid at this
      rw [hp1.1, hp1.2] at this
      exact this
    · rw [List.map_map]
      exact h2

/-- C14 on a 2x1 layer whose cell (0,0) holds a right-offset tile (index 1) between two
plain tiles: the tile of index 2 is painted at once, the tiles of indices 1
and 0 later through `drawTiles`, after the tile of cell (1,0); the calls of
cell (0,0) come at the indices 2, 1, 0. -/
theorem drawLayer_cell_order_witness :
    ∃ tilesetImage1 out,
      drawLayer 0 0 2 1 16
        (gridOfRows [[[plainTile 1 0, rightTile 2 5, plainTile 3 6], [plainTile 3 9]]])
        sampleImage [] = some (tilesetImage1, out)
      ∧ out.map (fun cmd => (cmd.cellX, cmd.cellY, cmd.tileIdx))
          = [(0, 0, 2), (1, 0, 0), (0, 0, 1), (0, 0, 0)]
      ∧ (((out.drop ([] : List DrawCmd).length).filter fun cmd =>
          decide (cmd.cellX = 0 ∧ cmd.cellY = 0)).map DrawCmd.tileIdx).Pairwise
          (fun i j => j < i) := by
  have hrun := drawLayer_eq_scanLayer 0 0 2 1 16
    (gridOfRows [[[plainTile 1 0, rightTile 2 5, plainTile 3 6], [plainTile 3 9]]]) sampleImage []
  have hscan : scanLayer 2 1
      (gridOfRows [[[plainTile 1 0, rightTile 2 5, plainTile 3 6], [plainTile 3 9]]])
      = some [⟨false, 0, 0, 2, plainTile 3 6⟩, ⟨false, 1, 0, 0, plainTile 3 9⟩,
              ⟨true, 0, 0, 1, rightTile 2 5⟩, ⟨true, 0, 0, 0, plainTile 1 0⟩] := by decide
  rw [hscan] at hrun
  obtain ⟨img1, _, hrun⟩ := hrun
  refine ⟨img1, _, hrun, by decide, ?_⟩
  exact (drawLayer_cell_order 0 0 2 1 16 _ sampleImage img1 [] _ hrun 0 0).1

/-! ## Where the scan can fail -/

theorem scanCellTiles_total (cellCountX : Nat) (tileGrid : TileGrid) (cellX cellY : Nat)
    (tiles : tiles_t) :
    ∀ (rest : List TileInCell) (tileIdx : Nat) (t : ScanState),
      ValidDelayed t.delayed → (∃ l, tiles = rest.reverse ++ l) →
      tileIdx = (rest.length + 255) % 256 →
      ∃ t1, scanCellTiles cellCountX tileGrid cellX cellY tiles rest tileIdx t = some t1
        ∧ ValidDelayed t1.delayed := by
  intro rest
  induction rest with
  | nil =>
    intro tileIdx t hvalid _ _
    exact ⟨t, by rw [scanCellTiles], hvalid⟩
  | cons tile rest ih =>
    intro tileIdx t hvalid hpre hidx
    obtain ⟨l, hl⟩ := hpre
    rw [scanCellTiles]
    split
    · refine ⟨_, rfl, fun d hd => ?_⟩
      simp only [Option.some.injEq] at hd
      subst hd
      simp only
      have hlen : tiles.length = rest.length + 1 + l.length := by
        rw [hl]; simp; omega
      simp only [List.length_cons] at hidx
      omega
    · have hflush : ∃ t2, (match t.delayed with
            | none => some t
            | some d =>
              if cellX ≠ d.cellX ∧ d.rulePriority > tile.priority then scanFlush d t
              else some t) = some t2 ∧ ValidDelayed t2.delayed := by
        cases hdel : t.delayed with
        | none => exact ⟨t, rfl, by rw [hdel]; intro d hd; cases hd⟩
        | some d =>
          simp only
          split
          · obtain ⟨t2, h1, h2⟩ := scanFlush_valid d t (hvalid d hdel)
            exact ⟨t2, h1, by rw [h2]; intro d1 hd1; cases hd1⟩
          · exact ⟨t, rfl, hvalid⟩
      obtain ⟨t2, h1, h2⟩ := hflush
      rw [h1]
      simp only
      refine ih _ _ h2 ⟨[tile] ++ l, by rw [hl]; simp⟩ ?_
      simp only [List.length_cons] at hidx
      omega

theorem scanCell_total (cellCountX : Nat) (tileGrid : TileGrid) (cellY : Nat) (t : ScanState)
    (cellX : Nat) (hvalid : ValidDelayed t.delayed) :
    (∃ t1, scanCell cellCountX tileGrid cellY t cellX = some t1 ∧ ValidDelayed t1.delayed)
      ∨ (scanCell cellCountX tileGrid cellY t cellX = none ∧ tileGrid cellX cellY = []
          ∧ ∃ d, t.delayed = some d ∧ cellX ≠ d.cellX) := by
  obtain ⟨t1, hloop, hvalid1⟩ := scanCellTiles_total cellCountX tileGrid cellX cellY
    (tileGrid cellX cellY) (tileGrid cellX cellY).reverse
    (((tileGrid cellX cellY).length + 255) % 256) t hvalid ⟨[], by simp⟩ (by simp)
  unfold scanCell
  simp only
  rw [hloop]
  simp only
  cases hdel : t1.delayed with
  | none => exact Or.inl ⟨t1, rfl, by rw [hdel]; intro d hd; cases hd⟩
  | some d =>
    simp only
    by_cases hne : cellX ≠ d.cellX
    · rw [if_pos hne]
      cases hstack : tileGrid cellX cellY with
      | nil =>
        refine Or.inr ⟨rfl, rfl, d, ?_, hne⟩
        rw [hstack, List.reverse_nil, scanCellTiles] at hloop
        cases hloop
        exact hdel
      | cons front more =>
        simp only [List.head?_cons]
        split
        · obtain ⟨t2, h1, h2⟩ := scanFlush_valid d t1 (hvalid1 d hdel)
          exact Or.inl ⟨t2, h1, by rw [h2]; intro d1 hd1; cases hd1⟩
        · exact Or.inl ⟨t1, rfl, hvalid1⟩
    · rw [if_neg hne]
      exact Or.inl ⟨t1, rfl, hvalid1⟩

theorem foldlM_range_fails {σ : Type} (inv : σ → Prop) (bad : Nat → Prop)
    (f : σ → Nat → Option σ)
    (hstep : ∀ i s, inv s → (∃ s1, f s i = some s1 ∧ inv s1) ∨ (f s i = none ∧ bad i)) :
    ∀ (n : Nat) (s : σ), inv s →
      (∃ s1, (List.range n).foldlM f s = some s1 ∧ inv s1)
        ∨ ((List.range n).foldlM f s = none ∧ ∃ i, i < n ∧ bad i) := by
  intro n
  induction n with
  | zero => intro s hs; exact Or.inl ⟨s, rfl, hs⟩
  | succ n ih =>
    intro s hs
    rw [List.range_succ, List.foldlM_append]
    rcases ih s hs with ⟨s1, h1, h2⟩ | ⟨h1, i, hi, hbad⟩
    · rw [h1]
      simp only [Option.bind_eq_bind, Option.some_bind, List.foldlM_cons, List.foldlM_nil,
        Option.pure_def, Option.bind_some]
      rcases hstep n s1 h2 with ⟨s2, h3, h4⟩ | ⟨h3, hbad⟩
      · exact Or.inl ⟨s2, h3, h4⟩
      · exact Or.inr ⟨h3, n, by omega, hbad⟩
    · rw [h1]
      exact Or.inr ⟨rfl, i, by omega, hbad⟩

theorem scanLayer_fails_only_on_empty (cellCountX cellCountY : Nat) (tileGrid : TileGrid)
    (hrun : scanLayer cellCountX cellCountY tileGrid = none) :
    ∃ cellY, cellY < cellCountY ∧ ∃ cellX, cellX < cellCountX ∧ tileGrid cellX cellY = [] := by
  have hrows := foldlM_range_fails (fun s : ScanState => ValidDelayed s.delayed)
    (fun cellY => ∃ cellX, cellX < cellCountX ∧ tileGrid cellX cellY = [])
    (scanRow cellCountX tileGrid)
    (fun cellY s hs => by
      have hcells := foldlM_range_fails (fun s : ScanState => ValidDelayed s.delayed)
        (fun cellX => tileGrid cellX cellY = []) (scanCell cellCountX tileGrid cellY)
        (fun cellX s1 hs1 => by
          rcases scanCell_total cellCountX tileGrid cellY s1 cellX hs1 with h | ⟨h1, h2, _⟩
          · exact Or.inl h
          · exact Or.inr ⟨h1, h2⟩)
        cellCountX s hs
      exact hcells)
    cellCountY { painted := [], delayed := none } (fun d hd => by cases hd)
  unfold scanLayer scanRows at hrun
  rcases hrows with ⟨s1, h1, _⟩ | ⟨_, h2⟩
  · rw [h1] at hrun
    cases hrun
  · exact h2

theorem drawLayer_fails_only_on_empty (x y : Int) (cellCountX cellCountY cellPixelSize : Nat)
    (tileGrid : TileGrid) (tilesetImage : TileSetImage) (window : List DrawCmd)
    (hrun : drawLayer x y cellCountX cellCountY cellPixelSize tileGrid tilesetImage window = none) :
    ∃ cellY, cellY < cellCountY ∧ ∃ cellX, cellX < cellCountX ∧ tileGrid cellX cellY = [] := by
  apply scanLayer_fails_only_on_empty
  have h := drawLayer_eq_scanLayer x y cellCountX cellCountY cellPixelSize tileGrid tilesetImage
    window
  cases hscan : scanLayer cellCountX cellCountY tileGrid with
  | none => rfl
  | some paints =>
    rw [hscan] at h
    obtain ⟨img1, _, h1⟩ := h
    rw [hrun] at h1
    cases h1

/-! ## Tiles that are painted at once -/

theorem scanFlush_keeps (d : DelayedDraw) (t t1 : ScanState) (hrun : scanFlush d t = some t1) :
    ∀ p ∈ t.painted, p ∈ t1.painted := by
  unfold scanFlush at hrun
  cases hps : scanDelayed d with
  | none => rw [hps] at hrun; cases hrun
  | some ps =>
    rw [hps] at hrun
    simp only [Option.some.injEq] at hrun
    subst hrun
    intro p hp
    exact List.mem_append_left _ hp

theorem scanCellTiles_paints_behind (cellCountX : Nat) (tileGrid : TileGrid) (cellX cellY : Nat)
    (tiles : tiles_t) :
    ∀ (l : List TileInCell) (tileIdx : Nat) (t t1 : ScanState),
      scanCellTiles cellCountX tileGrid cellX cellY tiles l tileIdx t = some t1 →
      (∀ p ∈ t.painted, p ∈ t1.painted)
      ∧ ∀ pre tile post, l = pre ++ tile :: post →
          (∀ u ∈ pre ++ [tile], ¬ (u.hasOffsetRight = true ∧ cellX < cellCountX - 1
            ∧ (tileGrid (cellX + 1) cellY).length > 0)) →
          Paint.mk false cellX cellY post.length tile ∈ t1.painted := by
  intro l
  induction l with
  | nil =>
    intro tileIdx t t1 hrun
    rw [scanCellTiles] at hrun
    cases hrun
    refine ⟨fun p hp => hp, fun pre tile post hl _ => ?_⟩
    cases pre <;> cases hl
  | cons u rest ih =>
    intro tileIdx t t1 hrun
    rw [scanCellTiles] at hrun
    split at hrun
    · rename_i hdelay
      simp only [Option.some.injEq] at hrun
      subst hrun
      refine ⟨fun p hp => hp, fun pre tile post hl hno => ?_⟩
      exfalso
      have hu : u ∈ pre ++ [tile] := by
        cases pre with
        | nil =>
          simp only [List.nil_append, List.cons.injEq] at hl
          rw [hl.1]
          simp
        | cons v pre =>
          simp only [List.cons_append, List.cons.injEq] at hl
          rw [hl.1]
          simp
      apply hno u hu
      simp only [Bool.and_eq_true, decide_eq_true_eq] at hdelay
      exact ⟨hdelay.1.1, hdelay.1.2, hdelay.2⟩
    · have hflush : ∀ t2, (match t.delayed with
            | none => some t
            | some d =>
              if cellX ≠ d.cellX ∧ d.rulePriority > u.priority then scanFlush d t
              else some t) = some t2 → ∀ p ∈ t.painted, p ∈ t2.painted := by
        intro t2 h2
        cases hdel : t.delayed with
        | none =>
          rw [hdel] at h2
          cases h2
          exact fun p hp => hp
        | some d =>
          rw [hdel] at h2
          simp only at h2
          split at h2
          · exact scanFlush_keeps d t t2 h2
          · cases h2
            exact fun p hp => hp
      revert hflush hrun
      generalize (match t.delayed with
            | none => some t
            | some d =>
              if cellX ≠ d.cellX ∧ d.rulePriority > u.priority then scanFlush d t
              else some t) = ft
      intro hrun hflush
      cases ft with
      | none => cases hrun
      | some t2 =>
        simp only at hrun
        have ht2 := hflush t2 rfl
        obtain ⟨ih1, ih2⟩ := ih _ _ t1 hrun
        refine ⟨fun p hp => ih1 p (List.mem_append_left _ (ht2 p hp)),
          fun pre tile post hl hno => ?_⟩
        cases pre with
        | nil =>
          simp only [List.nil_append, List.cons.injEq] at hl
          obtain ⟨h1, h2⟩ := hl
          subst h1
          subst h2
          exact ih1 _ (List.mem_append_right _ (List.mem_singleton.mpr rfl))
        | cons v pre =>
          simp only [List.cons_append, List.cons.injEq] at hl
          exact ih2 pre tile post hl.2
            (fun w hw => hno w (by
              rw [List.cons_append]
              exact List.mem_cons_of_mem _ hw))

theorem scanCell_paints_behind (cellCountX : Nat) (tileGrid : TileGrid) (cellY : Nat)
    (t t1 : ScanState) (cellX : Nat)
    (hrun : scanCell cellCountX tileGrid cellY t cellX = some t1) :
    (∀ p ∈ t.painted, p ∈ t1.painted)
    ∧ ∀ i tile, (tileGrid cellX cellY)[i]? = some tile →
        (∀ j u, i ≤ j → (tileGrid cellX cellY)[j]? = some u →
          ¬ (u.hasOffsetRight = true ∧ cellX < cellCountX - 1
            ∧ (tileGrid (cellX + 1) cellY).length > 0)) →
        Paint.mk false cellX cellY i tile ∈ t1.painted := by
  unfold scanCell at hrun
  simp only at hrun
  cases hloop : scanCellTiles cellCountX tileGrid cellX cellY (tileGrid cellX cellY)
      (tileGrid cellX cellY).reverse (((tileGrid cellX cellY).length + 255) % 256) t with
  | none => rw [hloop] at hrun; cases hrun
  | some t2 =>
    rw [hloop] at hrun
    simp only at hrun
    obtain ⟨h1, h2⟩ := scanCellTiles_paints_behind cellCountX tileGrid cellX cellY _ _ _ t t2 hloop
    have hkeep : ∀ p ∈ t2.painted, p ∈ t1.painted := by
      cases hdel : t2.delayed with
      | none =>
        rw [hdel] at hrun
        cases hrun
        exact fun p hp => hp
      | some d =>
        rw [hdel] at hrun
        simp only at hrun
        split at hrun
        · cases hfront : (tileGrid cellX cellY).head? with
          | none => rw [hfront] at hrun; cases hrun
          | some front =>
            rw [hfront] at hrun
            simp only at hrun
            split at hrun
            · exact scanFlush_keeps d t2 t1 hrun
            · cases hrun
              exact fun p hp => hp
        · cases hrun
          exact fun p hp => hp
    refine ⟨fun p hp => hkeep p (h1 p hp), fun i tile htile hno => ?_⟩
    obtain ⟨hi, hget⟩ := List.getElem?_eq_some_iff.mp htile
    have hsplit : tileGrid cellX cellY
        = (tileGrid cellX cellY).take i ++ tile :: (tileGrid cellX cellY).drop (i + 1) := by
      rw [← hget, ← List.drop_eq_getElem_cons hi, List.take_append_drop]
    have hrev : (tileGrid cellX cellY).reverse
        = ((tileGrid cellX cellY).drop (i + 1)).reverse
          ++ tile :: ((tileGrid cellX cellY).take i).reverse := by
      conv_lhs => rw [hsplit]
      simp
    have hmem := h2 _ tile _ hrev (by
      intro u hu
      rcases List.mem_append.mp hu with h | h
      · rw [List.mem_reverse] at h
        obtain ⟨n, hn, hun⟩ := List.mem_iff_getElem.mp h
        rw [List.getElem_drop] at hun
        refine hno (i + 1 + n) u (by omega) ?_
        rw [List.length_drop] at hn
        rw [List.getElem?_eq_getElem (by omega), hun]
      · rw [List.mem_singleton] at h
        subst h
        exact hno i u (le_refl _) htile)
    have hlen : ((tileGrid cellX cellY).take i).reverse.length = i := by
      rw [List.length_reverse, List.length_take]
      omega
    rw [hlen] at hmem
    exact hkeep _ hmem

theorem scanRow_paints_behind (cellCountX : Nat) (tileGrid : TileGrid) (cellY : Nat)
    (t t1 : ScanState) (hrun : scanRow cellCountX tileGrid t cellY = some t1) :
    (∀ p ∈ t.painted, p ∈ t1.painted)
    ∧ ∀ cellX, cellX < cellCountX → ∀ i tile, (tileGrid cellX cellY)[i]? = some tile →
        (∀ j u, i ≤ j → (tileGrid cellX cellY)[j]? = some u →
          ¬ (u.hasOffsetRight = true ∧ cellX < cellCountX - 1
            ∧ (tileGrid (cellX + 1) cellY).length > 0)) →
        Paint.mk false cellX cellY i tile ∈ t1.painted := by
  unfold scanRow at hrun
  have h := foldlM_range_invariant
    (fun n s => (∀ p ∈ t.painted, p ∈ s.painted)
      ∧ ∀ cellX, cellX < n → ∀ i tile, (tileGrid cellX cellY)[i]? = some tile →
          (∀ j u, i ≤ j → (tileGrid cellX cellY)[j]? = some u →
            ¬ (u.hasOffsetRight = true ∧ cellX < cellCountX - 1
              ∧ (tileGrid (cellX + 1) cellY).length > 0)) →
          Paint.mk false cellX cellY i tile ∈ s.painted)
    (scanCell cellCountX tileGrid cellY) cellCountX
    (by
      intro n _ s s1 hs hcell
      obtain ⟨h1, h2⟩ := scanCell_paints_behind cellCountX tileGrid cellY s s1 n hcell
      refine ⟨fun p hp => h1 p (hs.1 p hp), fun cellX hX i tile htile hno => ?_⟩
      rcases Nat.lt_succ_iff_lt_or_eq.mp hX with hlt | heq
      · exact h1 _ (hs.2 cellX hlt i tile htile hno)
      · subst heq
        exact h2 i tile htile hno)
    t t1 ⟨fun p hp => hp, fun cellX hX => absurd hX (Nat.not_lt_zero _)⟩ hrun
  exact h

theorem scanLayer_paints_behind (cellCountX cellCountY : Nat) (tileGrid : TileGrid)
    (paints : List Paint) (hrun : scanLayer cellCountX cellCountY tileGrid = some paints) :
    ∀ cellY, cellY < cellCountY → ∀ cellX, cellX < cellCountX →
      ∀ i tile, (tileGrid cellX cellY)[i]? = some tile →
        (∀ j u, i ≤ j → (tileGrid cellX cellY)[j]? = some u →
          ¬ (u.hasOffsetRight = true ∧ cellX < cellCountX - 1
            ∧ (tileGrid (cellX + 1) cellY).length > 0)) →
        Paint.mk false cellX cellY i tile ∈ paints := by
  unfold scanLayer at hrun
  cases hrows : scanRows cellCountX cellCountY tileGrid { painted := [], delayed := none } with
  | none => rw [hrows] at hrun; cases hrun
  | some t =>
    rw [hrows] at hrun
    simp only [Option.some.injEq] at hrun
    subst hrun
    unfold scanRows at hrows
    exact foldlM_range_invariant
      (fun n s => ∀ cellY, cellY < n → ∀ cellX, cellX < cellCountX →
        ∀ i tile, (tileGrid cellX cellY)[i]? = some tile →
          (∀ j u, i ≤ j → (tileGrid cellX cellY)[j]? = some u →
            ¬ (u.hasOffsetRight = true ∧ cellX < cellCountX - 1
              ∧ (tileGrid (cellX + 1) cellY).length > 0)) →
          Paint.mk false cellX cellY i tile ∈ s.painted)
      (scanRow cellCountX tileGrid) cellCountY
      (by
        intro n _ s s1 hs hrow
        obtain ⟨h1, h2⟩ := scanRow_paints_behind cellCountX tileGrid n s s1 hrow
        intro cellY hY cellX hX i tile htile hno
        rcases Nat.lt_succ_iff_lt_or_eq.mp hY with hlt | heq
        · exact h1 _ (hs cellY hlt cellX hX i tile htile hno)
        · subst heq
          exact h2 cellX hX i tile htile hno)
      _ t (fun cellY hY => absurd hY (Nat.not_lt_zero _)) hrows

/-- C5, counterexample: the tile id 7 is not a key of the index, yet the tile that
carries it gets its draw call, with the zeroed texture rectangle. -/
theorem drawLayer_unindexed_tile_counterexample :
    sampleImage.tiles 7 = none
      ∧ ((drawLayer 0 0 1 1 16 (gridOfRows [[[plainTile 7 0]]]) sampleImage []).map Prod.snd).map
          (List.map fun cmd => (cmd.label, cmd.textureRect))
        = some [((0, 0, 7), ⟨0, 0, 0, 0⟩)] := by
  refine ⟨by decide, ?_⟩
  rw [drawLayer_window]
  decide

/-- C5, as the code has it: a tile whose id is not a key of the index is not skipped;
`draw` treats it as any other tile.  Whatever the index holds, `draw` issues
the same draw calls in the same order up to their texture rectangles, and the
texture rectangle of a call is the one `operator[]` reads for the id of its
tile: the registered rectangle, or the zeroed rectangle for an id that is not
a key; so the calls of the other tiles are what they would be with the id
registered.  When `draw` completes the layer, every tile of a cell of the
layer that has no delaying tile at its index or behind it in its stack (a
right-offset tile in a cell left of the last column whose right neighbour
holds tiles) gets its draw call, with that rectangle; and in a layer without
any delaying tile `draw` completes and every tile of every cell gets its draw
call. -/
theorem drawLayer_unindexed_tile_still_drawn (x y : Int)
    (cellCountX cellCountY cellPixelSize : Nat) (tileGrid : TileGrid)
    (tilesetImage : TileSetImage) (window : List DrawCmd) :
    (∀ tiles1 : UMap Int IntRect,
        ((drawLayer x y cellCountX cellCountY cellPixelSize tileGrid tilesetImage window).map
            Prod.snd).map (fun out => (out.drop window.length).map DrawCmd.withoutRect)
          = ((drawLayer x y cellCountX cellCountY cellPixelSize tileGrid
              { tilesetImage with tiles := tiles1 } window).map
            Prod.snd).map (fun out => (out.drop window.length).map DrawCmd.withoutRect))
      ∧ (∀ tilesetImage1 out,
          drawLayer x y cellCountX cellCountY cellPixelSize tileGrid tilesetImage window
            = some (tilesetImage1, out) →
          ∀ cmd ∈ out.drop window.length,
            cmd.textureRect = rectOf tilesetImage.tiles cmd.tile.tileId
            ∧ (tilesetImage.tiles cmd.tile.tileId = none → cmd.textureRect = ⟨0, 0, 0, 0⟩))
      ∧ (∀ tilesetImage1 out,
          drawLayer x y cellCountX cellCountY cellPixelSize tileGrid tilesetImage window
            = some (tilesetImage1, out) →
          ∀ cellX cellY i tile, cellX < cellCountX → cellY < cellCountY →
            (tileGrid cellX cellY)[i]? = some tile →
            (∀ j u, i ≤ j → (tileGrid cellX cellY)[j]? = some u →
              ¬ (u.hasOffsetRight = true ∧ cellX < cellCountX - 1
                ∧ (tileGrid (cellX + 1) cellY).length > 0)) →
            ∃ cmd ∈ out.drop window.length,
              cmd.cellX = cellX ∧ cmd.cellY = cellY ∧ cmd.tileIdx = i ∧ cmd.tile = tile
              ∧ cmd.textureRect = rectOf tilesetImage.tiles tile.tileId
              ∧ (tilesetImage.tiles tile.tileId = none → cmd.textureRect = ⟨0, 0, 0, 0⟩))
      ∧ (NoDelay cellCountX cellCountY tileGrid →
          ∃ tilesetImage1 out,
            drawLayer x y cellCountX cellCountY cellPixelSize tileGrid tilesetImage window
              = some (tilesetImage1, out)
            ∧ ∀ cellX cellY i tile, cellX < cellCountX → cellY < cellCountY →
                (tileGrid cellX cellY)[i]? = some tile →
                ∃ cmd ∈ out.drop window.length,
                  cmd.cellX = cellX ∧ cmd.cellY = cellY ∧ cmd.tileIdx = i ∧ cmd.tile = tile
                  ∧ cmd.textureRect = rectOf tilesetImage.tiles tile.tileId
                  ∧ (tilesetImage.tiles tile.tileId = none
                      → cmd.textureRect = ⟨0, 0, 0, 0⟩)) := by
  have hzero : ∀ tileId, tilesetImage.tiles tileId = none →
      rectOf tilesetImage.tiles tileId = ⟨0, 0, 0, 0⟩ := by
    intro tileId hnone
    rw [rectOf, hnone]
    rfl
  have hdrawn : ∀ tilesetImage1 out,
      drawLayer x y cellCountX cellCountY cellPixelSize tileGrid tilesetImage window
        = some (tilesetImage1, out) →
      ∀ cellX cellY i tile, cellX < cellCountX → cellY < cellCountY →
        (tileGrid cellX cellY)[i]? = some tile →
        (∀ j u, i ≤ j → (tileGrid cellX cellY)[j]? = some u →
          ¬ (u.hasOffsetRight = true ∧ cellX < cellCountX - 1
            ∧ (tileGrid (cellX + 1) cellY).length > 0)) →
        ∃ cmd ∈ out.drop window.length,
          cmd.cellX = cellX ∧ cmd.cellY = cellY ∧ cmd.tileIdx = i ∧ cmd.tile = tile
          ∧ cmd.textureRect = rectOf tilesetImage.tiles tile.tileId
          ∧ (tilesetImage.tiles tile.tileId = none → cmd.textureRect = ⟨0, 0, 0, 0⟩) := by
    intro tilesetImage1 out hrun cellX cellY i tile hX hY htile hno
    have hwin := drawLayer_window x y cellCountX cellCountY cellPixelSize tileGrid tilesetImage
      window
    rw [hrun] at hwin
    cases hscan : scanLayer cellCountX cellCountY tileGrid with
    | none => rw [hscan] at hwin; simp at hwin
    | some paints =>
      rw [hscan] at hwin
      simp only [Option.map_some', Option.some.injEq] at hwin
      have hp := scanLayer_paints_behind cellCountX cellCountY tileGrid paints hscan cellY hY
        cellX hX i tile htile hno
      refine ⟨render tilesetImage.image tilesetImage.tiles cellPixelSize x y
        (Paint.mk false cellX cellY i tile), ?_, rfl, rfl, rfl, rfl, rfl, hzero _⟩
      rw [hwin, List.drop_left]
      exact List.mem_map_of_mem _ hp
  refine ⟨?_, ?_, hdrawn, ?_⟩
  · intro tiles1
    rw [drawLayer_window, drawLayer_window]
    cases scanLayer cellCountX cellCountY tileGrid with
    | none => rfl
    | some paints =>
      simp only [Option.map_some', List.drop_left, List.map_map]
      rfl
  · intro tilesetImage1 out hrun cmd hcmd
    have hwin := drawLayer_window x y cellCountX cellCountY cellPixelSize tileGrid tilesetImage
      window
    rw [hrun] at hwin
    cases hscan : scanLayer cellCountX cellCountY tileGrid with
    | none => rw [hscan] at hwin; simp at hwin
    | some paints =>
      rw [hscan] at hwin
      simp only [Option.map_some', Option.some.injEq] at hwin
      rw [hwin, List.drop_left, List.mem_map] at hcmd
      obtain ⟨p, _, hp⟩ := hcmd
      subst hp
      exact ⟨rfl, hzero _⟩
  · intro hnodelay
    have hrun := drawLayer_eq_scanLayer x y cellCountX cellCountY cellPixelSize tileGrid
      tilesetImage window
    rw [scanLayer_no_delay _ _ _ hnodelay] at hrun
    obtain ⟨img1, _, hrun⟩ := hrun
    refine ⟨img1, _, hrun, fun cellX cellY i tile hX hY htile => ?_⟩
    exact hdrawn img1 _ hrun cellX cellY i tile hX hY htile
      (fun j u _ hu => hnodelay cellY hY cellX hX u (List.getElem?_mem hu))

/-- C5 as the code has it, on a cell holding the unindexed id 7 behind the indexed id 1:
both tiles are drawn, the first with the zeroed rectangle. -/
theorem drawLayer_unindexed_tile_still_drawn_witness :
    ∃ tilesetImage1 out,
      drawLayer 0 0 1 1 16 (gridOfRows [[[plainTile 1 0, plainTile 7 1]]]) sampleImage []
        = some (tilesetImage1, out)
      ∧ out.map (fun cmd => (cmd.label, cmd.textureRect))
        = [((0, 0, 7), ⟨0, 0, 0, 0⟩), ((0, 0, 1), ⟨16, 0, 16, 16⟩)]
      ∧ (∀ cmd ∈ out.drop ([] : List DrawCmd).length,
          cmd.textureRect = rectOf sampleImage.tiles cmd.tile.tileId
          ∧ (sampleImage.tiles cmd.tile.tileId = none → cmd.textureRect = ⟨0, 0, 0, 0⟩))
      ∧ ∃ cmd ∈ out.drop ([] : List DrawCmd).length,
          cmd.cellX = 0 ∧ cmd.cellY = 0 ∧ cmd.tileIdx = 1 ∧ cmd.tile = plainTile 7 1
          ∧ cmd.textureRect = ⟨0, 0, 0, 0⟩ := by
  have hrun := drawLayer_eq_scanLayer 0 0 1 1 16 (gridOfRows [[[plainTile 1 0, plainTile 7 1]]])
    sampleImage []
  have hscan : scanLayer 1 1 (gridOfRows [[[plainTile 1 0, plainTile 7 1]]])
      = some [⟨false, 0, 0, 1, plainTile 7 1⟩, ⟨false, 0, 0, 0, plainTile 1 0⟩] := by decide
  rw [hscan] at hrun
  obtain ⟨img1, _, hrun⟩ := hrun
  have hall := drawLayer_unindexed_tile_still_drawn 0 0 1 1 16
    (gridOfRows [[[plainTile 1 0, plainTile 7 1]]]) sampleImage []
  refine ⟨img1, _, hrun, by decide, hall.2.1 img1 _ hrun, ?_⟩
  obtain ⟨cmd, hcmd, h1, h2, h3, h4, _, h6⟩ := hall.2.2.1 img1 _ hrun 0 0 1 (plainTile 7 1)
    (by decide) (by decide) (by decide)
    (fun j u _ hu hdelay => by
      have hcol : ¬ (0 < 1 - 1) := by decide
      exact hcol hdelay.2.1)
  exact ⟨cmd, hcmd, h1, h2, h3, h4, h6 (by decide)⟩

/-! ## Delayed units that are never painted, and the empty stack -/

/-- C13, the code at two failing inputs (every tile id is in the index).  In the 2x1
layer whose cells hold a right-offset tile of priority 5 and a tile of the
same priority, neither flush test fires and the tile of cell (0,0) is never
painted.  In the 3x1 layer whose cells (0,0) and (1,0) hold right-offset tiles,
the unit delayed at cell (1,0) takes the place of the unit delayed at cell
(0,0), which is never painted either. -/
theorem drawLayer_loses_delayed_unit :
    ((drawLayer 0 0 2 1 16 (gridOfRows [[[rightTile 1 5], [plainTile 2 5]]])
          sampleImage []).map Prod.snd).map (List.map DrawCmd.label)
        = some [(1, 0, 2)]
      ∧ ((drawLayer 0 0 3 1 16
            (gridOfRows [[[rightTile 1 5], [rightTile 2 3], [plainTile 3 9]]])
            sampleImage []).map Prod.snd).map (List.map DrawCmd.label)
        = some [(2, 0, 3), (1, 0, 2)] := by
  refine ⟨?_, ?_⟩
  · rw [drawLayer_window]
    decide
  · rw [drawLayer_window]
    decide

/-- C15, the code at a failing input: the 3x1 layer whose cells hold a right-offset tile
of priority 5, a tile of the same priority, and nothing.  After the cells
(0,0) and (1,0) the unit of cell (0,0) is still delayed; at the empty cell
(2,0) the test of line 276 reads `tiles.front()` of the empty stack, and the
scan of the row and of the layer fails there. -/
theorem drawLayer_reads_front_of_empty_stack :
    gridOfRows [[[rightTile 1 5], [plainTile 2 5], []]] 2 0 = []
      ∧ ((List.range 2).foldlM
          (drawCell 16 (((16 : Nat) : ℚ) * (1 / 2)) 0 0 sampleImage.image 3
            (gridOfRows [[[rightTile 1 5], [plainTile 2 5], []]]) 0)
          { tilesetImage := sampleImage, window := [], delayed := none }).map DrawState.delayed
        = some (some { tiles := [rightTile 1 5], idx := 0, rulePriority := 5, cellX := 0,
                       cellY := 0 })
      ∧ (drawRow 16 (((16 : Nat) : ℚ) * (1 / 2)) 0 0 sampleImage.image 3
          (gridOfRows [[[rightTile 1 5], [plainTile 2 5], []]])
          { tilesetImage := sampleImage, window := [], delayed := none } 0).map DrawState.delayed
        = none
      ∧ (drawLayer 0 0 3 1 16 (gridOfRows [[[rightTile 1 5], [plainTile 2 5], []]])
          sampleImage []).map Prod.snd = none := by
  refine ⟨rfl, by decide, by decide, ?_⟩
  rw [drawLayer_window]
  decide
end LdtkDemo
